import Mathlib

/-!
# ZydisFuzzIn: a shallow embedding of `examples/ZydisFuzzIn.c`

The fuzzing harness reads a control block from standard input, configures a
Zydis decoder and formatter from it, and then streams the remaining input
through `ZydisDecoderDecodeBuffer` / `ZydisFormatterFormatInstruction`.

The Zydis library itself is not part of the harness: it is a parameter of the
model (`Zydis`), a state machine over an arbitrary state type `S` that answers
every call of the harness.  The compile-time constants of the Zydis headers are
a parameter too (`Build`).  Everything the harness does that can be observed
from outside (reads of standard input, lines written to standard error, calls
into the library together with the status they returned) is recorded, in
order, in a log.

Standard input is a finite list of bytes, and `fread` delivers all the bytes it
is asked for unless the input ends first.  The two loops of the streaming part
need not terminate (that depends on the decoder), so they are run for a given
number of iterations (`fuel`); a run that is still inside a loop when the
budget is used up has no exit code yet, and its log is the log so far.
-/

namespace ZydisFuzzIn

/-! ## Machine-level conventions -/

/-- A byte of input (`uint8_t`). -/
abbrev Byte := Nat

/-- Number of values of `size_t` (64-bit target). -/
def SIZE_MOD : Nat := 2 ^ 64

/-- Unsigned subtraction on `size_t`: `a - b` reduced modulo `2^64`. -/
def sizeSub (a b : Nat) : Nat := (a + SIZE_MOD - b % SIZE_MOD) % SIZE_MOD

/-- The value of `EXIT_FAILURE` from `<stdlib.h>`. -/
def EXIT_FAILURE : Nat := 1

/-- Modelled from the spec: `ZydisStatus` and the status codes the harness
tests, declared in the Zydis headers (not in this source file).  Per the
interface description the statuses partition into success, "no more data" and
any other failure; `code` keeps the numeric value of the other failures. -/
inductive ZydisStatus where
  | success
  | noMoreData
  | failure (code : Nat)
  deriving DecidableEq, Repr

/-- Modelled from the spec: the header macro `ZYDIS_SUCCESS(status)`, true
exactly for the success status. -/
def ZYDIS_SUCCESS (status : ZydisStatus) : Bool :=
  match status with
  | .success => true
  | _ => false

/-! ## The control block -/

/-- The record `ZydisFuzzControlBlock`.  The two arrays are indexed by the mode
and attribute number; only indices up to the declared maxima are ever read. -/
structure ZydisFuzzControlBlock where
  machineMode : Nat
  addressWidth : Nat
  decoderMode : Nat → Nat
  formatterStyle : Nat
  formatterAttributes : Nat → Nat

/-- Compile-time constants of the Zydis headers and of the target ABI that the
harness is built against.  `castControlBlock` is the reinterpretation of the
`sizeofControlBlock` raw bytes that `fread` stored as the record. -/
structure Build where
  ZYDIS_VERSION : Nat
  ZYDIS_DECODER_MODE_MAX_VALUE : Nat
  ZYDIS_FORMATTER_ATTRIB_MAX_VALUE : Nat
  ZYDIS_MAX_INSTRUCTION_LENGTH : Nat
  sizeofControlBlock : Nat
  castControlBlock : List Byte → ZydisFuzzControlBlock

/-- The value of `sizeof(readBuf)` for `uint8_t readBuf[ZYDIS_MAX_INSTRUCTION_LENGTH * 1024]`. -/
def sizeofReadBuf (B : Build) : Nat := B.ZYDIS_MAX_INSTRUCTION_LENGTH * 1024

/-- The value of `sizeof(printBuffer)` for `char printBuffer[256]`. -/
def sizeofPrintBuffer : Nat := 256

/-! ## The library -/

/-- The Zydis entry points the harness calls.  `S` is the state of the library
side (the `decoder` and `formatter` objects and whatever else a test double
keeps), `I` the type of `ZydisDecodedInstruction`.  Every call takes the
current state and returns the next one together with its results.
`ZydisDecoderDecodeBuffer s buffer bufferLen instructionPointer` receives the
bytes readable through the `buffer` pointer together with the `bufferLen` and
`instructionPointer` arguments. -/
structure Zydis (S I : Type) where
  ZydisGetVersion : Nat
  ZydisDecoderInit : S → Nat → Nat → S × ZydisStatus
  ZydisDecoderEnableMode : S → Nat → Nat → S × ZydisStatus
  ZydisFormatterInit : S → Nat → S × ZydisStatus
  ZydisFormatterSetAttribute : S → Nat → Nat → S × ZydisStatus
  ZydisDecoderDecodeBuffer : S → List Byte → Nat → Nat → S × ZydisStatus × I
  ZydisFormatterFormatInstruction : S → I → Nat → S × ZydisStatus
  length : I → Nat

/-- A call into the decoder or the formatter, with its arguments. -/
inductive Call (I : Type) where
  | decoderInit (machineMode addressWidth : Nat)
  | decoderEnableMode (mode enabled : Nat)
  | formatterInit (style : Nat)
  | formatterSetAttribute (attrib value : Nat)
  | decodeBuffer (buffer : List Byte) (bufferLen instructionPointer : Nat)
  | formatInstruction (instruction : I) (bufferLen : Nat)
  deriving DecidableEq, Repr

/-- One observable action of the harness.  `freadControlBlock size returned`
and `freadBuf offset size returned` are the two `fread` calls (destination,
requested size, returned count), `fputs` a line on standard error and `call` a
library call with the status it returned. -/
inductive Event (I : Type) where
  | freadControlBlock (size returned : Nat)
  | freadBuf (offset size returned : Nat)
  | fputs (line : String)
  | call (c : Call I) (status : ZydisStatus)
  deriving DecidableEq, Repr

/-- What a run of `main` produced: the exit code (`none` while the run has not
yet returned within the given number of loop iterations) and the log. -/
structure Outcome (I : Type) where
  exitCode : Option Nat
  log : List (Event I)
  deriving DecidableEq, Repr

/-! ## The configurator (lines 70-101) -/

/-- The loop `for (mode = 0; mode <= ZYDIS_DECODER_MODE_MAX_VALUE; ++mode)`,
with `remaining` iterations still to run starting at index `mode`.  Returns the
library state, the log and whether every call succeeded. -/
def enableModes {S I : Type} (Z : Zydis S I) (controlBlock : ZydisFuzzControlBlock) :
    Nat → Nat → S → List (Event I) → S × List (Event I) × Bool
  | 0, _, lib, log => (lib, log, true)
  | remaining + 1, mode, lib, log =>
    let enabled := if controlBlock.decoderMode mode ≠ 0 then 1 else 0
    let r := Z.ZydisDecoderEnableMode lib mode enabled
    let log1 := log ++ [Event.call (Call.decoderEnableMode mode enabled) r.2]
    if ZYDIS_SUCCESS r.2 then
      enableModes Z controlBlock remaining (mode + 1) r.1 log1
    else
      (r.1, log1 ++ [Event.fputs "Failed to adjust decoder-mode\n"], false)

/-- The loop `for (attrib = 0; attrib <= ZYDIS_FORMATTER_ATTRIB_MAX_VALUE; ++attrib)`. -/
def setAttributes {S I : Type} (Z : Zydis S I) (controlBlock : ZydisFuzzControlBlock) :
    Nat → Nat → S → List (Event I) → S × List (Event I) × Bool
  | 0, _, lib, log => (lib, log, true)
  | remaining + 1, attrib, lib, log =>
    let r := Z.ZydisFormatterSetAttribute lib attrib (controlBlock.formatterAttributes attrib)
    let log1 := log ++ [Event.call
      (Call.formatterSetAttribute attrib (controlBlock.formatterAttributes attrib)) r.2]
    if ZYDIS_SUCCESS r.2 then
      setAttributes Z controlBlock remaining (attrib + 1) r.1 log1
    else
      (r.1, log1 ++ [Event.fputs "Failed to set formatter-attribute\n"], false)

/-- Lines 70-101 of `main`: decoder init, decoder modes, formatter init,
formatter attributes.  The last component is `false` when `main` returns
`EXIT_FAILURE` from inside this part. -/
def configure {S I : Type} (B : Build) (Z : Zydis S I) (controlBlock : ZydisFuzzControlBlock)
    (lib : S) (log : List (Event I)) : S × List (Event I) × Bool :=
  let r1 := Z.ZydisDecoderInit lib controlBlock.machineMode controlBlock.addressWidth
  let log1 := log ++ [Event.call
    (Call.decoderInit controlBlock.machineMode controlBlock.addressWidth) r1.2]
  if ZYDIS_SUCCESS r1.2 then
    let r2 := enableModes Z controlBlock (B.ZYDIS_DECODER_MODE_MAX_VALUE + 1) 0 r1.1 log1
    if r2.2.2 then
      let r3 := Z.ZydisFormatterInit r2.1 controlBlock.formatterStyle
      let log3 := r2.2.1 ++ [Event.call (Call.formatterInit controlBlock.formatterStyle) r3.2]
      if ZYDIS_SUCCESS r3.2 then
        setAttributes Z controlBlock (B.ZYDIS_FORMATTER_ATTRIB_MAX_VALUE + 1) 0 r3.1 log3
      else
        (r3.1, log3 ++ [Event.fputs "Failed to initialize instruction-formatter\n"], false)
    else
      r2
  else
    (r1.1, log1 ++ [Event.fputs "Failed to initialize decoder\n"], false)

/-! ## The streaming decode loop (lines 103-131) -/

/-- Addition on `size_t`: `a + b` reduced modulo `2^64`. -/
def sizeAdd (a b : Nat) : Nat := (a + b) % SIZE_MOD

/-- The variables of the inner `while` loop that change: the library state,
the cursor `readOffs` (a `size_t`) and the log. -/
structure Inner (S I : Type) where
  lib : S
  readOffs : Nat
  log : List (Event I)

/-- The bytes readable through the pointer `readBuf + readOffs` when the
callee is told there are `len` of them. -/
def window (readBuf : List Byte) (readOffs len : Nat) : List Byte :=
  (readBuf.drop readOffs).take len

/-- One evaluation of the `while` condition (the decode call) followed, when
the loop does not exit, by one execution of its body.  The flag is `true` when
the loop goes round again and `false` when the status was
`ZYDIS_STATUS_NO_MORE_DATA`. -/
def innerStep {S I : Type} (Z : Zydis S I) (readBuf : List Byte) (numBytesRead : Nat)
    (st : Inner S I) : Inner S I × Bool :=
  let len := sizeSub numBytesRead st.readOffs
  let buffer := window readBuf st.readOffs len
  let r := Z.ZydisDecoderDecodeBuffer st.lib buffer len st.readOffs
  let status := r.2.1
  let instruction := r.2.2
  let log1 := st.log ++ [Event.call (Call.decodeBuffer buffer len st.readOffs) status]
  if status = ZydisStatus.noMoreData then
    ({ lib := r.1, readOffs := st.readOffs, log := log1 }, false)
  else if ZYDIS_SUCCESS status then
    let f := Z.ZydisFormatterFormatInstruction r.1 instruction sizeofPrintBuffer
    ({ lib := f.1, readOffs := sizeAdd st.readOffs (Z.length instruction),
       log := log1 ++ [Event.call (Call.formatInstruction instruction sizeofPrintBuffer) f.2] },
     true)
  else
    ({ lib := r.1, readOffs := sizeAdd st.readOffs 1, log := log1 }, true)

/-- The inner `while` loop, run for at most `fuel` evaluations of its
condition.  The flag tells whether the loop was left within that budget. -/
def innerLoop {S I : Type} (Z : Zydis S I) (readBuf : List Byte) (numBytesRead : Nat) :
    Nat → Inner S I → Inner S I × Bool
  | 0, st => (st, false)
  | fuel + 1, st =>
    let r := innerStep Z readBuf numBytesRead st
    if r.2 then innerLoop Z readBuf numBytesRead fuel r.1 else (r.1, true)

/-- The variables of the outer `do ... while` loop: library state, the unread
rest of standard input, the contents of `readBuf` and the log. -/
structure Outer (S I : Type) where
  lib : S
  stdin : List Byte
  readBuf : List Byte
  log : List (Event I)

/-- The effect of `memmove(readBuf, readBuf + src, n)` on the contents of `readBuf`. -/
def memmove (readBuf : List Byte) (src n : Nat) : List Byte :=
  (readBuf.drop src).take n ++ readBuf.drop n

/-- The effect of `fread(readBuf, 1, size, stdin)` (line 107) on the outer
state: the bytes delivered are stored from the start of `readBuf` and removed
from standard input, and the read is logged.  The second component is the
return value `numBytesRead`. -/
def refill {S I : Type} (size : Nat) (st : Outer S I) : Outer S I × Nat :=
  let data := st.stdin.take size
  ({ lib := st.lib, stdin := st.stdin.drop size,
     readBuf := data ++ st.readBuf.drop data.length,
     log := st.log ++ [Event.freadBuf 0 size data.length] },
   data.length)

/-- Lines 127-130: `if (readOffs < sizeof(readBuf)) memmove(...)`. -/
def carry (B : Build) (readBuf : List Byte) (readOffs : Nat) : List Byte :=
  if readOffs < sizeofReadBuf B then
    memmove readBuf readOffs (sizeSub (sizeofReadBuf B) readOffs)
  else readBuf

/-- What one execution of the body of the outer loop produced. -/
structure Iteration (S I : Type) where
  next : Outer S I
  filled : List Byte
  numBytesRead : Nat
  readOffs : Nat
  completed : Bool

/-- The body of the outer loop (lines 107-130) with an inner loop of at most
`fuel` rounds: refill, inner loop, carry.  `filled` is the buffer as the inner
loop saw it, `readOffs` the cursor when the inner loop stopped, `completed`
whether the inner loop was left within the budget. -/
def outerBody {S I : Type} (B : Build) (Z : Zydis S I) (fuel : Nat) (st : Outer S I) :
    Iteration S I :=
  let f := refill (sizeofReadBuf B) st
  let r := innerLoop Z f.1.readBuf f.2 fuel { lib := f.1.lib, readOffs := 0, log := f.1.log }
  { next := { lib := r.1.lib, stdin := f.1.stdin,
              readBuf := carry B f.1.readBuf r.1.readOffs, log := r.1.log },
    filled := f.1.readBuf,
    numBytesRead := f.2,
    readOffs := r.1.readOffs,
    completed := r.2 }

/-- The outer `do ... while (numBytesRead == sizeof(readBuf))` loop, run for
at most `fuel` iterations, each of whose inner loops gets the same budget. -/
def outerLoop {S I : Type} (B : Build) (Z : Zydis S I) :
    Nat → Outer S I → Outcome I
  | 0, st => { exitCode := none, log := st.log }
  | fuel + 1, st =>
    let it := outerBody B Z (fuel + 1) st
    if it.completed then
      if it.numBytesRead = sizeofReadBuf B then
        outerLoop B Z fuel it.next
      else
        { exitCode := some 0, log := it.next.log }
    else
      { exitCode := none, log := it.next.log }

/-! ## Entry point -/

/-- The function `main`.  `lib` is the initial state of the library side,
`readBuf` the (indeterminate) initial contents of the working buffer, `stdin`
the bytes on standard input and `fuel` the iteration budget of the loops. -/
def main {S I : Type} (B : Build) (Z : Zydis S I) (lib : S) (readBuf : List Byte)
    (fuel : Nat) (stdin : List Byte) : Outcome I :=
  if Z.ZydisGetVersion ≠ B.ZYDIS_VERSION then
    { exitCode := some EXIT_FAILURE, log := [Event.fputs "Invalid zydis version\n"] }
  else
    let data := stdin.take B.sizeofControlBlock
    let log0 := [Event.freadControlBlock B.sizeofControlBlock data.length]
    if data.length ≠ B.sizeofControlBlock then
      { exitCode := some EXIT_FAILURE,
        log := log0 ++ [Event.fputs "not enough bytes to fuzz\n"] }
    else
      let c := configure B Z (B.castControlBlock data) lib log0
      if c.2.2 then
        outerLoop B Z fuel
          { lib := c.1, stdin := stdin.drop B.sizeofControlBlock, readBuf := readBuf,
            log := c.2.1 }
      else
        { exitCode := some EXIT_FAILURE, log := c.2.1 }

/-! ## Reading the log -/

/-- The library calls of a log, in order. -/
def libCalls {I : Type} : List (Event I) → List (Call I)
  | [] => []
  | Event.call c _ :: rest => c :: libCalls rest
  | _ :: rest => libCalls rest

/-- The lines written to standard error, in order. -/
def stderrLines {I : Type} : List (Event I) → List String
  | [] => []
  | Event.fputs line :: rest => line :: stderrLines rest
  | _ :: rest => stderrLines rest

/-- The refills of a log, in order: destination offset in `readBuf`, requested
size and returned count of every `fread` into the working buffer. -/
def refills {I : Type} : List (Event I) → List (Nat × Nat × Nat)
  | [] => []
  | Event.freadBuf offset size returned :: rest => (offset, size, returned) :: refills rest
  | _ :: rest => refills rest

/-- The call that line 112 issues at cursor `readOffs` with occupancy
`numBytesRead`: pointer `readBuf + readOffs`, length `numBytesRead - readOffs`
and `readOffs` as the instruction pointer. -/
def decodeCall {I : Type} (readBuf : List Byte) (numBytesRead readOffs : Nat) : Call I :=
  Call.decodeBuffer (window readBuf readOffs (sizeSub numBytesRead readOffs))
    (sizeSub numBytesRead readOffs) readOffs

/-- What the library answers to the decode call at the cursor of `st`. -/
def decodeAt {S I : Type} (Z : Zydis S I) (readBuf : List Byte) (numBytesRead : Nat)
    (st : Inner S I) : S × ZydisStatus × I :=
  Z.ZydisDecoderDecodeBuffer st.lib (window readBuf st.readOffs (sizeSub numBytesRead st.readOffs))
    (sizeSub numBytesRead st.readOffs) st.readOffs

/-! ## The configuration sequence, as the specification words it -/

/-- The configuration calls in the order the specification prescribes:
decoder init, the decoder modes `0 .. ZYDIS_DECODER_MODE_MAX_VALUE` in
ascending order, formatter init, the formatter attributes
`0 .. ZYDIS_FORMATTER_ATTRIB_MAX_VALUE` in ascending order. -/
def configCalls {I : Type} (B : Build) (controlBlock : ZydisFuzzControlBlock) : List (Call I) :=
  [Call.decoderInit controlBlock.machineMode controlBlock.addressWidth] ++
  (List.range (B.ZYDIS_DECODER_MODE_MAX_VALUE + 1)).map
    (fun i => Call.decoderEnableMode i (if controlBlock.decoderMode i ≠ 0 then 1 else 0)) ++
  [Call.formatterInit controlBlock.formatterStyle] ++
  (List.range (B.ZYDIS_FORMATTER_ATTRIB_MAX_VALUE + 1)).map
    (fun i => Call.formatterSetAttribute i (controlBlock.formatterAttributes i))

/-- The library's answer to one call: its next state and the status. -/
def issue {S I : Type} (Z : Zydis S I) (lib : S) : Call I → S × ZydisStatus
  | Call.decoderInit m w => Z.ZydisDecoderInit lib m w
  | Call.decoderEnableMode m e => Z.ZydisDecoderEnableMode lib m e
  | Call.formatterInit s => Z.ZydisFormatterInit lib s
  | Call.formatterSetAttribute a v => Z.ZydisFormatterSetAttribute lib a v
  | Call.decodeBuffer b l ip =>
    ((Z.ZydisDecoderDecodeBuffer lib b l ip).1, (Z.ZydisDecoderDecodeBuffer lib b l ip).2.1)
  | Call.formatInstruction i n => Z.ZydisFormatterFormatInstruction lib i n

/-- The log entries of a sequence of calls issued one after the other from
state `lib`. -/
def answers {S I : Type} (Z : Zydis S I) : S → List (Call I) → List (Event I)
  | _, [] => []
  | lib, c :: cs => Event.call c (issue Z lib c).2 :: answers Z (issue Z lib c).1 cs

/-- The state of the library after a sequence of calls issued from `lib`. -/
def stateAfter {S I : Type} (Z : Zydis S I) : S → List (Call I) → S
  | lib, [] => lib
  | lib, c :: cs => stateAfter Z (issue Z lib c).1 cs

/-- The position (from 0) of the first call of the sequence that does not
report success when the calls are issued in order from `lib`; `none` when all
of them succeed. -/
def firstFailure {S I : Type} (Z : Zydis S I) : S → List (Call I) → Option Nat
  | _, [] => none
  | lib, c :: cs =>
    if ZYDIS_SUCCESS (issue Z lib c).2 then
      (firstFailure Z (issue Z lib c).1 cs).map (fun k => k + 1)
    else some 0

/-- The line `main` writes to standard error when the given configuration call
fails. -/
def diagnostic {I : Type} : Call I → String
  | Call.decoderInit _ _ => "Failed to initialize decoder\n"
  | Call.decoderEnableMode _ _ => "Failed to adjust decoder-mode\n"
  | Call.formatterInit _ => "Failed to initialize instruction-formatter\n"
  | Call.formatterSetAttribute _ _ => "Failed to set formatter-attribute\n"
  | _ => ""

/-- Issue the calls in order and stop, with the diagnostic, after the first one
that does not succeed. -/
def failFast {S I : Type} (Z : Zydis S I) :
    S → List (Event I) → List (Call I) → S × List (Event I) × Bool
  | lib, log, [] => (lib, log, true)
  | lib, log, c :: cs =>
    if ZYDIS_SUCCESS (issue Z lib c).2 then
      failFast Z (issue Z lib c).1 (log ++ [Event.call c (issue Z lib c).2]) cs
    else
      ((issue Z lib c).1,
       log ++ [Event.call c (issue Z lib c).2] ++ [Event.fputs (diagnostic c)], false)

/-! ## Sample builds and test doubles

Concrete parameters on which the model can be evaluated. -/

/-- A packed sample layout of the control block, one byte per field and array
element, for two decoder modes and two formatter attributes. -/
def sampleCast (bytes : List Byte) : ZydisFuzzControlBlock :=
  { machineMode := bytes.getD 0 0
    addressWidth := bytes.getD 1 0
    decoderMode := fun i => bytes.getD (2 + i) 0
    formatterStyle := bytes.getD 4 0
    formatterAttributes := fun i => bytes.getD (5 + i) 0 }

/-- A sample build: two decoder modes, two formatter attributes, instructions
of at most 15 bytes (a working buffer of 15360 bytes), a 7-byte control block. -/
def sampleBuild : Build :=
  { ZYDIS_VERSION := 2
    ZYDIS_DECODER_MODE_MAX_VALUE := 1
    ZYDIS_FORMATTER_ATTRIB_MAX_VALUE := 1
    ZYDIS_MAX_INSTRUCTION_LENGTH := 15
    sizeofControlBlock := 7
    castControlBlock := sampleCast }

/-- The all-zero control block `CB` of the sample build. -/
def sampleCB : List Byte := [0, 0, 0, 0, 0, 0, 0]

/-- A stateless test double of the library.  `config` answers the
configuration calls, `decode buffer bufferLen instructionPointer` the decode
calls; an instruction is represented by its length and formatting always
succeeds. -/
def fake (version : Nat) (config : Call Nat → ZydisStatus)
    (decode : List Byte → Nat → Nat → ZydisStatus × Nat) : Zydis Unit Nat :=
  { ZydisGetVersion := version
    ZydisDecoderInit := fun _ m w => ((), config (Call.decoderInit m w))
    ZydisDecoderEnableMode := fun _ m e => ((), config (Call.decoderEnableMode m e))
    ZydisFormatterInit := fun _ s => ((), config (Call.formatterInit s))
    ZydisFormatterSetAttribute := fun _ a v => ((), config (Call.formatterSetAttribute a v))
    ZydisDecoderDecodeBuffer := fun _ buffer len ip => ((), decode buffer len ip)
    ZydisFormatterFormatInstruction := fun _ _ _ => ((), ZydisStatus.success)
    length := fun i => i }

/-- A configuration answer that accepts every call. -/
def acceptAll (_ : Call Nat) : ZydisStatus := ZydisStatus.success

/-- A decoder double that reports "no more data" on an empty buffer and an
invalid instruction on everything else. -/
def rejectDecode (_ : List Byte) (len _ : Nat) : ZydisStatus × Nat :=
  if len = 0 then (ZydisStatus.noMoreData, 0) else (ZydisStatus.failure 1, 0)

/-- A decoder double that reports "no more data" on an empty buffer and a
one-byte instruction on everything else. -/
def oneByteDecode (_ : List Byte) (len _ : Nat) : ZydisStatus × Nat :=
  if len = 0 then (ZydisStatus.noMoreData, 0) else (ZydisStatus.success, 1)

/-- The decoder double of scenario S4: "no more data" on an empty buffer, an
invalid instruction at instruction pointer 0 and a two-byte instruction
everywhere else. -/
def slipDecode (_ : List Byte) (len ip : Nat) : ZydisStatus × Nat :=
  if len = 0 then (ZydisStatus.noMoreData, 0)
  else if ip = 0 then (ZydisStatus.failure 1, 0)
  else (ZydisStatus.success, 2)

/-- A decoder double that reports an invalid instruction on every call, the
empty buffer included. -/
def rejectAlways (_ : List Byte) (_ _ : Nat) : ZydisStatus × Nat :=
  (ZydisStatus.failure 1, 0)

/-- A decoder double that reports "no more data" on an empty buffer, a
two-byte instruction when told there is a single byte, and an invalid
instruction otherwise. -/
def overshootDecode (_ : List Byte) (len _ : Nat) : ZydisStatus × Nat :=
  if len = 0 then (ZydisStatus.noMoreData, 0)
  else if len = 1 then (ZydisStatus.success, 2)
  else (ZydisStatus.failure 1, 0)

/-- A configuration answer that rejects decoder init (scenario S6). -/
def rejectInit : Call Nat → ZydisStatus
  | Call.decoderInit _ _ => ZydisStatus.failure 2
  | _ => ZydisStatus.success

/-- The decoder double of scenario S5: "no more data" whenever fewer than
three bytes remain, a one-byte instruction otherwise. -/
def needThree (_ : List Byte) (len _ : Nat) : ZydisStatus × Nat :=
  if len < 3 then (ZydisStatus.noMoreData, 0) else (ZydisStatus.success, 1)

/-- An input for the sample build whose payload is two bytes longer than the
working buffer: the control block, 15358 one-byte `nop`s, and the four-byte
`nop` `66 0F 1F 00`, whose first two bytes end the first 15360-byte refill. -/
def carryInput : List Byte :=
  sampleCB ++ (List.replicate 15358 0x90 ++ [0x66, 0x0F] ++ [0x1F, 0x00])

/-- A control block of the sample build whose first decoder mode holds the raw
value 5 and whose first formatter attribute holds 9; everything else is zero. -/
def flagsCB : List Byte := [0, 0, 5, 0, 0, 9, 0]

/-- The number of decode calls in a log. -/
def decodeCount {I : Type} : List (Event I) → Nat
  | [] => 0
  | Event.call (Call.decodeBuffer _ _ _) _ :: rest => decodeCount rest + 1
  | _ :: rest => decodeCount rest

/-- The number of formatter calls in a log. -/
def formatCount {I : Type} : List (Event I) → Nat
  | [] => 0
  | Event.call (Call.formatInstruction _ _) _ :: rest => formatCount rest + 1
  | _ :: rest => formatCount rest

/-- The arguments of the decode calls of a log, in order: the bytes readable
through the pointer, the length argument and the instruction pointer. -/
def decodeArgs {I : Type} : List (Event I) → List (List Byte × Nat × Nat)
  | [] => []
  | Event.call (Call.decodeBuffer buffer len ip) _ :: rest => (buffer, len, ip) :: decodeArgs rest
  | _ :: rest => decodeArgs rest

/-- The library `Z` with the status that the formatter returns replaced by
`g`; the state the formatter leaves, and every other entry point, are those of
`Z`. -/
def withFormatStatus {S I : Type} (Z : Zydis S I) (g : S → I → Nat → ZydisStatus) :
    Zydis S I :=
  { ZydisGetVersion := Z.ZydisGetVersion
    ZydisDecoderInit := Z.ZydisDecoderInit
    ZydisDecoderEnableMode := Z.ZydisDecoderEnableMode
    ZydisFormatterInit := Z.ZydisFormatterInit
    ZydisFormatterSetAttribute := Z.ZydisFormatterSetAttribute
    ZydisDecoderDecodeBuffer := Z.ZydisDecoderDecodeBuffer
    ZydisFormatterFormatInstruction := fun s i n =>
      ((Z.ZydisFormatterFormatInstruction s i n).1, g s i n)
    length := Z.length }

/-- An event with the status of a formatter call blanked out. -/
def forgetFormatStatus {I : Type} : Event I → Event I
  | Event.call (Call.formatInstruction i n) _ =>
    Event.call (Call.formatInstruction i n) ZydisStatus.success
  | e => e

/-- The decoder double of scenario S3 as worded: a one-byte instruction on
every call, the empty buffer included. -/
def alwaysOneByte (_ : List Byte) (_ _ : Nat) : ZydisStatus × Nat :=
  (ZydisStatus.success, 1)

/-- The iterations of the outer loop that are run within the budget, in order:
the control flow is that of `outerLoop`, and what each execution of the body
produced is kept. -/
def iterations {S I : Type} (B : Build) (Z : Zydis S I) :
    Nat → Outer S I → List (Iteration S I)
  | 0, _ => []
  | fuel + 1, st =>
    let it := outerBody B Z (fuel + 1) st
    if it.completed then
      if it.numBytesRead = sizeofReadBuf B then
        it :: iterations B Z fuel it.next
      else
        [it]
    else
      [it]

/-- A decoder double that reports a two-byte instruction when told there is a
single byte and "no more data" otherwise. -/
def overshootOnce (_ : List Byte) (len _ : Nat) : ZydisStatus × Nat :=
  if len = 1 then (ZydisStatus.success, 2) else (ZydisStatus.noMoreData, 0)

/-- The arguments of the decode calls at the start of a log, up to the next
refill. -/
def decodeArgsUntilRefill {I : Type} : List (Event I) → List (List Byte × Nat × Nat)
  | [] => []
  | Event.freadBuf _ _ _ :: _ => []
  | Event.call (Call.decodeBuffer buffer len ip) _ :: rest =>
    (buffer, len, ip) :: decodeArgsUntilRefill rest
  | _ :: rest => decodeArgsUntilRefill rest

/-- The decode calls of a log, grouped by outer iteration: for every refill,
in order, the count it returned and the arguments of the decode calls logged
between it and the next refill. -/
def callsByRefill {I : Type} : List (Event I) → List (Nat × List (List Byte × Nat × Nat))
  | [] => []
  | Event.freadBuf _ _ returned :: rest =>
    (returned, decodeArgsUntilRefill rest) :: callsByRefill rest
  | _ :: rest => callsByRefill rest

/-- An input for the sample build whose payload is two bytes shorter than two
working buffers: the control block, 15358 one-byte `nop`s, the four-byte `nop`
`66 0F 1F 00`, whose first two bytes end the first 15360-byte refill, and 15356
more one-byte `nop`s. -/
def shortRefillInput : List Byte :=
  sampleCB ++ (List.replicate 15358 0x90 ++ [0x66, 0x0F] ++
    ([0x1F, 0x00] ++ List.replicate 15356 0x90))

/-! ## Theorems -/

/-! ### Unfolding `main` -/

theorem main_version_mismatch {S I : Type} (B : Build) (Z : Zydis S I) (lib : S)
    (readBuf : List Byte) (fuel : Nat) (stdin : List Byte)
    (hv : Z.ZydisGetVersion ≠ B.ZYDIS_VERSION) :
    main B Z lib readBuf fuel stdin =
      { exitCode := some EXIT_FAILURE, log := [Event.fputs "Invalid zydis version\n"] } := by
  unfold main
  rw [if_pos hv]

theorem main_short_read {S I : Type} (B : Build) (Z : Zydis S I) (lib : S)
    (readBuf : List Byte) (fuel : Nat) (stdin : List Byte)
    (hv : Z.ZydisGetVersion = B.ZYDIS_VERSION)
    (hshort : stdin.length < B.sizeofControlBlock) :
    main B Z lib readBuf fuel stdin =
      { exitCode := some EXIT_FAILURE,
        log := [Event.freadControlBlock B.sizeofControlBlock stdin.length,
                Event.fputs "not enough bytes to fuzz\n"] } := by
  have hlen : (List.take B.sizeofControlBlock stdin).length = stdin.length := by
    rw [List.length_take]
    omega
  have hne : (List.take B.sizeofControlBlock stdin).length ≠ B.sizeofControlBlock := by
    omega
  unfold main
  rw [if_neg (not_not.mpr hv)]
  dsimp only
  rw [if_pos hne, hlen]
  rfl

theorem main_configured {S I : Type} (B : Build) (Z : Zydis S I) (lib : S)
    (readBuf : List Byte) (fuel : Nat) (stdin : List Byte)
    (hv : Z.ZydisGetVersion = B.ZYDIS_VERSION)
    (hlong : B.sizeofControlBlock ≤ stdin.length) :
    main B Z lib readBuf fuel stdin =
      if (configure B Z (B.castControlBlock (stdin.take B.sizeofControlBlock)) lib
            [Event.freadControlBlock B.sizeofControlBlock B.sizeofControlBlock]).2.2 then
        outerLoop B Z fuel
          { lib := (configure B Z (B.castControlBlock (stdin.take B.sizeofControlBlock)) lib
              [Event.freadControlBlock B.sizeofControlBlock B.sizeofControlBlock]).1,
            stdin := stdin.drop B.sizeofControlBlock, readBuf := readBuf,
            log := (configure B Z (B.castControlBlock (stdin.take B.sizeofControlBlock)) lib
              [Event.freadControlBlock B.sizeofControlBlock B.sizeofControlBlock]).2.1 }
      else
        { exitCode := some EXIT_FAILURE,
          log := (configure B Z (B.castControlBlock (stdin.take B.sizeofControlBlock)) lib
              [Event.freadControlBlock B.sizeofControlBlock B.sizeofControlBlock]).2.1 } := by
  have hlen : (List.take B.sizeofControlBlock stdin).length = B.sizeofControlBlock := by
    rw [List.length_take]
    omega
  unfold main
  rw [if_neg (not_not.mpr hv)]
  dsimp only
  rw [if_neg (not_not.mpr hlen), hlen]

/-! ### Short control block -/

/-- C8: an input shorter than `sizeof(ZydisFuzzControlBlock)` (the empty input
included) makes `main` return `EXIT_FAILURE` with exactly one line on standard
error and without any call into the decoder or the formatter, whatever the
iteration budget. -/
theorem short_control_block_rejected {S I : Type} (B : Build) (Z : Zydis S I) (lib : S)
    (readBuf : List Byte) (fuel : Nat) (stdin : List Byte)
    (hshort : stdin.length < B.sizeofControlBlock) :
    (main B Z lib readBuf fuel stdin).exitCode = some EXIT_FAILURE ∧
    (stderrLines (main B Z lib readBuf fuel stdin).log).length = 1 ∧
    libCalls (main B Z lib readBuf fuel stdin).log = [] := by
  by_cases hv : Z.ZydisGetVersion = B.ZYDIS_VERSION
  · rw [main_short_read B Z lib readBuf fuel stdin hv hshort]
    exact ⟨rfl, rfl, rfl⟩
  · rw [main_version_mismatch B Z lib readBuf fuel stdin hv]
    exact ⟨rfl, rfl, rfl⟩

/-- Witness for C8: the sample control block truncated by one byte (scenario S2). -/
theorem short_control_block_rejected_witness :
    [0, 0, 0, 0, 0, 0].length < sampleBuild.sizeofControlBlock ∧
    (main sampleBuild (fake 2 acceptAll oneByteDecode) () [] 5 [0, 0, 0, 0, 0, 0]).exitCode
      = some EXIT_FAILURE ∧
    (stderrLines
      (main sampleBuild (fake 2 acceptAll oneByteDecode) () [] 5 [0, 0, 0, 0, 0, 0]).log).length
      = 1 ∧
    libCalls (main sampleBuild (fake 2 acceptAll oneByteDecode) () [] 5 [0, 0, 0, 0, 0, 0]).log
      = [] :=
  ⟨by decide, short_control_block_rejected sampleBuild (fake 2 acceptAll oneByteDecode) () [] 5
    [0, 0, 0, 0, 0, 0] (by decide)⟩

/-! ### One round of the inner loop -/

theorem sizeAdd_of_lt {a b : Nat} (h : a + b < SIZE_MOD) : sizeAdd a b = a + b :=
  Nat.mod_eq_of_lt h

theorem sizeSub_of_le {a b : Nat} (hab : b ≤ a) (ha : a < SIZE_MOD) : sizeSub a b = a - b := by
  unfold sizeSub
  rw [Nat.mod_eq_of_lt (lt_of_le_of_lt hab ha)]
  have h : a + SIZE_MOD - b = (a - b) + SIZE_MOD := by omega
  rw [h, Nat.add_mod_right]
  exact Nat.mod_eq_of_lt (by omega)

theorem innerStep_noMoreData {S I : Type} (Z : Zydis S I) (readBuf : List Byte)
    (numBytesRead : Nat) (st : Inner S I)
    (h : (decodeAt Z readBuf numBytesRead st).2.1 = ZydisStatus.noMoreData) :
    innerStep Z readBuf numBytesRead st =
      ({ lib := (decodeAt Z readBuf numBytesRead st).1, readOffs := st.readOffs,
         log := st.log ++
           [Event.call (decodeCall readBuf numBytesRead st.readOffs) ZydisStatus.noMoreData] },
       false) := by
  unfold decodeAt at h
  unfold innerStep decodeAt decodeCall
  simp only [h, if_true]

theorem innerStep_failure {S I : Type} (Z : Zydis S I) (readBuf : List Byte)
    (numBytesRead : Nat) (st : Inner S I)
    (hfail : (decodeAt Z readBuf numBytesRead st).2.1 ≠ ZydisStatus.success)
    (hmore : (decodeAt Z readBuf numBytesRead st).2.1 ≠ ZydisStatus.noMoreData) :
    innerStep Z readBuf numBytesRead st =
      ({ lib := (decodeAt Z readBuf numBytesRead st).1, readOffs := sizeAdd st.readOffs 1,
         log := st.log ++ [Event.call (decodeCall readBuf numBytesRead st.readOffs)
           (decodeAt Z readBuf numBytesRead st).2.1] },
       true) := by
  have hs : ZYDIS_SUCCESS (decodeAt Z readBuf numBytesRead st).2.1 = false := by
    cases hst : (decodeAt Z readBuf numBytesRead st).2.1 with
    | success => exact absurd hst hfail
    | noMoreData => rfl
    | failure code => rfl
  unfold decodeAt at hs hmore
  unfold innerStep decodeAt decodeCall
  simp only [hs, if_neg hmore, Bool.false_eq_true, if_false]

theorem innerStep_success {S I : Type} (Z : Zydis S I) (readBuf : List Byte)
    (numBytesRead : Nat) (st : Inner S I)
    (hok : (decodeAt Z readBuf numBytesRead st).2.1 = ZydisStatus.success) :
    innerStep Z readBuf numBytesRead st =
      ({ lib := (Z.ZydisFormatterFormatInstruction (decodeAt Z readBuf numBytesRead st).1
            (decodeAt Z readBuf numBytesRead st).2.2 sizeofPrintBuffer).1,
         readOffs := sizeAdd st.readOffs (Z.length (decodeAt Z readBuf numBytesRead st).2.2),
         log := st.log ++
           [Event.call (decodeCall readBuf numBytesRead st.readOffs) ZydisStatus.success] ++
           [Event.call (Call.formatInstruction (decodeAt Z readBuf numBytesRead st).2.2
              sizeofPrintBuffer)
            (Z.ZydisFormatterFormatInstruction (decodeAt Z readBuf numBytesRead st).1
              (decodeAt Z readBuf numBytesRead st).2.2 sizeofPrintBuffer).2] },
       true) := by
  unfold decodeAt at hok
  unfold innerStep decodeAt decodeCall
  simp only [hok, ZYDIS_SUCCESS, if_true]
  simp

/-- Every round of the inner loop starts by logging the decode call at the
current cursor; the rest of the round only appends to the log. -/
theorem innerStep_log {S I : Type} (Z : Zydis S I) (readBuf : List Byte)
    (numBytesRead : Nat) (st : Inner S I) :
    ∃ rest, (innerStep Z readBuf numBytesRead st).1.log =
      st.log ++ [Event.call (decodeCall readBuf numBytesRead st.readOffs)
        (decodeAt Z readBuf numBytesRead st).2.1] ++ rest := by
  by_cases hmore : (decodeAt Z readBuf numBytesRead st).2.1 = ZydisStatus.noMoreData
  · rw [innerStep_noMoreData Z readBuf numBytesRead st hmore, hmore]
    exact ⟨[], by simp⟩
  · by_cases hok : (decodeAt Z readBuf numBytesRead st).2.1 = ZydisStatus.success
    · rw [innerStep_success Z readBuf numBytesRead st hok, hok]
      exact ⟨_, rfl⟩
    · rw [innerStep_failure Z readBuf numBytesRead st hok hmore]
      exact ⟨[], by simp⟩

theorem innerLoop_succ {S I : Type} (Z : Zydis S I) (readBuf : List Byte)
    (numBytesRead : Nat) (fuel : Nat) (st : Inner S I) :
    innerLoop Z readBuf numBytesRead (fuel + 1) st =
      if (innerStep Z readBuf numBytesRead st).2 then
        innerLoop Z readBuf numBytesRead fuel (innerStep Z readBuf numBytesRead st).1
      else ((innerStep Z readBuf numBytesRead st).1, true) := rfl

/-- The inner loop only appends to the log. -/
theorem innerLoop_log_extends {S I : Type} (Z : Zydis S I) (readBuf : List Byte)
    (numBytesRead : Nat) (fuel : Nat) (st : Inner S I) :
    ∃ rest, (innerLoop Z readBuf numBytesRead fuel st).1.log = st.log ++ rest := by
  induction fuel generalizing st with
  | zero => exact ⟨[], by simp [innerLoop]⟩
  | succ fuel ih =>
    obtain ⟨r1, h1⟩ := innerStep_log Z readBuf numBytesRead st
    rw [innerLoop_succ]
    by_cases hc : (innerStep Z readBuf numBytesRead st).2 = true
    · rw [if_pos hc]
      obtain ⟨r2, h2⟩ := ih (innerStep Z readBuf numBytesRead st).1
      rw [h2, h1]
      exact ⟨[Event.call (decodeCall readBuf numBytesRead st.readOffs)
        (decodeAt Z readBuf numBytesRead st).2.1] ++ r1 ++ r2, by simp⟩
    · rw [if_neg hc, h1]
      exact ⟨[Event.call (decodeCall readBuf numBytesRead st.readOffs)
        (decodeAt Z readBuf numBytesRead st).2.1] ++ r1, by simp⟩

/-- With at least one round of budget, the first thing the inner loop logs is
the decode call at its starting cursor. -/
theorem innerLoop_log_first {S I : Type} (Z : Zydis S I) (readBuf : List Byte)
    (numBytesRead : Nat) (fuel : Nat) (st : Inner S I) :
    ∃ rest, (innerLoop Z readBuf numBytesRead (fuel + 1) st).1.log =
      st.log ++ [Event.call (decodeCall readBuf numBytesRead st.readOffs)
        (decodeAt Z readBuf numBytesRead st).2.1] ++ rest := by
  obtain ⟨r1, h1⟩ := innerStep_log Z readBuf numBytesRead st
  rw [innerLoop_succ]
  by_cases hc : (innerStep Z readBuf numBytesRead st).2 = true
  · rw [if_pos hc]
    obtain ⟨r2, h2⟩ := innerLoop_log_extends Z readBuf numBytesRead fuel
      (innerStep Z readBuf numBytesRead st).1
    rw [h2, h1]
    exact ⟨r1 ++ r2, by simp⟩
  · rw [if_neg hc, h1]
    exact ⟨r1, rfl⟩

/-- After a round that goes round again, the next thing logged is the decode
call at the new cursor. -/
theorem innerLoop_after_step {S I : Type} (Z : Zydis S I) (readBuf : List Byte)
    (numBytesRead : Nat) (fuel : Nat) (st st1 : Inner S I)
    (hstep : innerStep Z readBuf numBytesRead st = (st1, true)) :
    ∃ status rest, (innerLoop Z readBuf numBytesRead (fuel + 2) st).1.log =
      st1.log ++ [Event.call (decodeCall readBuf numBytesRead st1.readOffs) status] ++ rest := by
  rw [innerLoop_succ, hstep, if_pos rfl]
  obtain ⟨rest, hrest⟩ := innerLoop_log_first Z readBuf numBytesRead fuel st1
  exact ⟨(decodeAt Z readBuf numBytesRead st1).2.1, rest, hrest⟩

/-! ### Single-byte slip and length advance -/

/-- C3: when the decode call at cursor `o` (below `SIZE_MAX`) returns a status
that is neither success nor "no more data", the round logs the decode call and
nothing else (no formatter call, the library state is the one the decoder
left), the cursor becomes exactly `o + 1` and the loop goes round again; with
budget for it, the next thing logged is the decode call at `o + 1`, that is on
`readBuf + (o + 1)`. -/
theorem single_byte_slip {S I : Type} (Z : Zydis S I) (readBuf : List Byte)
    (numBytesRead : Nat) (st : Inner S I) (fuel : Nat)
    (hfail : (decodeAt Z readBuf numBytesRead st).2.1 ≠ ZydisStatus.success)
    (hmore : (decodeAt Z readBuf numBytesRead st).2.1 ≠ ZydisStatus.noMoreData)
    (hsize : st.readOffs + 1 < SIZE_MOD) :
    innerStep Z readBuf numBytesRead st =
      ({ lib := (decodeAt Z readBuf numBytesRead st).1, readOffs := st.readOffs + 1,
         log := st.log ++ [Event.call (decodeCall readBuf numBytesRead st.readOffs)
           (decodeAt Z readBuf numBytesRead st).2.1] },
       true) ∧
    ∃ status rest, (innerLoop Z readBuf numBytesRead (fuel + 2) st).1.log =
      st.log ++
        [Event.call (decodeCall readBuf numBytesRead st.readOffs)
           (decodeAt Z readBuf numBytesRead st).2.1,
         Event.call (decodeCall readBuf numBytesRead (st.readOffs + 1)) status] ++ rest := by
  have hstep := innerStep_failure Z readBuf numBytesRead st hfail hmore
  rw [sizeAdd_of_lt hsize] at hstep
  refine ⟨hstep, ?_⟩
  obtain ⟨status, rest, hrest⟩ := innerLoop_after_step Z readBuf numBytesRead fuel st _ hstep
  exact ⟨status, rest, by rw [hrest]; simp⟩

/-- Witness for C3: scenario S4 at offset 0 of a three-byte buffer. -/
theorem single_byte_slip_witness :
    (decodeAt (fake 2 acceptAll slipDecode) [0xFF, 0x66, 0x90] 3
        { lib := (), readOffs := 0, log := [] }).2.1 ≠ ZydisStatus.success ∧
    innerStep (fake 2 acceptAll slipDecode) [0xFF, 0x66, 0x90] 3
        { lib := (), readOffs := 0, log := [] } =
      ({ lib := (), readOffs := 1,
         log := [Event.call (Call.decodeBuffer [0xFF, 0x66, 0x90] 3 0) (ZydisStatus.failure 1)] },
       true) ∧
    ∃ status rest, (innerLoop (fake 2 acceptAll slipDecode) [0xFF, 0x66, 0x90] 3 2
        { lib := (), readOffs := 0, log := [] }).1.log =
      [Event.call (Call.decodeBuffer [0xFF, 0x66, 0x90] 3 0) (ZydisStatus.failure 1),
       Event.call (Call.decodeBuffer [0x66, 0x90] 2 1) status] ++ rest :=
  ⟨by decide,
   single_byte_slip (fake 2 acceptAll slipDecode) [0xFF, 0x66, 0x90] 3
     { lib := (), readOffs := 0, log := [] } 0 (by decide) (by decide) (by decide)⟩

/-- C4: when the decode call at cursor `o` returns success with an instruction
of length `L` (and `o + L` fits `size_t`), the round logs the decode call and
then exactly one formatter call, on that instruction and with the 256-byte
scratch buffer; the cursor becomes exactly `o + L` and the loop goes round
again; with budget for it, the next thing logged is the decode call at
`o + L`, that is on `readBuf + (o + L)`. -/
theorem length_advance_on_success {S I : Type} (Z : Zydis S I) (readBuf : List Byte)
    (numBytesRead : Nat) (st : Inner S I) (fuel : Nat)
    (hok : (decodeAt Z readBuf numBytesRead st).2.1 = ZydisStatus.success)
    (hsize : st.readOffs + Z.length (decodeAt Z readBuf numBytesRead st).2.2 < SIZE_MOD) :
    innerStep Z readBuf numBytesRead st =
      ({ lib := (Z.ZydisFormatterFormatInstruction (decodeAt Z readBuf numBytesRead st).1
            (decodeAt Z readBuf numBytesRead st).2.2 256).1,
         readOffs := st.readOffs + Z.length (decodeAt Z readBuf numBytesRead st).2.2,
         log := st.log ++
           [Event.call (decodeCall readBuf numBytesRead st.readOffs) ZydisStatus.success,
            Event.call (Call.formatInstruction (decodeAt Z readBuf numBytesRead st).2.2 256)
              (Z.ZydisFormatterFormatInstruction (decodeAt Z readBuf numBytesRead st).1
                (decodeAt Z readBuf numBytesRead st).2.2 256).2] },
       true) ∧
    ∃ status rest, (innerLoop Z readBuf numBytesRead (fuel + 2) st).1.log =
      st.log ++
        [Event.call (decodeCall readBuf numBytesRead st.readOffs) ZydisStatus.success,
         Event.call (Call.formatInstruction (decodeAt Z readBuf numBytesRead st).2.2 256)
           (Z.ZydisFormatterFormatInstruction (decodeAt Z readBuf numBytesRead st).1
             (decodeAt Z readBuf numBytesRead st).2.2 256).2,
         Event.call (decodeCall readBuf numBytesRead
           (st.readOffs + Z.length (decodeAt Z readBuf numBytesRead st).2.2)) status] ++
        rest := by
  have hstep := innerStep_success Z readBuf numBytesRead st hok
  rw [sizeAdd_of_lt hsize] at hstep
  have hstep2 : innerStep Z readBuf numBytesRead st =
      ({ lib := (Z.ZydisFormatterFormatInstruction (decodeAt Z readBuf numBytesRead st).1
            (decodeAt Z readBuf numBytesRead st).2.2 256).1,
         readOffs := st.readOffs + Z.length (decodeAt Z readBuf numBytesRead st).2.2,
         log := st.log ++
           [Event.call (decodeCall readBuf numBytesRead st.readOffs) ZydisStatus.success,
            Event.call (Call.formatInstruction (decodeAt Z readBuf numBytesRead st).2.2 256)
              (Z.ZydisFormatterFormatInstruction (decodeAt Z readBuf numBytesRead st).1
                (decodeAt Z readBuf numBytesRead st).2.2 256).2] },
       true) := by
    rw [hstep]
    simp [sizeofPrintBuffer]
  refine ⟨hstep2, ?_⟩
  obtain ⟨status, rest, hrest⟩ := innerLoop_after_step Z readBuf numBytesRead fuel st _ hstep2
  exact ⟨status, rest, by rw [hrest]; simp⟩

/-- Witness for C4: scenario S4 at offset 1 of a three-byte buffer, where the
double decodes a two-byte instruction. -/
theorem length_advance_on_success_witness :
    (decodeAt (fake 2 acceptAll slipDecode) [0xFF, 0x66, 0x90] 3
        { lib := (), readOffs := 1, log := [] }).2.1 = ZydisStatus.success ∧
    innerStep (fake 2 acceptAll slipDecode) [0xFF, 0x66, 0x90] 3
        { lib := (), readOffs := 1, log := [] } =
      ({ lib := (), readOffs := 1 + 2,
         log := [Event.call (Call.decodeBuffer [0x66, 0x90] 2 1) ZydisStatus.success,
                 Event.call (Call.formatInstruction 2 256) ZydisStatus.success] },
       true) ∧
    ∃ status rest, (innerLoop (fake 2 acceptAll slipDecode) [0xFF, 0x66, 0x90] 3 2
        { lib := (), readOffs := 1, log := [] }).1.log =
      [Event.call (Call.decodeBuffer [0x66, 0x90] 2 1) ZydisStatus.success,
       Event.call (Call.formatInstruction 2 256) ZydisStatus.success,
       Event.call (Call.decodeBuffer [] 0 3) status] ++ rest :=
  ⟨by decide,
   length_advance_on_success (fake 2 acceptAll slipDecode) [0xFF, 0x66, 0x90] 3
     { lib := (), readOffs := 1, log := [] } 0 (by decide) (by decide)⟩

/-! ### Progress and termination of the inner loop -/

/-- A decoder that reports "no more data" on an empty buffer and never reports
an instruction longer than the buffer it was given keeps the cursor within the
occupancy, and every round that does not leave the loop moves it forward. -/
theorem innerStep_progress {S I : Type} (Z : Zydis S I) (readBuf : List Byte)
    (numBytesRead : Nat) (st : Inner S I)
    (hlen : ∀ s buffer len ip, (Z.ZydisDecoderDecodeBuffer s buffer len ip).2.1 =
        ZydisStatus.success →
      1 ≤ Z.length (Z.ZydisDecoderDecodeBuffer s buffer len ip).2.2 ∧
      Z.length (Z.ZydisDecoderDecodeBuffer s buffer len ip).2.2 ≤ len)
    (hempty : ∀ s buffer ip, (Z.ZydisDecoderDecodeBuffer s buffer 0 ip).2.1 =
        ZydisStatus.noMoreData)
    (hn : numBytesRead < SIZE_MOD) (ho : st.readOffs ≤ numBytesRead)
    (hcont : (innerStep Z readBuf numBytesRead st).2 = true) :
    st.readOffs < (innerStep Z readBuf numBytesRead st).1.readOffs ∧
    (innerStep Z readBuf numBytesRead st).1.readOffs ≤ numBytesRead := by
  have hsub := sizeSub_of_le ho hn
  by_cases hmore : (decodeAt Z readBuf numBytesRead st).2.1 = ZydisStatus.noMoreData
  · rw [innerStep_noMoreData Z readBuf numBytesRead st hmore] at hcont
    exact absurd hcont (by simp)
  · by_cases hok : (decodeAt Z readBuf numBytesRead st).2.1 = ZydisStatus.success
    · have hL : 1 ≤ Z.length (decodeAt Z readBuf numBytesRead st).2.2 ∧
          Z.length (decodeAt Z readBuf numBytesRead st).2.2 ≤
            sizeSub numBytesRead st.readOffs := hlen _ _ _ _ hok
      rw [hsub] at hL
      have hfit : st.readOffs + Z.length (decodeAt Z readBuf numBytesRead st).2.2 < SIZE_MOD := by
        omega
      rw [innerStep_success Z readBuf numBytesRead st hok, sizeAdd_of_lt hfit]
      constructor
      · show st.readOffs < st.readOffs + _
        omega
      · show st.readOffs + _ ≤ numBytesRead
        omega
    · have hpos : numBytesRead - st.readOffs ≠ 0 := by
        intro h0
        apply hmore
        unfold decodeAt
        rw [hsub, h0]
        exact hempty _ _ _
      have hfit : st.readOffs + 1 < SIZE_MOD := by omega
      rw [innerStep_failure Z readBuf numBytesRead st hok hmore, sizeAdd_of_lt hfit]
      constructor
      · show st.readOffs < st.readOffs + 1
        omega
      · show st.readOffs + 1 ≤ numBytesRead
        omega

theorem innerLoop_terminates_aux {S I : Type} (Z : Zydis S I) (readBuf : List Byte)
    (numBytesRead : Nat)
    (hlen : ∀ s buffer len ip, (Z.ZydisDecoderDecodeBuffer s buffer len ip).2.1 =
        ZydisStatus.success →
      1 ≤ Z.length (Z.ZydisDecoderDecodeBuffer s buffer len ip).2.2 ∧
      Z.length (Z.ZydisDecoderDecodeBuffer s buffer len ip).2.2 ≤ len)
    (hempty : ∀ s buffer ip, (Z.ZydisDecoderDecodeBuffer s buffer 0 ip).2.1 =
        ZydisStatus.noMoreData)
    (hn : numBytesRead < SIZE_MOD) (fuel : Nat) :
    ∀ st : Inner S I, st.readOffs ≤ numBytesRead → numBytesRead - st.readOffs < fuel →
      (innerLoop Z readBuf numBytesRead fuel st).2 = true ∧
      st.readOffs ≤ (innerLoop Z readBuf numBytesRead fuel st).1.readOffs ∧
      (innerLoop Z readBuf numBytesRead fuel st).1.readOffs ≤ numBytesRead := by
  induction fuel with
  | zero => intro st _ h; omega
  | succ fuel ih =>
    intro st ho hfuel
    rw [innerLoop_succ]
    by_cases hcont : (innerStep Z readBuf numBytesRead st).2 = true
    · rw [if_pos hcont]
      have hp := innerStep_progress Z readBuf numBytesRead st hlen hempty hn ho hcont
      have h := ih (innerStep Z readBuf numBytesRead st).1 hp.2 (by omega)
      exact ⟨h.1, by omega, h.2.2⟩
    · rw [if_neg hcont]
      have hmore : (decodeAt Z readBuf numBytesRead st).2.1 = ZydisStatus.noMoreData := by
        by_contra hne
        apply hcont
        by_cases hok : (decodeAt Z readBuf numBytesRead st).2.1 = ZydisStatus.success
        · rw [innerStep_success Z readBuf numBytesRead st hok]
        · rw [innerStep_failure Z readBuf numBytesRead st hok hne]
      rw [innerStep_noMoreData Z readBuf numBytesRead st hmore]
      exact ⟨rfl, le_refl _, ho⟩

/-- The double `rejectAlways` never leaves the inner loop. -/
theorem innerLoop_rejectAlways (readBuf : List Byte) (numBytesRead fuel : Nat)
    (st : Inner Unit Nat) :
    (innerLoop (fake 2 acceptAll rejectAlways) readBuf numBytesRead fuel st).2 = false := by
  induction fuel generalizing st with
  | zero => rfl
  | succ fuel ih =>
    rw [innerLoop_succ,
      innerStep_failure (fake 2 acceptAll rejectAlways) readBuf numBytesRead st
        (by simp [decodeAt, fake, rejectAlways]) (by simp [decodeAt, fake, rejectAlways]),
      if_pos rfl]
    exact ih _

theorem SIZE_MOD_eq : SIZE_MOD = 18446744073709551616 := by
  norm_num [SIZE_MOD]

/-- The double `overshootDecode` never leaves the inner loop over a one-byte
occupancy: its two-byte instruction moves the cursor past the occupancy, after
which `numBytesRead - readOffs` wraps around and is never zero again. -/
theorem innerLoop_overshoot (readBuf : List Byte) (fuel : Nat) (st : Inner Unit Nat)
    (hlt : st.readOffs < SIZE_MOD) (hne : st.readOffs ≠ 1) :
    (innerLoop (fake 2 acceptAll overshootDecode) readBuf 1 fuel st).2 = false := by
  induction fuel generalizing st with
  | zero => rfl
  | succ fuel ih =>
    rw [SIZE_MOD_eq] at hlt
    rw [innerLoop_succ]
    by_cases h0 : st.readOffs = 0
    · have hd : (decodeAt (fake 2 acceptAll overshootDecode) readBuf 1 st).2 =
          (ZydisStatus.success, 2) := by
        simp [decodeAt, fake, overshootDecode, sizeSub, SIZE_MOD_eq, h0]
      have hok : (decodeAt (fake 2 acceptAll overshootDecode) readBuf 1 st).2.1 =
          ZydisStatus.success := by rw [hd]
      rw [innerStep_success _ readBuf 1 st hok, if_pos rfl]
      apply ih
      · exact Nat.mod_lt _ (by rw [SIZE_MOD_eq]; omega)
      · show sizeAdd st.readOffs _ ≠ 1
        rw [hd, h0]
        simp [sizeAdd, fake, SIZE_MOD_eq]
    · have hlen : sizeSub 1 st.readOffs ≠ 0 ∧ sizeSub 1 st.readOffs ≠ 1 := by
        simp only [sizeSub, SIZE_MOD_eq]
        omega
      have hd : (decodeAt (fake 2 acceptAll overshootDecode) readBuf 1 st).2.1 =
          ZydisStatus.failure 1 := by
        simp [decodeAt, fake, overshootDecode, hlen.1, hlen.2]
      rw [innerStep_failure _ readBuf 1 st (by rw [hd]; simp) (by rw [hd]; simp), if_pos rfl]
      apply ih
      · exact Nat.mod_lt _ (by rw [SIZE_MOD_eq]; omega)
      · show sizeAdd st.readOffs 1 ≠ 1
        simp only [sizeAdd, SIZE_MOD_eq]
        omega

/-- C5, as stated, fails: a decoder whose successes all have a length between
1 and `ZYDIS_MAX_INSTRUCTION_LENGTH` need not let the inner loop end.  The
double `rejectAlways` (no success at all, an invalid instruction even on the
empty buffer) keeps the loop over a one-byte occupancy running for every
budget, and so does `overshootDecode`, which does report "no more data" on the
empty buffer but whose only success (length 2) is longer than the single byte
it was given. -/
theorem inner_loop_can_run_forever :
    (∀ buffer len ip, (rejectAlways buffer len ip).1 = ZydisStatus.success →
        1 ≤ (rejectAlways buffer len ip).2 ∧
        (rejectAlways buffer len ip).2 ≤ sampleBuild.ZYDIS_MAX_INSTRUCTION_LENGTH) ∧
    (∀ fuel, (innerLoop (fake 2 acceptAll rejectAlways) [0x90] 1 fuel
        { lib := (), readOffs := 0, log := [] }).2 = false) ∧
    (∀ buffer len ip, (overshootDecode buffer len ip).1 = ZydisStatus.success →
        1 ≤ (overshootDecode buffer len ip).2 ∧
        (overshootDecode buffer len ip).2 ≤ sampleBuild.ZYDIS_MAX_INSTRUCTION_LENGTH) ∧
    (∀ fuel, (innerLoop (fake 2 acceptAll overshootDecode) [0x66] 1 fuel
        { lib := (), readOffs := 0, log := [] }).2 = false) := by
  refine ⟨?_, ?_, ?_, ?_⟩
  · intro buffer len ip h
    simp [rejectAlways] at h
  · intro fuel
    exact innerLoop_rejectAlways _ _ _ _
  · intro buffer len ip h
    unfold overshootDecode at h ⊢
    split_ifs at h ⊢ with h1 h2
    exact ⟨by decide, by decide⟩
  · intro fuel
    exact innerLoop_overshoot _ _ _ (by simp [SIZE_MOD_eq]) (by simp)

/-- C5, amended: for a decoder that reports "no more data" on an empty buffer
and whose successes have a length `L` with `1 ≤ L ≤ ZYDIS_MAX_INSTRUCTION_LENGTH`
and `L` at most the length of the buffer it was given, every round of the
inner loop that starts with the cursor within the occupancy and does not leave
the loop strictly increases the cursor and keeps it within the occupancy, and
the inner loop started at cursor 0 is left after at most `numBytesRead + 1`
rounds, with the cursor still within the occupancy. -/
theorem inner_loop_progress_and_termination {S I : Type} (B : Build) (Z : Zydis S I)
    (readBuf : List Byte) (numBytesRead : Nat)
    (hlen : ∀ s buffer len ip, (Z.ZydisDecoderDecodeBuffer s buffer len ip).2.1 =
        ZydisStatus.success →
      1 ≤ Z.length (Z.ZydisDecoderDecodeBuffer s buffer len ip).2.2 ∧
      Z.length (Z.ZydisDecoderDecodeBuffer s buffer len ip).2.2 ≤
        B.ZYDIS_MAX_INSTRUCTION_LENGTH ∧
      Z.length (Z.ZydisDecoderDecodeBuffer s buffer len ip).2.2 ≤ len)
    (hempty : ∀ s buffer ip, (Z.ZydisDecoderDecodeBuffer s buffer 0 ip).2.1 =
        ZydisStatus.noMoreData)
    (hn : numBytesRead < SIZE_MOD) :
    (∀ st : Inner S I, st.readOffs ≤ numBytesRead →
      (innerStep Z readBuf numBytesRead st).2 = true →
        st.readOffs < (innerStep Z readBuf numBytesRead st).1.readOffs ∧
        (innerStep Z readBuf numBytesRead st).1.readOffs ≤ numBytesRead) ∧
    (∀ (lib : S) (log : List (Event I)) (fuel : Nat), numBytesRead + 1 ≤ fuel →
      (innerLoop Z readBuf numBytesRead fuel { lib := lib, readOffs := 0, log := log }).2 = true ∧
      (innerLoop Z readBuf numBytesRead fuel
        { lib := lib, readOffs := 0, log := log }).1.readOffs ≤ numBytesRead) := by
  have hlen2 : ∀ s buffer len ip, (Z.ZydisDecoderDecodeBuffer s buffer len ip).2.1 =
        ZydisStatus.success →
      1 ≤ Z.length (Z.ZydisDecoderDecodeBuffer s buffer len ip).2.2 ∧
      Z.length (Z.ZydisDecoderDecodeBuffer s buffer len ip).2.2 ≤ len :=
    fun s buffer len ip h => ⟨(hlen s buffer len ip h).1, (hlen s buffer len ip h).2.2⟩
  constructor
  · intro st ho hcont
    exact innerStep_progress Z readBuf numBytesRead st hlen2 hempty hn ho hcont
  · intro lib log fuel hfuel
    have h := innerLoop_terminates_aux Z readBuf numBytesRead hlen2 hempty hn fuel
      { lib := lib, readOffs := 0, log := log } (Nat.zero_le _) (by show numBytesRead - 0 < fuel; omega)
    exact ⟨h.1, h.2.2⟩

theorem oneByteDecode_lengths (B : Build) (hB : 1 ≤ B.ZYDIS_MAX_INSTRUCTION_LENGTH) :
    ∀ (s : Unit) (buffer : List Byte) (len ip : Nat),
      ((fake 2 acceptAll oneByteDecode).ZydisDecoderDecodeBuffer s buffer len ip).2.1 =
        ZydisStatus.success →
      1 ≤ (fake 2 acceptAll oneByteDecode).length
        ((fake 2 acceptAll oneByteDecode).ZydisDecoderDecodeBuffer s buffer len ip).2.2 ∧
      (fake 2 acceptAll oneByteDecode).length
        ((fake 2 acceptAll oneByteDecode).ZydisDecoderDecodeBuffer s buffer len ip).2.2 ≤
          B.ZYDIS_MAX_INSTRUCTION_LENGTH ∧
      (fake 2 acceptAll oneByteDecode).length
        ((fake 2 acceptAll oneByteDecode).ZydisDecoderDecodeBuffer s buffer len ip).2.2 ≤ len := by
  intro s buffer len ip h
  by_cases h0 : len = 0
  · simp [fake, oneByteDecode, h0] at h
  · simp only [fake, oneByteDecode, if_neg h0]
    omega

theorem oneByteDecode_empty :
    ∀ (s : Unit) (buffer : List Byte) (ip : Nat),
      ((fake 2 acceptAll oneByteDecode).ZydisDecoderDecodeBuffer s buffer 0 ip).2.1 =
        ZydisStatus.noMoreData := by
  intro s buffer ip
  rfl

/-- Witness for C5 (amended): the one-byte-instruction double of scenario S3 on
the three-byte buffer `AA BB CC` leaves the inner loop within four rounds. -/
theorem inner_loop_progress_and_termination_witness :
    3 < SIZE_MOD ∧
    (innerLoop (fake 2 acceptAll oneByteDecode) [0xAA, 0xBB, 0xCC] 3 4
        { lib := (), readOffs := 0, log := [] }).2 = true ∧
    (innerLoop (fake 2 acceptAll oneByteDecode) [0xAA, 0xBB, 0xCC] 3 4
        { lib := (), readOffs := 0, log := [] }).1.readOffs ≤ 3 :=
  ⟨by decide,
   (inner_loop_progress_and_termination sampleBuild (fake 2 acceptAll oneByteDecode)
      [0xAA, 0xBB, 0xCC] 3 (oneByteDecode_lengths sampleBuild (by decide)) oneByteDecode_empty
      (by decide)).2 () [] 4 (by decide)⟩

/-! ### The configurator against the prescribed sequence -/

theorem failFast_cons {S I : Type} (Z : Zydis S I) (lib : S) (log : List (Event I))
    (c : Call I) (cs : List (Call I)) :
    failFast Z lib log (c :: cs) =
      if ZYDIS_SUCCESS (issue Z lib c).2 then
        failFast Z (issue Z lib c).1 (log ++ [Event.call c (issue Z lib c).2]) cs
      else
        ((issue Z lib c).1,
         log ++ [Event.call c (issue Z lib c).2] ++ [Event.fputs (diagnostic c)], false) := rfl

theorem enableModes_succ {S I : Type} (Z : Zydis S I)
    (controlBlock : ZydisFuzzControlBlock) (remaining mode : Nat) (lib : S)
    (log : List (Event I)) :
    enableModes Z controlBlock (remaining + 1) mode lib log =
      if ZYDIS_SUCCESS (issue Z lib (Call.decoderEnableMode mode
          (if controlBlock.decoderMode mode ≠ 0 then 1 else 0))).2 then
        enableModes Z controlBlock remaining (mode + 1)
          (issue Z lib (Call.decoderEnableMode mode
            (if controlBlock.decoderMode mode ≠ 0 then 1 else 0))).1
          (log ++ [Event.call (Call.decoderEnableMode mode
            (if controlBlock.decoderMode mode ≠ 0 then 1 else 0))
            (issue Z lib (Call.decoderEnableMode mode
              (if controlBlock.decoderMode mode ≠ 0 then 1 else 0))).2])
      else
        ((issue Z lib (Call.decoderEnableMode mode
            (if controlBlock.decoderMode mode ≠ 0 then 1 else 0))).1,
         log ++ [Event.call (Call.decoderEnableMode mode
            (if controlBlock.decoderMode mode ≠ 0 then 1 else 0))
            (issue Z lib (Call.decoderEnableMode mode
              (if controlBlock.decoderMode mode ≠ 0 then 1 else 0))).2] ++
          [Event.fputs (diagnostic (Call.decoderEnableMode (I := I) mode
            (if controlBlock.decoderMode mode ≠ 0 then 1 else 0)))], false) := rfl

theorem setAttributes_succ {S I : Type} (Z : Zydis S I)
    (controlBlock : ZydisFuzzControlBlock) (remaining attrib : Nat) (lib : S)
    (log : List (Event I)) :
    setAttributes Z controlBlock (remaining + 1) attrib lib log =
      if ZYDIS_SUCCESS (issue Z lib (Call.formatterSetAttribute attrib
          (controlBlock.formatterAttributes attrib))).2 then
        setAttributes Z controlBlock remaining (attrib + 1)
          (issue Z lib (Call.formatterSetAttribute attrib
            (controlBlock.formatterAttributes attrib))).1
          (log ++ [Event.call (Call.formatterSetAttribute attrib
            (controlBlock.formatterAttributes attrib))
            (issue Z lib (Call.formatterSetAttribute attrib
              (controlBlock.formatterAttributes attrib))).2])
      else
        ((issue Z lib (Call.formatterSetAttribute attrib
            (controlBlock.formatterAttributes attrib))).1,
         log ++ [Event.call (Call.formatterSetAttribute attrib
            (controlBlock.formatterAttributes attrib))
            (issue Z lib (Call.formatterSetAttribute attrib
              (controlBlock.formatterAttributes attrib))).2] ++
          [Event.fputs (diagnostic (Call.formatterSetAttribute (I := I) attrib
            (controlBlock.formatterAttributes attrib)))], false) := rfl

theorem enableModes_eq_failFast {S I : Type} (Z : Zydis S I)
    (controlBlock : ZydisFuzzControlBlock) (remaining mode : Nat) (lib : S)
    (log : List (Event I)) :
    enableModes Z controlBlock remaining mode lib log =
      failFast Z lib log ((List.range' mode remaining).map
        (fun i => Call.decoderEnableMode i (if controlBlock.decoderMode i ≠ 0 then 1 else 0))) := by
  induction remaining generalizing mode lib log with
  | zero => rfl
  | succ remaining ih =>
    rw [List.range'_succ, List.map_cons, failFast_cons, enableModes_succ, ih]

theorem setAttributes_eq_failFast {S I : Type} (Z : Zydis S I)
    (controlBlock : ZydisFuzzControlBlock) (remaining attrib : Nat) (lib : S)
    (log : List (Event I)) :
    setAttributes Z controlBlock remaining attrib lib log =
      failFast Z lib log ((List.range' attrib remaining).map
        (fun i => Call.formatterSetAttribute i (controlBlock.formatterAttributes i))) := by
  induction remaining generalizing attrib lib log with
  | zero => rfl
  | succ remaining ih =>
    rw [List.range'_succ, List.map_cons, failFast_cons, setAttributes_succ, ih]

theorem failFast_append {S I : Type} (Z : Zydis S I) (lib : S) (log : List (Event I))
    (a b : List (Call I)) :
    failFast Z lib log (a ++ b) =
      if (failFast Z lib log a).2.2 then
        failFast Z (failFast Z lib log a).1 (failFast Z lib log a).2.1 b
      else failFast Z lib log a := by
  induction a generalizing lib log with
  | nil => simp [failFast]
  | cons c cs ih =>
    rw [List.cons_append, failFast_cons, failFast_cons]
    by_cases h : ZYDIS_SUCCESS (issue Z lib c).2 = true
    · rw [if_pos h, if_pos h]
      exact ih _ _
    · rw [if_neg h, if_neg h]
      simp

theorem configCalls_eq {I : Type} (B : Build) (controlBlock : ZydisFuzzControlBlock) :
    configCalls (I := I) B controlBlock =
      Call.decoderInit controlBlock.machineMode controlBlock.addressWidth ::
        ((List.range' 0 (B.ZYDIS_DECODER_MODE_MAX_VALUE + 1)).map
          (fun i => Call.decoderEnableMode i (if controlBlock.decoderMode i ≠ 0 then 1 else 0)) ++
        Call.formatterInit controlBlock.formatterStyle ::
          (List.range' 0 (B.ZYDIS_FORMATTER_ATTRIB_MAX_VALUE + 1)).map
            (fun i => Call.formatterSetAttribute i (controlBlock.formatterAttributes i))) := by
  unfold configCalls
  rw [List.range_eq_range', List.range_eq_range']
  simp

theorem configure_unfold {S I : Type} (B : Build) (Z : Zydis S I)
    (controlBlock : ZydisFuzzControlBlock) (lib : S) (log : List (Event I)) :
    configure B Z controlBlock lib log =
      if ZYDIS_SUCCESS (issue Z lib
          (Call.decoderInit controlBlock.machineMode controlBlock.addressWidth)).2 then
        if (enableModes Z controlBlock (B.ZYDIS_DECODER_MODE_MAX_VALUE + 1) 0
            (issue Z lib (Call.decoderInit controlBlock.machineMode controlBlock.addressWidth)).1
            (log ++ [Event.call (Call.decoderInit controlBlock.machineMode
              controlBlock.addressWidth)
              (issue Z lib (Call.decoderInit controlBlock.machineMode
                controlBlock.addressWidth)).2])).2.2 then
          if ZYDIS_SUCCESS (issue Z
              (enableModes Z controlBlock (B.ZYDIS_DECODER_MODE_MAX_VALUE + 1) 0
                (issue Z lib
                  (Call.decoderInit controlBlock.machineMode controlBlock.addressWidth)).1
                (log ++ [Event.call (Call.decoderInit controlBlock.machineMode
                  controlBlock.addressWidth)
                  (issue Z lib (Call.decoderInit controlBlock.machineMode
                    controlBlock.addressWidth)).2])).1
              (Call.formatterInit controlBlock.formatterStyle)).2 then
            setAttributes Z controlBlock (B.ZYDIS_FORMATTER_ATTRIB_MAX_VALUE + 1) 0
              (issue Z
                (enableModes Z controlBlock (B.ZYDIS_DECODER_MODE_MAX_VALUE + 1) 0
                  (issue Z lib
                    (Call.decoderInit controlBlock.machineMode controlBlock.addressWidth)).1
                  (log ++ [Event.call (Call.decoderInit controlBlock.machineMode
                    controlBlock.addressWidth)
                    (issue Z lib (Call.decoderInit controlBlock.machineMode
                      controlBlock.addressWidth)).2])).1
                (Call.formatterInit controlBlock.formatterStyle)).1
              ((enableModes Z controlBlock (B.ZYDIS_DECODER_MODE_MAX_VALUE + 1) 0
                  (issue Z lib
                    (Call.decoderInit controlBlock.machineMode controlBlock.addressWidth)).1
                  (log ++ [Event.call (Call.decoderInit controlBlock.machineMode
                    controlBlock.addressWidth)
                    (issue Z lib (Call.decoderInit controlBlock.machineMode
                      controlBlock.addressWidth)).2])).2.1 ++
                [Event.call (Call.formatterInit controlBlock.formatterStyle)
                  (issue Z
                    (enableModes Z controlBlock (B.ZYDIS_DECODER_MODE_MAX_VALUE + 1) 0
                      (issue Z lib
                        (Call.decoderInit controlBlock.machineMode
                          controlBlock.addressWidth)).1
                      (log ++ [Event.call (Call.decoderInit controlBlock.machineMode
                        controlBlock.addressWidth)
                        (issue Z lib (Call.decoderInit controlBlock.machineMode
                          controlBlock.addressWidth)).2])).1
                    (Call.formatterInit controlBlock.formatterStyle)).2])
          else
            ((issue Z
                (enableModes Z controlBlock (B.ZYDIS_DECODER_MODE_MAX_VALUE + 1) 0
                  (issue Z lib
                    (Call.decoderInit controlBlock.machineMode controlBlock.addressWidth)).1
                  (log ++ [Event.call (Call.decoderInit controlBlock.machineMode
                    controlBlock.addressWidth)
                    (issue Z lib (Call.decoderInit controlBlock.machineMode
                      controlBlock.addressWidth)).2])).1
                (Call.formatterInit controlBlock.formatterStyle)).1,
             (enableModes Z controlBlock (B.ZYDIS_DECODER_MODE_MAX_VALUE + 1) 0
                  (issue Z lib
                    (Call.decoderInit controlBlock.machineMode controlBlock.addressWidth)).1
                  (log ++ [Event.call (Call.decoderInit controlBlock.machineMode
                    controlBlock.addressWidth)
                    (issue Z lib (Call.decoderInit controlBlock.machineMode
                      controlBlock.addressWidth)).2])).2.1 ++
                [Event.call (Call.formatterInit controlBlock.formatterStyle)
                  (issue Z
                    (enableModes Z controlBlock (B.ZYDIS_DECODER_MODE_MAX_VALUE + 1) 0
                      (issue Z lib
                        (Call.decoderInit controlBlock.machineMode
                          controlBlock.addressWidth)).1
                      (log ++ [Event.call (Call.decoderInit controlBlock.machineMode
                        controlBlock.addressWidth)
                        (issue Z lib (Call.decoderInit controlBlock.machineMode
                          controlBlock.addressWidth)).2])).1
                    (Call.formatterInit controlBlock.formatterStyle)).2] ++
                [Event.fputs (diagnostic (Call.formatterInit (I := I)
                  controlBlock.formatterStyle))], false)
        else
          enableModes Z controlBlock (B.ZYDIS_DECODER_MODE_MAX_VALUE + 1) 0
            (issue Z lib (Call.decoderInit controlBlock.machineMode controlBlock.addressWidth)).1
            (log ++ [Event.call (Call.decoderInit controlBlock.machineMode
              controlBlock.addressWidth)
              (issue Z lib (Call.decoderInit controlBlock.machineMode
                controlBlock.addressWidth)).2])
      else
        ((issue Z lib (Call.decoderInit controlBlock.machineMode controlBlock.addressWidth)).1,
         log ++ [Event.call (Call.decoderInit controlBlock.machineMode controlBlock.addressWidth)
            (issue Z lib (Call.decoderInit controlBlock.machineMode
              controlBlock.addressWidth)).2] ++
          [Event.fputs (diagnostic (Call.decoderInit (I := I) controlBlock.machineMode
            controlBlock.addressWidth))], false) := rfl

/-- The configurator issues the prescribed sequence of calls, in order, and
stops with a diagnostic after the first one that fails. -/
theorem configure_eq_failFast {S I : Type} (B : Build) (Z : Zydis S I)
    (controlBlock : ZydisFuzzControlBlock) (lib : S) (log : List (Event I)) :
    configure B Z controlBlock lib log = failFast Z lib log (configCalls B controlBlock) := by
  rw [configure_unfold, enableModes_eq_failFast, setAttributes_eq_failFast, configCalls_eq,
    failFast_cons, failFast_append, failFast_cons]

/-! ### Reading logs -/

theorem libCalls_append {I : Type} (a b : List (Event I)) :
    libCalls (a ++ b) = libCalls a ++ libCalls b := by
  induction a with
  | nil => rfl
  | cons e a ih => cases e <;> simp [libCalls, ih]

theorem stderrLines_append {I : Type} (a b : List (Event I)) :
    stderrLines (a ++ b) = stderrLines a ++ stderrLines b := by
  induction a with
  | nil => rfl
  | cons e a ih => cases e <;> simp [stderrLines, ih]

theorem libCalls_answers {S I : Type} (Z : Zydis S I) (lib : S) (calls : List (Call I)) :
    libCalls (answers Z lib calls) = calls := by
  induction calls generalizing lib with
  | nil => rfl
  | cons c cs ih => simp [answers, libCalls, ih]

theorem stderrLines_answers {S I : Type} (Z : Zydis S I) (lib : S) (calls : List (Call I)) :
    stderrLines (answers Z lib calls) = [] := by
  induction calls generalizing lib with
  | nil => rfl
  | cons c cs ih => simp [answers, stderrLines, ih]

/-! ### Fail-fast against the first failure -/

theorem failFast_of_firstFailure_none {S I : Type} (Z : Zydis S I) (lib : S)
    (log : List (Event I)) (calls : List (Call I))
    (h : firstFailure Z lib calls = none) :
    failFast Z lib log calls = (stateAfter Z lib calls, log ++ answers Z lib calls, true) := by
  induction calls generalizing lib log with
  | nil => simp [failFast, stateAfter, answers]
  | cons c cs ih =>
    unfold firstFailure at h
    by_cases hs : ZYDIS_SUCCESS (issue Z lib c).2 = true
    · rw [if_pos hs] at h
      have h' : firstFailure Z (issue Z lib c).1 cs = none := by
        cases hf : firstFailure Z (issue Z lib c).1 cs with
        | none => rfl
        | some k => rw [hf] at h; simp at h
      rw [failFast_cons, if_pos hs, ih _ _ h']
      simp [stateAfter, answers]
    · rw [if_neg hs] at h
      simp at h

theorem failFast_of_firstFailure_some {S I : Type} (Z : Zydis S I) (lib : S)
    (log : List (Event I)) (calls : List (Call I)) (k : Nat)
    (h : firstFailure Z lib calls = some k) :
    ∃ lib1 line, failFast Z lib log calls =
      (lib1, log ++ answers Z lib (calls.take (k + 1)) ++ [Event.fputs line], false) := by
  induction calls generalizing lib log k with
  | nil => simp [firstFailure] at h
  | cons c cs ih =>
    unfold firstFailure at h
    by_cases hs : ZYDIS_SUCCESS (issue Z lib c).2 = true
    · rw [if_pos hs] at h
      cases hf : firstFailure Z (issue Z lib c).1 cs with
      | none => rw [hf] at h; simp at h
      | some j =>
        rw [hf] at h
        simp only [Option.map_some', Option.some.injEq] at h
        obtain ⟨lib1, line, hff⟩ := ih (issue Z lib c).1
          (log ++ [Event.call c (issue Z lib c).2]) j hf
        refine ⟨lib1, line, ?_⟩
        rw [failFast_cons, if_pos hs, hff, ← h]
        simp [answers]
    · rw [if_neg hs] at h
      simp only [Option.some.injEq] at h
      refine ⟨(issue Z lib c).1, diagnostic c, ?_⟩
      rw [failFast_cons, if_neg hs, ← h]
      simp [answers]

/-! ### The outer loop -/

theorem outerLoop_succ {S I : Type} (B : Build) (Z : Zydis S I) (fuel : Nat)
    (st : Outer S I) :
    outerLoop B Z (fuel + 1) st =
      if (outerBody B Z (fuel + 1) st).completed then
        if (outerBody B Z (fuel + 1) st).numBytesRead = sizeofReadBuf B then
          outerLoop B Z fuel (outerBody B Z (fuel + 1) st).next
        else
          { exitCode := some 0, log := (outerBody B Z (fuel + 1) st).next.log }
      else
        { exitCode := none, log := (outerBody B Z (fuel + 1) st).next.log } := rfl

/-- The outer loop only appends to the log. -/
theorem outerLoop_log_extends {S I : Type} (B : Build) (Z : Zydis S I) (fuel : Nat)
    (st : Outer S I) :
    ∃ rest, (outerLoop B Z fuel st).log = st.log ++ rest := by
  induction fuel generalizing st with
  | zero => exact ⟨[], by simp [outerLoop]⟩
  | succ fuel ih =>
    obtain ⟨r1, h1⟩ := innerLoop_log_extends Z (refill (sizeofReadBuf B) st).1.readBuf
      (refill (sizeofReadBuf B) st).2 (fuel + 1)
      { lib := (refill (sizeofReadBuf B) st).1.lib, readOffs := 0,
        log := (refill (sizeofReadBuf B) st).1.log }
    have hb : (outerBody B Z (fuel + 1) st).next.log =
        st.log ++ ([Event.freadBuf 0 (sizeofReadBuf B)
          (st.stdin.take (sizeofReadBuf B)).length] ++ r1) := by
      show (innerLoop Z _ _ _ _).1.log = _
      rw [h1]
      simp [refill]
    rw [outerLoop_succ]
    split
    · split
      · obtain ⟨r2, h2⟩ := ih (outerBody B Z (fuel + 1) st).next
        rw [h2, hb]
        exact ⟨[Event.freadBuf 0 (sizeofReadBuf B)
          (st.stdin.take (sizeofReadBuf B)).length] ++ r1 ++ r2, by simp⟩
      · exact ⟨_, hb⟩
    · exact ⟨_, hb⟩

/-- With at least one iteration of budget, the outer loop first logs the
refill (a request for `sizeof(readBuf)` bytes at the start of the buffer) and
then the decode call at cursor 0 on the refilled buffer. -/
theorem outerLoop_log_first {S I : Type} (B : Build) (Z : Zydis S I) (fuel : Nat)
    (st : Outer S I) :
    ∃ status rest, (outerLoop B Z (fuel + 1) st).log =
      st.log ++
        [Event.freadBuf 0 (sizeofReadBuf B) (st.stdin.take (sizeofReadBuf B)).length,
         Event.call (decodeCall (st.stdin.take (sizeofReadBuf B) ++
             st.readBuf.drop (st.stdin.take (sizeofReadBuf B)).length)
           (st.stdin.take (sizeofReadBuf B)).length 0) status] ++ rest := by
  obtain ⟨r1, h1⟩ := innerLoop_log_first Z (refill (sizeofReadBuf B) st).1.readBuf
    (refill (sizeofReadBuf B) st).2 fuel
    { lib := (refill (sizeofReadBuf B) st).1.lib, readOffs := 0,
      log := (refill (sizeofReadBuf B) st).1.log }
  have hb : (outerBody B Z (fuel + 1) st).next.log = _ := h1
  refine ⟨(decodeAt Z (refill (sizeofReadBuf B) st).1.readBuf (refill (sizeofReadBuf B) st).2
    { lib := (refill (sizeofReadBuf B) st).1.lib, readOffs := 0,
      log := (refill (sizeofReadBuf B) st).1.log }).2.1, ?_⟩
  rw [outerLoop_succ]
  split
  · split
    · obtain ⟨r2, h2⟩ := outerLoop_log_extends B Z fuel (outerBody B Z (fuel + 1) st).next
      rw [h2, hb]
      exact ⟨r1 ++ r2, by simp [refill]⟩
    · exact ⟨r1, by rw [hb]; simp [refill]⟩
  · exact ⟨r1, by rw [hb]; simp [refill]⟩

/-! ### Configuration: order, fail-fast, prefix consumption -/

theorem main_accepted {S I : Type} (B : Build) (Z : Zydis S I) (lib : S)
    (readBuf : List Byte) (fuel : Nat) (stdin : List Byte)
    (hv : Z.ZydisGetVersion = B.ZYDIS_VERSION)
    (hlong : B.sizeofControlBlock ≤ stdin.length)
    (hall : firstFailure Z lib
      (configCalls B (B.castControlBlock (stdin.take B.sizeofControlBlock))) = none) :
    main B Z lib readBuf fuel stdin =
      outerLoop B Z fuel
        { lib := stateAfter Z lib
            (configCalls B (B.castControlBlock (stdin.take B.sizeofControlBlock))),
          stdin := stdin.drop B.sizeofControlBlock,
          readBuf := readBuf,
          log := [Event.freadControlBlock B.sizeofControlBlock B.sizeofControlBlock] ++
            answers Z lib
              (configCalls B (B.castControlBlock (stdin.take B.sizeofControlBlock))) } := by
  rw [main_configured B Z lib readBuf fuel stdin hv hlong, configure_eq_failFast,
    failFast_of_firstFailure_none Z lib _ _ hall]
  rfl

theorem main_rejected {S I : Type} (B : Build) (Z : Zydis S I) (lib : S)
    (readBuf : List Byte) (fuel : Nat) (stdin : List Byte)
    (hv : Z.ZydisGetVersion = B.ZYDIS_VERSION)
    (hlong : B.sizeofControlBlock ≤ stdin.length) (k : Nat)
    (hk : firstFailure Z lib
      (configCalls B (B.castControlBlock (stdin.take B.sizeofControlBlock))) = some k) :
    ∃ line, main B Z lib readBuf fuel stdin =
      { exitCode := some EXIT_FAILURE,
        log := [Event.freadControlBlock B.sizeofControlBlock B.sizeofControlBlock] ++
          answers Z lib
            ((configCalls B (B.castControlBlock (stdin.take B.sizeofControlBlock))).take
              (k + 1)) ++
          [Event.fputs line] } := by
  obtain ⟨lib1, line, hff⟩ := failFast_of_firstFailure_some Z lib
    [Event.freadControlBlock B.sizeofControlBlock B.sizeofControlBlock] _ k hk
  refine ⟨line, ?_⟩
  rw [main_configured B Z lib readBuf fuel stdin hv hlong, configure_eq_failFast, hff]
  rfl

/-- The log of an accepted run, up to and including its first decode call. -/
theorem main_accepted_log {S I : Type} (B : Build) (Z : Zydis S I) (lib : S)
    (readBuf : List Byte) (fuel : Nat) (stdin : List Byte)
    (hv : Z.ZydisGetVersion = B.ZYDIS_VERSION)
    (hlong : B.sizeofControlBlock ≤ stdin.length)
    (hall : firstFailure Z lib
      (configCalls B (B.castControlBlock (stdin.take B.sizeofControlBlock))) = none) :
    ∃ status rest, (main B Z lib readBuf (fuel + 1) stdin).log =
      [Event.freadControlBlock B.sizeofControlBlock B.sizeofControlBlock] ++
        answers Z lib (configCalls B (B.castControlBlock (stdin.take B.sizeofControlBlock))) ++
        [Event.freadBuf 0 (sizeofReadBuf B)
           ((stdin.drop B.sizeofControlBlock).take (sizeofReadBuf B)).length,
         Event.call (decodeCall
           ((stdin.drop B.sizeofControlBlock).take (sizeofReadBuf B) ++
             readBuf.drop ((stdin.drop B.sizeofControlBlock).take (sizeofReadBuf B)).length)
           ((stdin.drop B.sizeofControlBlock).take (sizeofReadBuf B)).length 0) status] ++
        rest := by
  rw [main_accepted B Z lib readBuf (fuel + 1) stdin hv hlong hall]
  obtain ⟨status, rest, hlog⟩ := outerLoop_log_first B Z fuel
    { lib := stateAfter Z lib
        (configCalls B (B.castControlBlock (stdin.take B.sizeofControlBlock))),
      stdin := stdin.drop B.sizeofControlBlock,
      readBuf := readBuf,
      log := [Event.freadControlBlock B.sizeofControlBlock B.sizeofControlBlock] ++
        answers Z lib
          (configCalls B (B.castControlBlock (stdin.take B.sizeofControlBlock))) }
  exact ⟨status, rest, hlog⟩

/-- C6: when the version guard passes, the input holds a whole control block
and every configuration call succeeds, then (with budget for at least one
iteration) the log of `main` reaches a decode call, and the library calls
logged before that first decode call are exactly: decoder init, decoder modes
`0, 1, ..., ZYDIS_DECODER_MODE_MAX_VALUE`, formatter init, formatter attributes
`0, 1, ..., ZYDIS_FORMATTER_ATTRIB_MAX_VALUE`, each index once and in ascending
order. -/
theorem configuration_order_and_density {S I : Type} (B : Build) (Z : Zydis S I) (lib : S)
    (readBuf : List Byte) (fuel : Nat) (stdin : List Byte)
    (hv : Z.ZydisGetVersion = B.ZYDIS_VERSION)
    (hlong : B.sizeofControlBlock ≤ stdin.length)
    (hall : firstFailure Z lib
      (configCalls B (B.castControlBlock (stdin.take B.sizeofControlBlock))) = none) :
    ∃ before buffer len ip status rest,
      (main B Z lib readBuf (fuel + 1) stdin).log =
        before ++ [Event.call (Call.decodeBuffer buffer len ip) status] ++ rest ∧
      libCalls before =
        [Call.decoderInit (B.castControlBlock (stdin.take B.sizeofControlBlock)).machineMode
          (B.castControlBlock (stdin.take B.sizeofControlBlock)).addressWidth] ++
        (List.range (B.ZYDIS_DECODER_MODE_MAX_VALUE + 1)).map
          (fun i => Call.decoderEnableMode i
            (if (B.castControlBlock (stdin.take B.sizeofControlBlock)).decoderMode i ≠ 0
              then 1 else 0)) ++
        [Call.formatterInit
          (B.castControlBlock (stdin.take B.sizeofControlBlock)).formatterStyle] ++
        (List.range (B.ZYDIS_FORMATTER_ATTRIB_MAX_VALUE + 1)).map
          (fun i => Call.formatterSetAttribute i
            ((B.castControlBlock (stdin.take B.sizeofControlBlock)).formatterAttributes i)) := by
  obtain ⟨status, rest, hlog⟩ := main_accepted_log B Z lib readBuf fuel stdin hv hlong hall
  refine ⟨[Event.freadControlBlock B.sizeofControlBlock B.sizeofControlBlock] ++
      answers Z lib (configCalls B (B.castControlBlock (stdin.take B.sizeofControlBlock))) ++
      [Event.freadBuf 0 (sizeofReadBuf B)
        ((stdin.drop B.sizeofControlBlock).take (sizeofReadBuf B)).length],
    window ((stdin.drop B.sizeofControlBlock).take (sizeofReadBuf B) ++
        readBuf.drop ((stdin.drop B.sizeofControlBlock).take (sizeofReadBuf B)).length) 0
      (sizeSub ((stdin.drop B.sizeofControlBlock).take (sizeofReadBuf B)).length 0),
    sizeSub ((stdin.drop B.sizeofControlBlock).take (sizeofReadBuf B)).length 0,
    0, status, rest, ?_, ?_⟩
  · rw [hlog]
    simp [decodeCall]
  · rw [libCalls_append, libCalls_append, libCalls_answers]
    simp [libCalls, configCalls]

/-- Witness for C6: the all-zero control block of the sample build followed by
three payload bytes, every configuration call accepted. -/
theorem configuration_order_and_density_witness :
    firstFailure (fake 2 acceptAll oneByteDecode) ()
      (configCalls sampleBuild (sampleBuild.castControlBlock
        ((sampleCB ++ [0xAA, 0xBB, 0xCC]).take sampleBuild.sizeofControlBlock))) = none ∧
    ∃ before buffer len ip status rest,
      (main sampleBuild (fake 2 acceptAll oneByteDecode) () [] (0 + 1)
          (sampleCB ++ [0xAA, 0xBB, 0xCC])).log =
        before ++ [Event.call (Call.decodeBuffer buffer len ip) status] ++ rest ∧
      libCalls before =
        [Call.decoderInit 0 0, Call.decoderEnableMode 0 0, Call.decoderEnableMode 1 0,
         Call.formatterInit 0, Call.formatterSetAttribute 0 0, Call.formatterSetAttribute 1 0] :=
  ⟨by decide,
   configuration_order_and_density sampleBuild (fake 2 acceptAll oneByteDecode) () [] 0
     (sampleCB ++ [0xAA, 0xBB, 0xCC]) rfl (by decide) (by decide)⟩

/-- C7: when the version guard passes and the input holds a whole control
block, and the `k`-th call (counting from 0) of the configuration sequence is
the first to report failure, then `main` returns `EXIT_FAILURE` whatever the
iteration budget, the library calls it issued are exactly the first `k + 1`
calls of the configuration sequence (so nothing after the failing call, and in
particular no decode and no format call), and one line went to standard error.
When it is decoder init that fails (`k = 0`, scenario S6) the decoder init is
the only library call: no decoder mode is set and the formatter is never
initialised. -/
theorem fail_fast_configuration {S I : Type} (B : Build) (Z : Zydis S I) (lib : S)
    (readBuf : List Byte) (fuel : Nat) (stdin : List Byte) (k : Nat)
    (hv : Z.ZydisGetVersion = B.ZYDIS_VERSION)
    (hlong : B.sizeofControlBlock ≤ stdin.length)
    (hk : firstFailure Z lib
      (configCalls B (B.castControlBlock (stdin.take B.sizeofControlBlock))) = some k) :
    (main B Z lib readBuf fuel stdin).exitCode = some EXIT_FAILURE ∧
    libCalls (main B Z lib readBuf fuel stdin).log =
      (configCalls B (B.castControlBlock (stdin.take B.sizeofControlBlock))).take (k + 1) ∧
    (stderrLines (main B Z lib readBuf fuel stdin).log).length = 1 ∧
    (k = 0 → libCalls (main B Z lib readBuf fuel stdin).log =
      [Call.decoderInit (B.castControlBlock (stdin.take B.sizeofControlBlock)).machineMode
        (B.castControlBlock (stdin.take B.sizeofControlBlock)).addressWidth]) := by
  obtain ⟨line, hmain⟩ := main_rejected B Z lib readBuf fuel stdin hv hlong k hk
  have hcalls : libCalls (main B Z lib readBuf fuel stdin).log =
      (configCalls B (B.castControlBlock (stdin.take B.sizeofControlBlock))).take (k + 1) := by
    rw [hmain]
    show libCalls (_ ++ _ ++ _) = _
    rw [libCalls_append, libCalls_append, libCalls_answers]
    simp [libCalls]
  refine ⟨by rw [hmain], hcalls, ?_, ?_⟩
  · rw [hmain]
    show (stderrLines (_ ++ _ ++ _)).length = 1
    rw [stderrLines_append, stderrLines_append, stderrLines_answers]
    simp [stderrLines]
  · intro h0
    rw [hcalls, h0, configCalls_eq]
    simp

/-- Witness for C7: scenario S6, decoder init fails on the sample control block. -/
theorem fail_fast_configuration_witness :
    firstFailure (fake 2 rejectInit oneByteDecode) ()
      (configCalls sampleBuild (sampleBuild.castControlBlock
        ((sampleCB ++ [0xAA, 0xBB, 0xCC]).take sampleBuild.sizeofControlBlock))) = some 0 ∧
    (main sampleBuild (fake 2 rejectInit oneByteDecode) () [] 5
        (sampleCB ++ [0xAA, 0xBB, 0xCC])).exitCode = some EXIT_FAILURE ∧
    libCalls (main sampleBuild (fake 2 rejectInit oneByteDecode) () [] 5
        (sampleCB ++ [0xAA, 0xBB, 0xCC])).log = [Call.decoderInit 0 0] :=
  ⟨by decide,
   (fail_fast_configuration sampleBuild (fake 2 rejectInit oneByteDecode) () [] 5
     (sampleCB ++ [0xAA, 0xBB, 0xCC]) 0 rfl (by decide) (by decide)).1,
   (fail_fast_configuration sampleBuild (fake 2 rejectInit oneByteDecode) () [] 5
     (sampleCB ++ [0xAA, 0xBB, 0xCC]) 0 rfl (by decide) (by decide)).2.2.2 rfl⟩

/-- C9: when the version guard passes, the input is at least
`sizeof(ZydisFuzzControlBlock)` bytes long and its configuration is accepted,
then the control block the configuration calls were taken from is exactly the
first `sizeofControlBlock` input bytes, the refill that follows asks for the
input after them, and the first decode call is passed, at cursor 0, the input
bytes from offset `sizeofControlBlock` on (as many as fit the working buffer). -/
theorem exact_prefix_consumption {S I : Type} (B : Build) (Z : Zydis S I) (lib : S)
    (readBuf : List Byte) (fuel : Nat) (stdin : List Byte)
    (hv : Z.ZydisGetVersion = B.ZYDIS_VERSION)
    (hlong : B.sizeofControlBlock ≤ stdin.length)
    (hall : firstFailure Z lib
      (configCalls B (B.castControlBlock (stdin.take B.sizeofControlBlock))) = none)
    (hcap : sizeofReadBuf B < SIZE_MOD) :
    ∃ status rest, (main B Z lib readBuf (fuel + 1) stdin).log =
      [Event.freadControlBlock B.sizeofControlBlock B.sizeofControlBlock] ++
        answers Z lib (configCalls B (B.castControlBlock (stdin.take B.sizeofControlBlock))) ++
        [Event.freadBuf 0 (sizeofReadBuf B)
           ((stdin.drop B.sizeofControlBlock).take (sizeofReadBuf B)).length,
         Event.call (Call.decodeBuffer
           ((stdin.drop B.sizeofControlBlock).take (sizeofReadBuf B))
           ((stdin.drop B.sizeofControlBlock).take (sizeofReadBuf B)).length 0) status] ++
        rest := by
  obtain ⟨status, rest, hlog⟩ := main_accepted_log B Z lib readBuf fuel stdin hv hlong hall
  have hm : ((stdin.drop B.sizeofControlBlock).take (sizeofReadBuf B)).length < SIZE_MOD := by
    rw [List.length_take]
    omega
  have hcall : decodeCall (I := I)
      ((stdin.drop B.sizeofControlBlock).take (sizeofReadBuf B) ++
        readBuf.drop ((stdin.drop B.sizeofControlBlock).take (sizeofReadBuf B)).length)
      ((stdin.drop B.sizeofControlBlock).take (sizeofReadBuf B)).length 0 =
      Call.decodeBuffer ((stdin.drop B.sizeofControlBlock).take (sizeofReadBuf B))
        ((stdin.drop B.sizeofControlBlock).take (sizeofReadBuf B)).length 0 := by
    unfold decodeCall window
    rw [sizeSub_of_le (Nat.zero_le _) hm]
    simp
  rw [hcall] at hlog
  exact ⟨status, rest, hlog⟩

/-- Witness for C9: the sample control block followed by `AA BB CC`; the first
decode call is passed exactly `AA BB CC`. -/
theorem exact_prefix_consumption_witness :
    sampleBuild.sizeofControlBlock ≤ (sampleCB ++ [0xAA, 0xBB, 0xCC]).length ∧
    ∃ status rest,
      (main sampleBuild (fake 2 acceptAll oneByteDecode) () [] (0 + 1)
          (sampleCB ++ [0xAA, 0xBB, 0xCC])).log =
        [Event.freadControlBlock 7 7] ++
          answers (fake 2 acceptAll oneByteDecode) () (configCalls sampleBuild
            (sampleCast [0, 0, 0, 0, 0, 0, 0])) ++
          [Event.freadBuf 0 15360 3,
           Event.call (Call.decodeBuffer [0xAA, 0xBB, 0xCC] 3 0) status] ++ rest :=
  ⟨by decide,
   exact_prefix_consumption sampleBuild (fake 2 acceptAll oneByteDecode) () [] 0
     (sampleCB ++ [0xAA, 0xBB, 0xCC]) rfl (by decide) (by decide) (by decide)⟩

/-! ### The outer loop: exit condition -/

theorem refills_append {I : Type} (a b : List (Event I)) :
    refills (a ++ b) = refills a ++ refills b := by
  induction a with
  | nil => rfl
  | cons e a ih => cases e <;> simp [refills, ih]

/-- A round of the inner loop logs library calls only. -/
theorem innerStep_log_calls {S I : Type} (Z : Zydis S I) (readBuf : List Byte)
    (numBytesRead : Nat) (st : Inner S I) :
    ∃ rest, (innerStep Z readBuf numBytesRead st).1.log = st.log ++ rest ∧
      refills rest = [] ∧ stderrLines rest = [] := by
  by_cases hmore : (decodeAt Z readBuf numBytesRead st).2.1 = ZydisStatus.noMoreData
  · rw [innerStep_noMoreData Z readBuf numBytesRead st hmore]
    exact ⟨_, rfl, rfl, rfl⟩
  · by_cases hok : (decodeAt Z readBuf numBytesRead st).2.1 = ZydisStatus.success
    · rw [innerStep_success Z readBuf numBytesRead st hok]
      exact ⟨_, List.append_assoc _ _ _, rfl, rfl⟩
    · rw [innerStep_failure Z readBuf numBytesRead st hok hmore]
      exact ⟨_, rfl, rfl, rfl⟩

/-- The inner loop logs library calls only. -/
theorem innerLoop_log_calls {S I : Type} (Z : Zydis S I) (readBuf : List Byte)
    (numBytesRead : Nat) (fuel : Nat) (st : Inner S I) :
    ∃ rest, (innerLoop Z readBuf numBytesRead fuel st).1.log = st.log ++ rest ∧
      refills rest = [] ∧ stderrLines rest = [] := by
  induction fuel generalizing st with
  | zero => exact ⟨[], by simp [innerLoop], rfl, rfl⟩
  | succ fuel ih =>
    obtain ⟨r1, h1, hr1, he1⟩ := innerStep_log_calls Z readBuf numBytesRead st
    rw [innerLoop_succ]
    by_cases hc : (innerStep Z readBuf numBytesRead st).2 = true
    · rw [if_pos hc]
      obtain ⟨r2, h2, hr2, he2⟩ := ih (innerStep Z readBuf numBytesRead st).1
      refine ⟨r1 ++ r2, ?_, ?_, ?_⟩
      · rw [h2, h1, List.append_assoc]
      · rw [refills_append, hr1, hr2]
        rfl
      · rw [stderrLines_append, he1, he2]
        rfl
    · rw [if_neg hc]
      exact ⟨r1, h1, hr1, he1⟩

/-- The log of one iteration of the outer loop: the refill, which asks for
`sizeof(readBuf)` bytes at the start of the buffer, followed by library calls. -/
theorem outerBody_log {S I : Type} (B : Build) (Z : Zydis S I) (fuel : Nat)
    (st : Outer S I) :
    ∃ inner, (outerBody B Z fuel st).next.log =
        st.log ++ [Event.freadBuf 0 (sizeofReadBuf B) (outerBody B Z fuel st).numBytesRead] ++
          inner ∧
      refills inner = [] ∧ stderrLines inner = [] := by
  obtain ⟨r1, h1, hr1, he1⟩ := innerLoop_log_calls Z (refill (sizeofReadBuf B) st).1.readBuf
    (refill (sizeofReadBuf B) st).2 fuel
    { lib := (refill (sizeofReadBuf B) st).1.lib, readOffs := 0,
      log := (refill (sizeofReadBuf B) st).1.log }
  exact ⟨r1, h1, hr1, he1⟩

/-- With at least one iteration of budget, the outer loop starts by logging
its refill. -/
theorem outerLoop_log_refill {S I : Type} (B : Build) (Z : Zydis S I) (fuel : Nat)
    (st : Outer S I) :
    ∃ returned rest, (outerLoop B Z (fuel + 1) st).log =
      st.log ++ [Event.freadBuf 0 (sizeofReadBuf B) returned] ++ rest := by
  obtain ⟨status, rest, h⟩ := outerLoop_log_first B Z fuel st
  refine ⟨(st.stdin.take (sizeofReadBuf B)).length,
    Event.call (decodeCall (st.stdin.take (sizeofReadBuf B) ++
        st.readBuf.drop (st.stdin.take (sizeofReadBuf B)).length)
      (st.stdin.take (sizeofReadBuf B)).length 0) status :: rest, ?_⟩
  rw [h]
  simp

/-- The exit test of the outer loop against what the refill asked for: take an
iteration of the outer loop whose inner loop is left (within the budget).  Its
log is the refill, a request for `requested` bytes of which `returned` came
back, followed by library calls only.  The harness stops after this iteration,
with exit code 0 and nothing further logged, exactly when
`returned < requested`; otherwise the next thing it does is another refill. -/
theorem outer_loop_exit_condition {S I : Type} (B : Build) (Z : Zydis S I) (fuel : Nat)
    (st : Outer S I) (hdone : (outerBody B Z (fuel + 2) st).completed = true) :
    ∃ requested returned inner,
      (outerBody B Z (fuel + 2) st).next.log =
        st.log ++ [Event.freadBuf 0 requested returned] ++ inner ∧
      refills inner = [] ∧
      (returned < requested ↔
        outerLoop B Z (fuel + 2) st =
          { exitCode := some 0,
            log := st.log ++ [Event.freadBuf 0 requested returned] ++ inner }) ∧
      (¬ returned < requested →
        ∃ requested2 returned2 rest, (outerLoop B Z (fuel + 2) st).log =
          st.log ++ [Event.freadBuf 0 requested returned] ++ inner ++
            [Event.freadBuf 0 requested2 returned2] ++ rest) := by
  obtain ⟨inner, hlog, hinner, _⟩ := outerBody_log B Z (fuel + 2) st
  have hsucc : outerLoop B Z (fuel + 2) st =
      if (outerBody B Z (fuel + 2) st).completed then
        if (outerBody B Z (fuel + 2) st).numBytesRead = sizeofReadBuf B then
          outerLoop B Z (fuel + 1) (outerBody B Z (fuel + 2) st).next
        else
          { exitCode := some 0, log := (outerBody B Z (fuel + 2) st).next.log }
      else
        { exitCode := none, log := (outerBody B Z (fuel + 2) st).next.log } :=
    outerLoop_succ B Z (fuel + 1) st
  have hle : (outerBody B Z (fuel + 2) st).numBytesRead ≤ sizeofReadBuf B := by
    show (st.stdin.take (sizeofReadBuf B)).length ≤ _
    rw [List.length_take]
    omega
  have hcont : (outerBody B Z (fuel + 2) st).numBytesRead = sizeofReadBuf B →
      ∃ requested2 returned2 rest, (outerLoop B Z (fuel + 2) st).log =
        st.log ++ [Event.freadBuf 0 (sizeofReadBuf B)
          (outerBody B Z (fuel + 2) st).numBytesRead] ++ inner ++
          [Event.freadBuf 0 requested2 returned2] ++ rest := by
    intro heq
    rw [hsucc, if_pos hdone, if_pos heq]
    obtain ⟨returned2, rest, hnext⟩ := outerLoop_log_refill B Z fuel
      (outerBody B Z (fuel + 2) st).next
    refine ⟨sizeofReadBuf B, returned2, rest, ?_⟩
    rw [hnext, hlog]
  refine ⟨sizeofReadBuf B, (outerBody B Z (fuel + 2) st).numBytesRead, inner, hlog, hinner,
    ⟨?_, ?_⟩, ?_⟩
  · intro hlt
    rw [hsucc, if_pos hdone, if_neg (by omega), hlog]
  · intro hstop
    by_contra hnlt
    obtain ⟨requested2, returned2, rest, hmore⟩ := hcont (by omega)
    rw [hstop] at hmore
    have hlen := congrArg List.length hmore
    simp at hlen
  · intro hnlt
    exact hcont (by omega)

/-- The exit test on one payload byte with a one-byte-instruction decoder: the
refill returns 1 of the 15360 bytes requested and the harness stops. -/
theorem outer_loop_exit_condition_witness :
    (outerBody sampleBuild (fake 2 acceptAll oneByteDecode) (0 + 2)
      { lib := (), stdin := [0xAA], readBuf := [], log := [] }).completed = true ∧
    ∃ requested returned inner,
      (outerBody sampleBuild (fake 2 acceptAll oneByteDecode) (0 + 2)
        { lib := (), stdin := [0xAA], readBuf := [], log := [] }).next.log =
        [] ++ [Event.freadBuf 0 requested returned] ++ inner ∧
      refills inner = [] ∧
      (returned < requested ↔
        outerLoop sampleBuild (fake 2 acceptAll oneByteDecode) (0 + 2)
            { lib := (), stdin := [0xAA], readBuf := [], log := [] } =
          { exitCode := some 0,
            log := [] ++ [Event.freadBuf 0 requested returned] ++ inner }) ∧
      (¬ returned < requested →
        ∃ requested2 returned2 rest,
          (outerLoop sampleBuild (fake 2 acceptAll oneByteDecode) (0 + 2)
            { lib := (), stdin := [0xAA], readBuf := [], log := [] }).log =
          [] ++ [Event.freadBuf 0 requested returned] ++ inner ++
            [Event.freadBuf 0 requested2 returned2] ++ rest) :=
  ⟨by decide,
   outer_loop_exit_condition sampleBuild (fake 2 acceptAll oneByteDecode) 0
     { lib := (), stdin := [0xAA], readBuf := [], log := [] } (by decide)⟩

/-! ### The S5 double across a refill -/

theorem needThree_lengths :
    ∀ (s : Unit) (buffer : List Byte) (len ip : Nat),
      ((fake 2 acceptAll needThree).ZydisDecoderDecodeBuffer s buffer len ip).2.1 =
        ZydisStatus.success →
      1 ≤ (fake 2 acceptAll needThree).length
        ((fake 2 acceptAll needThree).ZydisDecoderDecodeBuffer s buffer len ip).2.2 ∧
      (fake 2 acceptAll needThree).length
        ((fake 2 acceptAll needThree).ZydisDecoderDecodeBuffer s buffer len ip).2.2 ≤ len := by
  intro s buffer len ip h
  by_cases h3 : len < 3
  · simp [fake, needThree, h3] at h
  · simp only [fake, needThree, if_neg h3]
    omega

theorem needThree_empty :
    ∀ (s : Unit) (buffer : List Byte) (ip : Nat),
      ((fake 2 acceptAll needThree).ZydisDecoderDecodeBuffer s buffer 0 ip).2.1 =
        ZydisStatus.noMoreData := by
  intro s buffer ip
  rfl

/-- With the S5 double, the inner loop over an occupancy of at least two bytes
decodes one-byte instructions up to cursor `numBytesRead - 2`, where the
decoder reports "no more data" on the two bytes left. -/
theorem innerLoop_needThree (readBuf : List Byte) (numBytesRead : Nat)
    (hn : numBytesRead < SIZE_MOD) (fuel : Nat) :
    ∀ st : Inner Unit Nat, st.readOffs + 2 ≤ numBytesRead →
      numBytesRead - 2 - st.readOffs < fuel →
      ∃ mid, innerLoop (fake 2 acceptAll needThree) readBuf numBytesRead fuel st =
          ({ lib := (), readOffs := numBytesRead - 2,
             log := st.log ++ mid ++
               [Event.call (decodeCall readBuf numBytesRead (numBytesRead - 2))
                 ZydisStatus.noMoreData] }, true) ∧
        refills mid = [] := by
  induction fuel with
  | zero => intro st _ h; omega
  | succ fuel ih =>
    intro st ho hfuel
    have hsub : sizeSub numBytesRead st.readOffs = numBytesRead - st.readOffs :=
      sizeSub_of_le (by omega) hn
    rw [innerLoop_succ]
    by_cases hend : st.readOffs + 2 = numBytesRead
    · have hd : (decodeAt (fake 2 acceptAll needThree) readBuf numBytesRead st).2.1 =
          ZydisStatus.noMoreData := by
        have h3 : numBytesRead - st.readOffs < 3 := by omega
        simp [decodeAt, fake, needThree, hsub, h3]
      rw [innerStep_noMoreData _ readBuf numBytesRead st hd]
      have ho2 : st.readOffs = numBytesRead - 2 := by omega
      refine ⟨[], ?_, rfl⟩
      simp [ho2]
    · have h3 : ¬ numBytesRead - st.readOffs < 3 := by omega
      have hd : (decodeAt (fake 2 acceptAll needThree) readBuf numBytesRead st).2 =
          (ZydisStatus.success, 1) := by
        simp [decodeAt, fake, needThree, hsub, h3]
      have hok : (decodeAt (fake 2 acceptAll needThree) readBuf numBytesRead st).2.1 =
          ZydisStatus.success := by rw [hd]
      have hL : (fake 2 acceptAll needThree).length
          (decodeAt (fake 2 acceptAll needThree) readBuf numBytesRead st).2.2 = 1 := by
        rw [hd]
        rfl
      rw [innerStep_success _ readBuf numBytesRead st hok, if_pos rfl, hL,
        sizeAdd_of_lt (by omega)]
      obtain ⟨mid, hmid, hr⟩ := ih
        { lib := ((fake 2 acceptAll needThree).ZydisFormatterFormatInstruction
            (decodeAt (fake 2 acceptAll needThree) readBuf numBytesRead st).1
            (decodeAt (fake 2 acceptAll needThree) readBuf numBytesRead st).2.2
            sizeofPrintBuffer).1,
          readOffs := st.readOffs + 1,
          log := st.log ++
            [Event.call (decodeCall readBuf numBytesRead st.readOffs) ZydisStatus.success] ++
            [Event.call (Call.formatInstruction
              (decodeAt (fake 2 acceptAll needThree) readBuf numBytesRead st).2.2
              sizeofPrintBuffer)
              ((fake 2 acceptAll needThree).ZydisFormatterFormatInstruction
                (decodeAt (fake 2 acceptAll needThree) readBuf numBytesRead st).1
                (decodeAt (fake 2 acceptAll needThree) readBuf numBytesRead st).2.2
                sizeofPrintBuffer).2] }
        (by show st.readOffs + 1 + 2 ≤ numBytesRead; omega)
        (by show numBytesRead - 2 - (st.readOffs + 1) < fuel; omega)
      rw [hmid]
      refine ⟨[Event.call (decodeCall readBuf numBytesRead st.readOffs) ZydisStatus.success,
        Event.call (Call.formatInstruction
          (decodeAt (fake 2 acceptAll needThree) readBuf numBytesRead st).2.2 sizeofPrintBuffer)
          ((fake 2 acceptAll needThree).ZydisFormatterFormatInstruction
            (decodeAt (fake 2 acceptAll needThree) readBuf numBytesRead st).1
            (decodeAt (fake 2 acceptAll needThree) readBuf numBytesRead st).2.2
            sizeofPrintBuffer).2] ++ mid, ?_, ?_⟩
      · simp
      · rw [refills_append, hr]
        rfl

theorem outerBody_of_innerLoop {S I : Type} (B : Build) (Z : Zydis S I) (fuel : Nat)
    (st : Outer S I) (r : Inner S I) (c : Bool)
    (h : innerLoop Z (refill (sizeofReadBuf B) st).1.readBuf (refill (sizeofReadBuf B) st).2 fuel
      { lib := (refill (sizeofReadBuf B) st).1.lib, readOffs := 0,
        log := (refill (sizeofReadBuf B) st).1.log } = (r, c)) :
    outerBody B Z fuel st =
      { next := { lib := r.lib, stdin := (refill (sizeofReadBuf B) st).1.stdin,
                  readBuf := carry B (refill (sizeofReadBuf B) st).1.readBuf r.readOffs,
                  log := r.log },
        filled := (refill (sizeofReadBuf B) st).1.readBuf,
        numBytesRead := (refill (sizeofReadBuf B) st).2,
        readOffs := r.readOffs,
        completed := c } := by
  unfold outerBody
  simp only [h]

/-- The S5 run in the model: a payload that fills the working buffer and two
bytes more.  The first iteration stops with "no more data" on the last two
bytes `a b` of the buffer; the second refill is again a request for
`sizeof(readBuf)` bytes at the start of the buffer, and the first (and only)
decode call of the second iteration is passed the two new bytes `c d` alone. -/
theorem outerLoop_needThree_across_refill (B : Build) (P : List Byte) (a b c d : Byte)
    (readBuf : List Byte) (log : List (Event Nat)) (fuel : Nat)
    (hcap : sizeofReadBuf B < SIZE_MOD) (hP : P.length + 2 = sizeofReadBuf B)
    (hbig : 2 < sizeofReadBuf B) (hfuel : sizeofReadBuf B ≤ fuel) :
    ∃ inner, refills inner = [] ∧
      outerLoop B (fake 2 acceptAll needThree) (fuel + 1)
          { lib := (), stdin := P ++ [a, b] ++ [c, d], readBuf := readBuf, log := log } =
        { exitCode := some 0,
          log := log ++ [Event.freadBuf 0 (sizeofReadBuf B) (sizeofReadBuf B)] ++ inner ++
            [Event.call (Call.decodeBuffer [a, b] 2 (sizeofReadBuf B - 2))
               ZydisStatus.noMoreData,
             Event.freadBuf 0 (sizeofReadBuf B) 2,
             Event.call (Call.decodeBuffer [c, d] 2 0) ZydisStatus.noMoreData] } := by
  have hPab : (P ++ [a, b]).length = sizeofReadBuf B := by simp [hP]
  have htake : (P ++ [a, b] ++ [c, d]).take (sizeofReadBuf B) = P ++ [a, b] :=
    List.take_left' hPab
  have hdrop : (P ++ [a, b] ++ [c, d]).drop (sizeofReadBuf B) = [c, d] :=
    List.drop_left' hPab
  -- first iteration
  have hf1 : refill (I := Nat) (sizeofReadBuf B)
      { lib := (), stdin := P ++ [a, b] ++ [c, d], readBuf := readBuf, log := log } =
      ({ lib := (), stdin := [c, d],
         readBuf := P ++ [a, b] ++ readBuf.drop (sizeofReadBuf B),
         log := log ++ [Event.freadBuf 0 (sizeofReadBuf B) (sizeofReadBuf B)] },
       sizeofReadBuf B) := by
    unfold refill
    simp only [htake, hdrop, hPab]
  obtain ⟨inner, hinner, hrefills⟩ := innerLoop_needThree
    (P ++ [a, b] ++ readBuf.drop (sizeofReadBuf B)) (sizeofReadBuf B) hcap (fuel + 1)
    { lib := (), readOffs := 0,
      log := log ++ [Event.freadBuf 0 (sizeofReadBuf B) (sizeofReadBuf B)] }
    (by show 0 + 2 ≤ sizeofReadBuf B; omega)
    (by show sizeofReadBuf B - 2 - 0 < fuel + 1; omega)
  have hcall1 : decodeCall (I := Nat) (P ++ [a, b] ++ readBuf.drop (sizeofReadBuf B))
      (sizeofReadBuf B) (sizeofReadBuf B - 2) =
      Call.decodeBuffer [a, b] 2 (sizeofReadBuf B - 2) := by
    unfold decodeCall window
    rw [sizeSub_of_le (Nat.sub_le _ _) hcap]
    have h2 : sizeofReadBuf B - (sizeofReadBuf B - 2) = 2 := by omega
    have hd : (P ++ [a, b] ++ readBuf.drop (sizeofReadBuf B)).drop (sizeofReadBuf B - 2) =
        [a, b] ++ readBuf.drop (sizeofReadBuf B) := by
      rw [List.append_assoc]
      exact List.drop_left' (by omega)
    rw [h2, hd]
    rfl
  rw [hcall1] at hinner
  have hbody1 := outerBody_of_innerLoop B (fake 2 acceptAll needThree) (fuel + 1)
    { lib := (), stdin := P ++ [a, b] ++ [c, d], readBuf := readBuf, log := log }
    { lib := (), readOffs := sizeofReadBuf B - 2,
      log := log ++ [Event.freadBuf 0 (sizeofReadBuf B) (sizeofReadBuf B)] ++ inner ++
        [Event.call (Call.decodeBuffer [a, b] 2 (sizeofReadBuf B - 2))
          ZydisStatus.noMoreData] } true
    (by rw [hf1]; exact hinner)
  rw [hf1] at hbody1
  -- second iteration
  obtain ⟨fuel2, rfl⟩ : ∃ k, fuel = k + 1 := ⟨fuel - 1, by omega⟩
  have htake2 : ([c, d] : List Byte).take (sizeofReadBuf B) = [c, d] :=
    List.take_of_length_le (by simp; omega)
  have hdrop2 : ([c, d] : List Byte).drop (sizeofReadBuf B) = [] :=
    List.drop_of_length_le (by simp; omega)
  have hstep2 : ∀ (buf : List Byte) (l : List (Event Nat)),
      innerLoop (fake 2 acceptAll needThree) ([c, d] ++ buf) 2 (fuel2 + 1)
        { lib := (), readOffs := 0, log := l } =
      ({ lib := (), readOffs := 0,
         log := l ++ [Event.call (Call.decodeBuffer [c, d] 2 0) ZydisStatus.noMoreData] },
       true) := by
    intro buf l
    have hd : (decodeAt (fake 2 acceptAll needThree) ([c, d] ++ buf) 2
        { lib := (), readOffs := 0, log := l }).2.1 = ZydisStatus.noMoreData := by
      simp [decodeAt, fake, needThree, sizeSub, SIZE_MOD_eq]
    rw [innerLoop_succ, innerStep_noMoreData _ _ _ _ hd]
    simp [decodeCall, window, sizeSub, SIZE_MOD_eq]
  refine ⟨inner, hrefills, ?_⟩
  rw [outerLoop_succ, hbody1]
  simp only [if_true]
  rw [outerLoop_succ]
  have hf2 : ∀ (buf : List Byte) (l : List (Event Nat)),
      refill (I := Nat) (sizeofReadBuf B)
        { lib := (), stdin := [c, d], readBuf := buf, log := l } =
      ({ lib := (), stdin := [], readBuf := [c, d] ++ buf.drop 2,
         log := l ++ [Event.freadBuf 0 (sizeofReadBuf B) 2] }, 2) := by
    intro buf l
    unfold refill
    simp only [htake2, hdrop2]
    rfl
  have hbody2 := fun buf l => outerBody_of_innerLoop B (fake 2 acceptAll needThree) (fuel2 + 1)
    { lib := (), stdin := [c, d], readBuf := buf, log := l }
    { lib := (), readOffs := 0,
      log := l ++ [Event.freadBuf 0 (sizeofReadBuf B) 2] ++
        [Event.call (Call.decodeBuffer [c, d] 2 0) ZydisStatus.noMoreData] } true
    (by rw [hf2 buf l]; exact hstep2 _ _)
  rw [hbody2]
  simp only [hf2, if_true]
  rw [if_neg (by omega)]
  simp

theorem refills_answers {S I : Type} (Z : Zydis S I) (lib : S) (calls : List (Call I)) :
    refills (answers Z lib calls) = [] := by
  induction calls generalizing lib with
  | nil => rfl
  | cons c cs ih => simp [answers, refills, ih]

/-- The run of `main` on `carryInput` with the S5 double. -/
theorem main_on_carryInput :
    ∃ inner, refills inner = [] ∧
      main sampleBuild (fake 2 acceptAll needThree) () (List.replicate 15360 0) 15361
          carryInput =
        { exitCode := some 0,
          log := [Event.freadControlBlock 7 7] ++
            answers (fake 2 acceptAll needThree) () (configCalls sampleBuild
              (sampleCast sampleCB)) ++
            [Event.freadBuf 0 15360 15360] ++ inner ++
            [Event.call (Call.decodeBuffer [0x66, 0x0F] 2 15358) ZydisStatus.noMoreData,
             Event.freadBuf 0 15360 2,
             Event.call (Call.decodeBuffer [0x1F, 0x00] 2 0) ZydisStatus.noMoreData] } := by
  have htake : carryInput.take sampleBuild.sizeofControlBlock = sampleCB :=
    List.take_left' rfl
  have hdrop : carryInput.drop sampleBuild.sizeofControlBlock =
      List.replicate 15358 0x90 ++ [0x66, 0x0F] ++ [0x1F, 0x00] :=
    List.drop_left' rfl
  have hlong : sampleBuild.sizeofControlBlock ≤ carryInput.length := by
    have h7 : sampleBuild.sizeofControlBlock = sampleCB.length := rfl
    unfold carryInput
    rw [List.length_append, h7]
    exact Nat.le_add_right _ _
  have hall : firstFailure (fake 2 acceptAll needThree) ()
      (configCalls sampleBuild (sampleBuild.castControlBlock
        (carryInput.take sampleBuild.sizeofControlBlock))) = none := by
    rw [htake]
    decide
  obtain ⟨inner, hrefills, hrun⟩ := outerLoop_needThree_across_refill sampleBuild
    (List.replicate 15358 0x90) 0x66 0x0F 0x1F 0x00 (List.replicate 15360 0)
    ([Event.freadControlBlock 7 7] ++
      answers (fake 2 acceptAll needThree) () (configCalls sampleBuild (sampleCast sampleCB)))
    15360 (by decide) (by rw [List.length_replicate]; rfl)
    (by decide) (by decide)
  refine ⟨inner, hrefills, ?_⟩
  rw [main_accepted sampleBuild (fake 2 acceptAll needThree) () (List.replicate 15360 0) 15361
    carryInput rfl hlong hall, hdrop, htake]
  exact hrun

/-- C1, the code at the failing input: on `carryInput` the inner loop of the
first iteration stops with "no more data" at offset 15358 of the full buffer,
on the two bytes `66 0F`; the next refill returns the two remaining bytes, and
the first decode call of the second iteration is passed `1F 00` alone, with
length 2, not `66 0F 1F 00`: the undecided tail is not decoded together with
the input that follows it. -/
theorem carried_tail_is_overwritten :
    ∃ before,
      main sampleBuild (fake 2 acceptAll needThree) () (List.replicate 15360 0) 15361
          carryInput =
        { exitCode := some 0,
          log := before ++
            [Event.call (Call.decodeBuffer [0x66, 0x0F] 2 15358) ZydisStatus.noMoreData,
             Event.freadBuf 0 15360 2,
             Event.call (Call.decodeBuffer [0x1F, 0x00] 2 0) ZydisStatus.noMoreData] } := by
  obtain ⟨inner, _, hrun⟩ := main_on_carryInput
  exact ⟨_, hrun⟩

/-- C2, the code at the failing input: on `carryInput`, where the first
iteration leaves a carry of two bytes, the second refill again requests all
15360 bytes at buffer index 0 (not 15358 bytes at index 2), and the harness
stops since that refill returned 2 bytes. -/
theorem refill_ignores_carry :
    refills (main sampleBuild (fake 2 acceptAll needThree) () (List.replicate 15360 0) 15361
      carryInput).log = [(0, 15360, 15360), (0, 15360, 2)] := by
  obtain ⟨inner, hrefills, hrun⟩ := main_on_carryInput
  rw [hrun]
  simp [refills_append, refills_answers, hrefills, refills]

/-! ### Mode flags and attribute values -/

/-- The library calls that `failFast` logs are a prefix of the calls it was
given, and all of them when it reports success. -/
theorem failFast_libCalls {S I : Type} (Z : Zydis S I) (lib : S) (log : List (Event I))
    (calls : List (Call I)) :
    ∃ rest m, (failFast Z lib log calls).2.1 = log ++ rest ∧
      libCalls rest = calls.take m ∧
      ((failFast Z lib log calls).2.2 = true → libCalls rest = calls) := by
  cases hf : firstFailure Z lib calls with
  | none =>
    rw [failFast_of_firstFailure_none Z lib log calls hf]
    refine ⟨answers Z lib calls, calls.length, rfl, ?_, ?_⟩
    · rw [libCalls_answers, List.take_length]
    · intro _
      exact libCalls_answers Z lib calls
  | some k =>
    obtain ⟨lib1, line, h⟩ := failFast_of_firstFailure_some Z lib log calls k hf
    rw [h]
    refine ⟨answers Z lib (calls.take (k + 1)) ++ [Event.fputs line], k + 1, ?_, ?_, ?_⟩
    · simp
    · rw [libCalls_append, libCalls_answers]
      simp [libCalls]
    · intro hc
      simp at hc

/-- C19: whatever the library answers, every `ZydisDecoderEnableMode` call
that the configurator logs has an index `i` up to
`ZYDIS_DECODER_MODE_MAX_VALUE` and passes the flag 1 when `decoderMode[i]` is
non-zero and 0 when it is zero (never another value), and every
`ZydisFormatterSetAttribute` call has an index `i` up to
`ZYDIS_FORMATTER_ATTRIB_MAX_VALUE` and passes `formatterAttributes[i]`
unchanged; when the configuration is accepted, each of these calls is logged
for every index. -/
theorem mode_flag_normalisation {S I : Type} (B : Build) (Z : Zydis S I)
    (controlBlock : ZydisFuzzControlBlock) (lib : S) (log : List (Event I)) :
    ∃ rest, (configure B Z controlBlock lib log).2.1 = log ++ rest ∧
      (∀ i e, Call.decoderEnableMode i e ∈ libCalls rest →
        i ≤ B.ZYDIS_DECODER_MODE_MAX_VALUE ∧
        e = (if controlBlock.decoderMode i ≠ 0 then 1 else 0) ∧ (e = 0 ∨ e = 1)) ∧
      (∀ i v, Call.formatterSetAttribute i v ∈ libCalls rest →
        i ≤ B.ZYDIS_FORMATTER_ATTRIB_MAX_VALUE ∧ v = controlBlock.formatterAttributes i) ∧
      ((configure B Z controlBlock lib log).2.2 = true →
        (∀ i, i ≤ B.ZYDIS_DECODER_MODE_MAX_VALUE →
          Call.decoderEnableMode i (if controlBlock.decoderMode i ≠ 0 then 1 else 0) ∈
            libCalls rest) ∧
        (∀ i, i ≤ B.ZYDIS_FORMATTER_ATTRIB_MAX_VALUE →
          Call.formatterSetAttribute i (controlBlock.formatterAttributes i) ∈
            libCalls rest)) := by
  rw [configure_eq_failFast]
  obtain ⟨rest, m, hlog, htake, hall⟩ := failFast_libCalls Z lib log (configCalls B controlBlock)
  refine ⟨rest, hlog, ?_, ?_, ?_⟩
  · intro i e hmem
    rw [htake] at hmem
    have hin := List.mem_of_mem_take hmem
    simp only [configCalls, List.mem_append, List.mem_singleton, List.mem_map, List.mem_range,
      reduceCtorEq, false_or, or_false] at hin
    rcases hin with ⟨j, hj, hcall⟩ | ⟨j, _, hcall⟩
    · injection hcall with h1 h2
      subst h1
      refine ⟨by omega, h2.symm, ?_⟩
      rw [← h2]
      split <;> simp
    · exact absurd hcall (by simp)
  · intro i v hmem
    rw [htake] at hmem
    have hin := List.mem_of_mem_take hmem
    simp only [configCalls, List.mem_append, List.mem_singleton, List.mem_map, List.mem_range,
      reduceCtorEq, false_or, or_false] at hin
    rcases hin with ⟨j, _, hcall⟩ | ⟨j, hj, hcall⟩
    · exact absurd hcall (by simp)
    · injection hcall with h1 h2
      subst h1
      exact ⟨by omega, h2.symm⟩
  · intro hok
    rw [hall hok]
    constructor
    · intro i hi
      simp only [configCalls, List.mem_append, List.mem_singleton, List.mem_map, List.mem_range,
        reduceCtorEq, false_or, or_false]
      exact Or.inl ⟨i, by omega, rfl⟩
    · intro i hi
      simp only [configCalls, List.mem_append, List.mem_singleton, List.mem_map, List.mem_range,
        reduceCtorEq, false_or, or_false]
      exact Or.inr ⟨i, by omega, rfl⟩

/-- Witness for C19: on `flagsCB` the raw mode value 5 is passed as flag 1, the
raw value 0 as flag 0, and the attribute value 9 as it is. -/
theorem mode_flag_normalisation_witness :
    (configure sampleBuild (fake 2 acceptAll oneByteDecode) (sampleCast flagsCB) ()
      []).2.2 = true ∧
    Call.decoderEnableMode 0 1 ∈ libCalls
      (configure sampleBuild (fake 2 acceptAll oneByteDecode) (sampleCast flagsCB) () []).2.1 ∧
    Call.decoderEnableMode 1 0 ∈ libCalls
      (configure sampleBuild (fake 2 acceptAll oneByteDecode) (sampleCast flagsCB) () []).2.1 ∧
    Call.formatterSetAttribute 0 9 ∈ libCalls
      (configure sampleBuild (fake 2 acceptAll oneByteDecode) (sampleCast flagsCB) ()
        []).2.1 := by
  obtain ⟨rest, hlog, _, _, hall⟩ := mode_flag_normalisation sampleBuild
    (fake 2 acceptAll oneByteDecode) (sampleCast flagsCB) () []
  have hok : (configure sampleBuild (fake 2 acceptAll oneByteDecode) (sampleCast flagsCB) ()
      []).2.2 = true := by decide
  rw [hlog, List.nil_append]
  exact ⟨hok, (hall hok).1 0 (by decide), (hall hok).1 1 (by decide),
    (hall hok).2 0 (by decide)⟩

/-! ### The carry-forward move -/

/-- After lines 127-130 with cursor `o` below an occupancy `n` that fits the
buffer, the first `n - o` bytes of the buffer are the bytes that were at
`o .. n` before. -/
theorem carry_take (B : Build) (readBuf : List Byte) (o n : Nat)
    (hcap : sizeofReadBuf B < SIZE_MOD) (hon : o < n) (hn : n ≤ sizeofReadBuf B)
    (hlen : n ≤ readBuf.length) :
    (carry B readBuf o).take (n - o) = (readBuf.drop o).take (n - o) := by
  unfold carry memmove
  rw [if_pos (by omega), sizeSub_of_le (by omega) hcap]
  rw [List.take_append_of_le_length (by rw [List.length_take, List.length_drop]; omega),
    List.take_take]
  congr 1
  omega

/-- C14: in every iteration of the outer loop whose inner loop stops at a
cursor `o` below the occupancy `n`, the buffer after the move of lines 127-130
(the buffer the next iteration starts from, before its refill) begins with the
`n - o` bytes that were at `o .. n` when the inner loop ran, in the same
order. -/
theorem carry_forward_move {S I : Type} (B : Build) (Z : Zydis S I) (fuel : Nat)
    (st : Outer S I) (hcap : sizeofReadBuf B < SIZE_MOD)
    (hon : (outerBody B Z fuel st).readOffs < (outerBody B Z fuel st).numBytesRead) :
    (outerBody B Z fuel st).next.readBuf.take
        ((outerBody B Z fuel st).numBytesRead - (outerBody B Z fuel st).readOffs) =
      ((outerBody B Z fuel st).filled.drop (outerBody B Z fuel st).readOffs).take
        ((outerBody B Z fuel st).numBytesRead - (outerBody B Z fuel st).readOffs) := by
  have hn : (outerBody B Z fuel st).numBytesRead ≤ sizeofReadBuf B := by
    show (st.stdin.take (sizeofReadBuf B)).length ≤ _
    rw [List.length_take]
    omega
  have hlen : (outerBody B Z fuel st).numBytesRead ≤ (outerBody B Z fuel st).filled.length := by
    show (st.stdin.take (sizeofReadBuf B)).length ≤
      (st.stdin.take (sizeofReadBuf B) ++ _).length
    rw [List.length_append]
    omega
  exact carry_take B (outerBody B Z fuel st).filled _ _ hcap hon hn hlen

/-- Witness for C14: the S5 double on the payload `01 02 03 04` stops at cursor
2 of 4, and the move brings `03 04` to the front of the buffer. -/
theorem carry_forward_move_witness :
    (outerBody sampleBuild (fake 2 acceptAll needThree) 5
        { lib := (), stdin := [1, 2, 3, 4], readBuf := [], log := [] }).readOffs = 2 ∧
    (outerBody sampleBuild (fake 2 acceptAll needThree) 5
        { lib := (), stdin := [1, 2, 3, 4], readBuf := [], log := [] }).numBytesRead = 4 ∧
    (outerBody sampleBuild (fake 2 acceptAll needThree) 5
        { lib := (), stdin := [1, 2, 3, 4], readBuf := [], log := [] }).next.readBuf.take
          (4 - 2) = [3, 4] :=
  ⟨by decide, by decide,
   carry_forward_move sampleBuild (fake 2 acceptAll needThree) 5
     { lib := (), stdin := [1, 2, 3, 4], readBuf := [], log := [] } (by decide) (by decide)⟩

/-! ### Empty payload -/

/-- C12, as stated, fails: on the sample control block alone (scenario S1) the
harness performs one refill, which returns 0 bytes, and returns exit code 0,
but it does issue a decode call: the condition of the inner `while` loop is
the decode call itself, here on the empty slice at offset 0. -/
theorem empty_payload_still_decodes :
    main sampleBuild (fake 2 acceptAll oneByteDecode) () (List.replicate 15360 0) 1 sampleCB =
      { exitCode := some 0,
        log := [Event.freadControlBlock 7 7,
                Event.call (Call.decoderInit 0 0) ZydisStatus.success,
                Event.call (Call.decoderEnableMode 0 0) ZydisStatus.success,
                Event.call (Call.decoderEnableMode 1 0) ZydisStatus.success,
                Event.call (Call.formatterInit 0) ZydisStatus.success,
                Event.call (Call.formatterSetAttribute 0 0) ZydisStatus.success,
                Event.call (Call.formatterSetAttribute 1 0) ZydisStatus.success,
                Event.freadBuf 0 15360 0,
                Event.call (Call.decodeBuffer [] 0 0) ZydisStatus.noMoreData] } := by
  rfl

/-- C12, amended: when the version guard passes, the input is exactly an
accepted control block (no payload byte), the working buffer is not empty and
the decoder reports "no more data" on an empty slice, then for every budget of
at least one iteration `main` returns exit code 0 and its log is: the read of
the control block, the configuration calls, one refill that returns 0 bytes,
and exactly one decode call, on the empty slice at offset 0; no format call. -/
theorem empty_payload {S I : Type} (B : Build) (Z : Zydis S I) (lib : S)
    (readBuf : List Byte) (fuel : Nat) (stdin : List Byte)
    (hv : Z.ZydisGetVersion = B.ZYDIS_VERSION)
    (hexact : stdin.length = B.sizeofControlBlock)
    (hall : firstFailure Z lib
      (configCalls B (B.castControlBlock (stdin.take B.sizeofControlBlock))) = none)
    (hpos : 0 < B.ZYDIS_MAX_INSTRUCTION_LENGTH)
    (hempty : ∀ s buffer ip, (Z.ZydisDecoderDecodeBuffer s buffer 0 ip).2.1 =
        ZydisStatus.noMoreData) :
    main B Z lib readBuf (fuel + 1) stdin =
      { exitCode := some 0,
        log := [Event.freadControlBlock B.sizeofControlBlock B.sizeofControlBlock] ++
          answers Z lib (configCalls B (B.castControlBlock (stdin.take B.sizeofControlBlock))) ++
          [Event.freadBuf 0 (sizeofReadBuf B) 0,
           Event.call (Call.decodeBuffer [] 0 0) ZydisStatus.noMoreData] } := by
  have hdrop : stdin.drop B.sizeofControlBlock = [] :=
    List.drop_of_length_le (by omega)
  have h00 : sizeSub 0 0 = 0 := by simp [sizeSub, SIZE_MOD_eq]
  rw [main_accepted B Z lib readBuf (fuel + 1) stdin hv (by omega) hall, hdrop, outerLoop_succ]
  have hstep : ∀ (l : S) (lg : List (Event I)),
      innerLoop Z ([] ++ readBuf.drop 0) 0 (fuel + 1) { lib := l, readOffs := 0, log := lg } =
      ({ lib := (decodeAt Z ([] ++ readBuf.drop 0) 0
            { lib := l, readOffs := 0, log := lg }).1,
         readOffs := 0,
         log := lg ++ [Event.call (Call.decodeBuffer [] 0 0) ZydisStatus.noMoreData] },
       true) := by
    intro l lg
    have hd : (decodeAt Z ([] ++ readBuf.drop 0) 0
        { lib := l, readOffs := 0, log := lg }).2.1 = ZydisStatus.noMoreData := by
      unfold decodeAt
      rw [h00]
      exact hempty _ _ _
    rw [innerLoop_succ, innerStep_noMoreData _ _ _ _ hd]
    simp [decodeCall, window, h00]
  have hf : ∀ (l : S) (lg : List (Event I)),
      refill (sizeofReadBuf B) { lib := l, stdin := [], readBuf := readBuf, log := lg } =
      ({ lib := l, stdin := [], readBuf := [] ++ readBuf.drop 0,
         log := lg ++ [Event.freadBuf 0 (sizeofReadBuf B) 0] }, 0) := by
    intro l lg
    simp [refill]
  have hbody := fun (l : S) (lg : List (Event I)) =>
    outerBody_of_innerLoop B Z (fuel + 1)
      { lib := l, stdin := [], readBuf := readBuf, log := lg }
      { lib := (decodeAt Z ([] ++ readBuf.drop 0) 0
          { lib := l, readOffs := 0, log := lg ++ [Event.freadBuf 0 (sizeofReadBuf B) 0] }).1,
        readOffs := 0,
        log := lg ++ [Event.freadBuf 0 (sizeofReadBuf B) 0] ++
          [Event.call (Call.decodeBuffer [] 0 0) ZydisStatus.noMoreData] } true
      (by rw [hf l lg]; exact hstep _ _)
  have hne : (0 : Nat) ≠ sizeofReadBuf B := by
    unfold sizeofReadBuf
    omega
  rw [hbody]
  simp [hf, hne]

/-- Witness for C12 (amended): scenario S1 on the sample build. -/
theorem empty_payload_witness :
    sampleCB.length = sampleBuild.sizeofControlBlock ∧
    main sampleBuild (fake 2 acceptAll oneByteDecode) () [] (0 + 1) sampleCB =
      { exitCode := some 0,
        log := [Event.freadControlBlock 7 7] ++
          answers (fake 2 acceptAll oneByteDecode) ()
            (configCalls sampleBuild (sampleCast (sampleCB.take 7))) ++
          [Event.freadBuf 0 15360 0,
           Event.call (Call.decodeBuffer [] 0 0) ZydisStatus.noMoreData] } :=
  ⟨by decide,
   empty_payload sampleBuild (fake 2 acceptAll oneByteDecode) () [] 0 sampleCB rfl (by decide)
     (by decide) (by decide) oneByteDecode_empty⟩

/-! ### Decode call arguments and the cursor bound -/

theorem decodeCount_append {I : Type} (a b : List (Event I)) :
    decodeCount (a ++ b) = decodeCount a + decodeCount b := by
  induction a with
  | nil => simp [decodeCount]
  | cons e a ih =>
    cases e with
    | call c s =>
      cases c <;> simp [decodeCount, ih]
      omega
    | _ => simp [decodeCount, ih]

theorem formatCount_append {I : Type} (a b : List (Event I)) :
    formatCount (a ++ b) = formatCount a + formatCount b := by
  induction a with
  | nil => simp [formatCount]
  | cons e a ih =>
    cases e with
    | call c s =>
      cases c <;> simp [formatCount, ih]
      omega
    | _ => simp [formatCount, ih]

theorem decodeArgs_append {I : Type} (a b : List (Event I)) :
    decodeArgs (a ++ b) = decodeArgs a ++ decodeArgs b := by
  induction a with
  | nil => simp [decodeArgs]
  | cons e a ih =>
    cases e with
    | call c s => cases c <;> simp [decodeArgs, ih]
    | _ => simp [decodeArgs, ih]

/-- What one round of the inner loop logs: the decode call at the cursor and,
after a success, one formatter call. -/
theorem innerStep_log_shape {S I : Type} (Z : Zydis S I) (readBuf : List Byte)
    (numBytesRead : Nat) (st : Inner S I) :
    ∃ fmt, (innerStep Z readBuf numBytesRead st).1.log =
        st.log ++ [Event.call (decodeCall readBuf numBytesRead st.readOffs)
          (decodeAt Z readBuf numBytesRead st).2.1] ++ fmt ∧
      decodeCount fmt = 0 ∧ decodeArgs fmt = [] ∧ formatCount fmt ≤ 1 ∧
      ((innerStep Z readBuf numBytesRead st).2 = false → formatCount fmt = 0) := by
  by_cases hmore : (decodeAt Z readBuf numBytesRead st).2.1 = ZydisStatus.noMoreData
  · rw [innerStep_noMoreData Z readBuf numBytesRead st hmore, hmore]
    exact ⟨[], by simp, rfl, rfl, by simp [formatCount], fun _ => rfl⟩
  · by_cases hok : (decodeAt Z readBuf numBytesRead st).2.1 = ZydisStatus.success
    · rw [innerStep_success Z readBuf numBytesRead st hok, hok]
      exact ⟨_, rfl, rfl, rfl, by simp [formatCount], fun h => by simp at h⟩
    · rw [innerStep_failure Z readBuf numBytesRead st hok hmore]
      exact ⟨[], by simp, rfl, rfl, by simp [formatCount], fun _ => rfl⟩

/-- Every decode call that the inner loop logs has the form of line 112: the
bytes at the pointer `readBuf + ip`, the length `numBytesRead - ip` (in
`size_t`) and the cursor `ip` as instruction pointer. -/
theorem innerLoop_decodeArgs {S I : Type} (Z : Zydis S I) (readBuf : List Byte)
    (numBytesRead : Nat) (fuel : Nat) (st : Inner S I) :
    ∃ rest, (innerLoop Z readBuf numBytesRead fuel st).1.log = st.log ++ rest ∧
      ∀ a ∈ decodeArgs rest,
        a = (window readBuf a.2.2 (sizeSub numBytesRead a.2.2),
             sizeSub numBytesRead a.2.2, a.2.2) := by
  induction fuel generalizing st with
  | zero => exact ⟨[], by simp [innerLoop], by simp [decodeArgs]⟩
  | succ fuel ih =>
    obtain ⟨fmt, hlog, _, hargs, _, _⟩ := innerStep_log_shape Z readBuf numBytesRead st
    have hfirst : ∀ a ∈ decodeArgs ([Event.call (decodeCall readBuf numBytesRead st.readOffs)
        (decodeAt Z readBuf numBytesRead st).2.1] ++ fmt),
        a = (window readBuf a.2.2 (sizeSub numBytesRead a.2.2),
             sizeSub numBytesRead a.2.2, a.2.2) := by
      intro a ha
      rw [decodeArgs_append, hargs] at ha
      simp only [decodeCall, decodeArgs, List.append_nil, List.mem_singleton] at ha
      rw [ha]
    rw [innerLoop_succ]
    by_cases hc : (innerStep Z readBuf numBytesRead st).2 = true
    · rw [if_pos hc]
      obtain ⟨r2, h2, hr2⟩ := ih (innerStep Z readBuf numBytesRead st).1
      refine ⟨[Event.call (decodeCall readBuf numBytesRead st.readOffs)
        (decodeAt Z readBuf numBytesRead st).2.1] ++ fmt ++ r2, ?_, ?_⟩
      · rw [h2, hlog]
        simp
      · intro a ha
        rw [decodeArgs_append, List.mem_append] at ha
        rcases ha with ha | ha
        · exact hfirst a ha
        · exact hr2 a ha
    · rw [if_neg hc]
      refine ⟨[Event.call (decodeCall readBuf numBytesRead st.readOffs)
        (decodeAt Z readBuf numBytesRead st).2.1] ++ fmt, ?_, hfirst⟩
      rw [hlog]
      simp

/-- Within the occupancy the `size_t` length `numBytesRead - readOffs` is the
plain difference and the bytes at the pointer are `readBuf[readOffs .. numBytesRead]`. -/
theorem window_in_bounds (readBuf : List Byte) (numBytesRead readOffs : Nat)
    (ho : readOffs ≤ numBytesRead) (hn : numBytesRead < SIZE_MOD) :
    sizeSub numBytesRead readOffs = numBytesRead - readOffs ∧
    window readBuf readOffs (sizeSub numBytesRead readOffs) =
      (readBuf.drop readOffs).take (numBytesRead - readOffs) := by
  rw [sizeSub_of_le ho hn]
  exact ⟨rfl, rfl⟩

/-- For a decoder that reports "no more data" on an empty slice and never
reports an instruction longer than the slice it was given, the inner loop
started with the cursor `o` within the occupancy `n` issues at most
`n - o + 1` decode calls, each at a cursor between `o` and `n`, and at most
`n - o` formatter calls. -/
theorem innerLoop_bounded {S I : Type} (Z : Zydis S I) (readBuf : List Byte)
    (numBytesRead : Nat)
    (hlen : ∀ s buffer len ip, (Z.ZydisDecoderDecodeBuffer s buffer len ip).2.1 =
        ZydisStatus.success →
      1 ≤ Z.length (Z.ZydisDecoderDecodeBuffer s buffer len ip).2.2 ∧
      Z.length (Z.ZydisDecoderDecodeBuffer s buffer len ip).2.2 ≤ len)
    (hempty : ∀ s buffer ip, (Z.ZydisDecoderDecodeBuffer s buffer 0 ip).2.1 =
        ZydisStatus.noMoreData)
    (hn : numBytesRead < SIZE_MOD) (fuel : Nat) :
    ∀ st : Inner S I, st.readOffs ≤ numBytesRead →
      ∃ rest, (innerLoop Z readBuf numBytesRead fuel st).1.log = st.log ++ rest ∧
        decodeCount rest ≤ numBytesRead - st.readOffs + 1 ∧
        formatCount rest ≤ numBytesRead - st.readOffs ∧
        ∀ a ∈ decodeArgs rest, st.readOffs ≤ a.2.2 ∧ a.2.2 ≤ numBytesRead := by
  induction fuel with
  | zero =>
    intro st _
    exact ⟨[], by simp [innerLoop], by simp [decodeCount], by simp [formatCount],
      by simp [decodeArgs]⟩
  | succ fuel ih =>
    intro st ho
    obtain ⟨fmt, hlog, hdc, hda, hfc, hexit⟩ := innerStep_log_shape Z readBuf numBytesRead st
    have hcall_dc : decodeCount [Event.call (decodeCall (I := I) readBuf numBytesRead st.readOffs)
        (decodeAt Z readBuf numBytesRead st).2.1] = 1 := rfl
    have hcall_fc : formatCount [Event.call (decodeCall (I := I) readBuf numBytesRead st.readOffs)
        (decodeAt Z readBuf numBytesRead st).2.1] = 0 := rfl
    have hcall_da : decodeArgs [Event.call (decodeCall (I := I) readBuf numBytesRead st.readOffs)
        (decodeAt Z readBuf numBytesRead st).2.1] =
        [(window readBuf st.readOffs (sizeSub numBytesRead st.readOffs),
          sizeSub numBytesRead st.readOffs, st.readOffs)] := rfl
    rw [innerLoop_succ]
    by_cases hc : (innerStep Z readBuf numBytesRead st).2 = true
    · rw [if_pos hc]
      have hp := innerStep_progress Z readBuf numBytesRead st hlen hempty hn ho hc
      obtain ⟨r2, h2, hdc2, hfc2, hda2⟩ := ih (innerStep Z readBuf numBytesRead st).1 hp.2
      refine ⟨[Event.call (decodeCall readBuf numBytesRead st.readOffs)
        (decodeAt Z readBuf numBytesRead st).2.1] ++ fmt ++ r2, ?_, ?_, ?_, ?_⟩
      · rw [h2, hlog]
        simp
      · rw [decodeCount_append, decodeCount_append, hcall_dc, hdc]
        omega
      · rw [formatCount_append, formatCount_append, hcall_fc]
        omega
      · intro a ha
        rw [decodeArgs_append, decodeArgs_append, hcall_da, hda, List.append_nil,
          List.mem_append, List.mem_singleton] at ha
        rcases ha with ha | ha
        · rw [ha]
          exact ⟨le_refl _, ho⟩
        · have := hda2 a ha
          omega
    · rw [if_neg hc]
      have hfc0 := hexit (by simpa using hc)
      refine ⟨[Event.call (decodeCall readBuf numBytesRead st.readOffs)
        (decodeAt Z readBuf numBytesRead st).2.1] ++ fmt, ?_, ?_, ?_, ?_⟩
      · rw [hlog]
        simp
      · rw [decodeCount_append, hcall_dc, hdc]
        omega
      · rw [formatCount_append, hcall_fc, hfc0]
        omega
      · intro a ha
        rw [decodeArgs_append, hcall_da, hda, List.append_nil, List.mem_singleton] at ha
        rw [ha]
        exact ⟨le_refl _, ho⟩

/-- C17: for a decoder that reports "no more data" whenever it is given an
empty slice and whose every success has a length between 1 and the length of
the slice it was given, in every iteration of the outer loop every decode call
has its cursor `o` within the occupancy `n` (`o ≤ n`), so that its length
argument is `n - o` without wrap-around and its slice is `readBuf[o .. n]`,
inside the buffer; the iteration issues at most `n + 1` decode calls and at
most `n` formatter calls, whatever the budget. -/
theorem cursor_bound_invariant {S I : Type} (B : Build) (Z : Zydis S I) (fuel : Nat)
    (st : Outer S I)
    (hlen : ∀ s buffer len ip, (Z.ZydisDecoderDecodeBuffer s buffer len ip).2.1 =
        ZydisStatus.success →
      1 ≤ Z.length (Z.ZydisDecoderDecodeBuffer s buffer len ip).2.2 ∧
      Z.length (Z.ZydisDecoderDecodeBuffer s buffer len ip).2.2 ≤ len)
    (hempty : ∀ s buffer ip, (Z.ZydisDecoderDecodeBuffer s buffer 0 ip).2.1 =
        ZydisStatus.noMoreData)
    (hcap : sizeofReadBuf B < SIZE_MOD) :
    ∃ inner,
      (outerBody B Z fuel st).next.log =
        st.log ++ [Event.freadBuf 0 (sizeofReadBuf B) (outerBody B Z fuel st).numBytesRead] ++
          inner ∧
      decodeCount inner ≤ (outerBody B Z fuel st).numBytesRead + 1 ∧
      formatCount inner ≤ (outerBody B Z fuel st).numBytesRead ∧
      ∀ a ∈ decodeArgs inner,
        a.2.2 ≤ (outerBody B Z fuel st).numBytesRead ∧
        a.2.1 = (outerBody B Z fuel st).numBytesRead - a.2.2 ∧
        a.1 = ((outerBody B Z fuel st).filled.drop a.2.2).take
          ((outerBody B Z fuel st).numBytesRead - a.2.2) := by
  have hn : (outerBody B Z fuel st).numBytesRead = (refill (sizeofReadBuf B) st).2 := rfl
  have hfilled : (outerBody B Z fuel st).filled = (refill (sizeofReadBuf B) st).1.readBuf := rfl
  have hlt : (refill (sizeofReadBuf B) st).2 < SIZE_MOD := by
    show (st.stdin.take (sizeofReadBuf B)).length < _
    rw [List.length_take]
    omega
  rw [hn, hfilled]
  obtain ⟨r1, h1, hdc, hfc, hbound⟩ := innerLoop_bounded Z
    (refill (sizeofReadBuf B) st).1.readBuf (refill (sizeofReadBuf B) st).2 hlen hempty hlt fuel
    { lib := (refill (sizeofReadBuf B) st).1.lib, readOffs := 0,
      log := (refill (sizeofReadBuf B) st).1.log } (Nat.zero_le _)
  obtain ⟨r2, h2, hargs⟩ := innerLoop_decodeArgs Z (refill (sizeofReadBuf B) st).1.readBuf
    (refill (sizeofReadBuf B) st).2 fuel
    { lib := (refill (sizeofReadBuf B) st).1.lib, readOffs := 0,
      log := (refill (sizeofReadBuf B) st).1.log }
  have hr : r2 = r1 := by
    rw [h1] at h2
    exact (List.append_cancel_left h2).symm
  subst hr
  refine ⟨r2, h1, by simpa using hdc, by simpa using hfc, ?_⟩
  intro a ha
  have hb := (hbound a ha).2
  have hw := window_in_bounds (refill (sizeofReadBuf B) st).1.readBuf
    (refill (sizeofReadBuf B) st).2 a.2.2 hb hlt
  have ha2 := hargs a ha
  refine ⟨hb, ?_, ?_⟩
  · rw [← hw.1]
    exact (congrArg (fun p => p.2.1) ha2)
  · rw [← hw.2]
    exact (congrArg (fun p => p.1) ha2)

/-- Witness for C17: the one-byte-instruction double over the payload
`AA BB CC`: at most 4 decode calls and 3 formatter calls. -/
theorem cursor_bound_invariant_witness :
    sizeofReadBuf sampleBuild < SIZE_MOD ∧
    ∃ inner,
      (outerBody sampleBuild (fake 2 acceptAll oneByteDecode) 9
          { lib := (), stdin := [0xAA, 0xBB, 0xCC], readBuf := [], log := [] }).next.log =
        [] ++ [Event.freadBuf 0 15360 3] ++ inner ∧
      decodeCount inner ≤ 3 + 1 ∧
      formatCount inner ≤ 3 ∧
      ∀ a ∈ decodeArgs inner,
        a.2.2 ≤ 3 ∧ a.2.1 = 3 - a.2.2 ∧
        a.1 = (([0xAA, 0xBB, 0xCC] : List Byte).drop a.2.2).take (3 - a.2.2) :=
  ⟨by decide,
   cursor_bound_invariant sampleBuild (fake 2 acceptAll oneByteDecode) 9
     { lib := (), stdin := [0xAA, 0xBB, 0xCC], readBuf := [], log := [] }
     (fun s b l ip h =>
       ⟨(oneByteDecode_lengths sampleBuild (by decide) s b l ip h).1,
        (oneByteDecode_lengths sampleBuild (by decide) s b l ip h).2.2⟩)
     oneByteDecode_empty (by decide)⟩

/-! ### The lenient decode phase -/

theorem enableModes_withFormatStatus {S I : Type} (Z : Zydis S I)
    (g : S → I → Nat → ZydisStatus) (controlBlock : ZydisFuzzControlBlock)
    (remaining mode : Nat) (lib : S) (log : List (Event I)) :
    enableModes (withFormatStatus Z g) controlBlock remaining mode lib log =
      enableModes Z controlBlock remaining mode lib log := by
  induction remaining generalizing mode lib log with
  | zero => rfl
  | succ remaining ih =>
    rw [enableModes_succ, enableModes_succ, ih]
    rfl

theorem setAttributes_withFormatStatus {S I : Type} (Z : Zydis S I)
    (g : S → I → Nat → ZydisStatus) (controlBlock : ZydisFuzzControlBlock)
    (remaining attrib : Nat) (lib : S) (log : List (Event I)) :
    setAttributes (withFormatStatus Z g) controlBlock remaining attrib lib log =
      setAttributes Z controlBlock remaining attrib lib log := by
  induction remaining generalizing attrib lib log with
  | zero => rfl
  | succ remaining ih =>
    rw [setAttributes_succ, setAttributes_succ, ih]
    rfl

theorem configure_withFormatStatus {S I : Type} (B : Build) (Z : Zydis S I)
    (g : S → I → Nat → ZydisStatus) (controlBlock : ZydisFuzzControlBlock)
    (lib : S) (log : List (Event I)) :
    configure B (withFormatStatus Z g) controlBlock lib log =
      configure B Z controlBlock lib log := by
  rw [configure_unfold, configure_unfold, enableModes_withFormatStatus]
  simp only [setAttributes_withFormatStatus]
  rfl

/-- One round of the inner loop under a changed formatter status: same
library state, same cursor, same decision to go round again, and the same log
up to the statuses of the formatter calls. -/
theorem innerStep_withFormatStatus {S I : Type} (Z : Zydis S I)
    (g : S → I → Nat → ZydisStatus) (readBuf : List Byte) (numBytesRead : Nat)
    (st : Inner S I) (log1 : List (Event I))
    (hlog : log1.map forgetFormatStatus = st.log.map forgetFormatStatus) :
    (innerStep (withFormatStatus Z g) readBuf numBytesRead
        { lib := st.lib, readOffs := st.readOffs, log := log1 }).2 =
      (innerStep Z readBuf numBytesRead st).2 ∧
    (innerStep (withFormatStatus Z g) readBuf numBytesRead
        { lib := st.lib, readOffs := st.readOffs, log := log1 }).1.lib =
      (innerStep Z readBuf numBytesRead st).1.lib ∧
    (innerStep (withFormatStatus Z g) readBuf numBytesRead
        { lib := st.lib, readOffs := st.readOffs, log := log1 }).1.readOffs =
      (innerStep Z readBuf numBytesRead st).1.readOffs ∧
    (innerStep (withFormatStatus Z g) readBuf numBytesRead
        { lib := st.lib, readOffs := st.readOffs, log := log1 }).1.log.map forgetFormatStatus =
      (innerStep Z readBuf numBytesRead st).1.log.map forgetFormatStatus := by
  have hd : decodeAt (withFormatStatus Z g) readBuf numBytesRead
      { lib := st.lib, readOffs := st.readOffs, log := log1 } =
      decodeAt Z readBuf numBytesRead st := rfl
  by_cases hmore : (decodeAt Z readBuf numBytesRead st).2.1 = ZydisStatus.noMoreData
  · rw [innerStep_noMoreData Z readBuf numBytesRead st hmore,
      innerStep_noMoreData (withFormatStatus Z g) readBuf numBytesRead _ (hd ▸ hmore), hd]
    simp [hlog]
  · by_cases hok : (decodeAt Z readBuf numBytesRead st).2.1 = ZydisStatus.success
    · rw [innerStep_success Z readBuf numBytesRead st hok,
        innerStep_success (withFormatStatus Z g) readBuf numBytesRead _ (hd ▸ hok), hd]
      simp [hlog, forgetFormatStatus, withFormatStatus]
    · rw [innerStep_failure Z readBuf numBytesRead st hok hmore,
        innerStep_failure (withFormatStatus Z g) readBuf numBytesRead _ (hd ▸ hok) (hd ▸ hmore),
        hd]
      simp [hlog]
theorem innerStep_rel {S I : Type} (Z : Zydis S I)
    (g : S → I → Nat → ZydisStatus) (readBuf : List Byte) (numBytesRead : Nat)
    (st1 st : Inner S I) (hl : st1.lib = st.lib) (ho : st1.readOffs = st.readOffs)
    (hlog : st1.log.map forgetFormatStatus = st.log.map forgetFormatStatus) :
    (innerStep (withFormatStatus Z g) readBuf numBytesRead st1).2 =
      (innerStep Z readBuf numBytesRead st).2 ∧
    (innerStep (withFormatStatus Z g) readBuf numBytesRead st1).1.lib =
      (innerStep Z readBuf numBytesRead st).1.lib ∧
    (innerStep (withFormatStatus Z g) readBuf numBytesRead st1).1.readOffs =
      (innerStep Z readBuf numBytesRead st).1.readOffs ∧
    (innerStep (withFormatStatus Z g) readBuf numBytesRead st1).1.log.map forgetFormatStatus =
      (innerStep Z readBuf numBytesRead st).1.log.map forgetFormatStatus := by
  obtain ⟨lib1, o1, log1⟩ := st1
  simp only at hl ho hlog
  subst hl ho
  exact innerStep_withFormatStatus Z g readBuf numBytesRead st log1 hlog

/-- The inner loop under a changed formatter status. -/
theorem innerLoop_rel {S I : Type} (Z : Zydis S I)
    (g : S → I → Nat → ZydisStatus) (readBuf : List Byte) (numBytesRead : Nat) (fuel : Nat) :
    ∀ (st1 st : Inner S I), st1.lib = st.lib → st1.readOffs = st.readOffs →
      st1.log.map forgetFormatStatus = st.log.map forgetFormatStatus →
      (innerLoop (withFormatStatus Z g) readBuf numBytesRead fuel st1).2 =
        (innerLoop Z readBuf numBytesRead fuel st).2 ∧
      (innerLoop (withFormatStatus Z g) readBuf numBytesRead fuel st1).1.lib =
        (innerLoop Z readBuf numBytesRead fuel st).1.lib ∧
      (innerLoop (withFormatStatus Z g) readBuf numBytesRead fuel st1).1.readOffs =
        (innerLoop Z readBuf numBytesRead fuel st).1.readOffs ∧
      (innerLoop (withFormatStatus Z g) readBuf numBytesRead fuel st1).1.log.map
          forgetFormatStatus =
        (innerLoop Z readBuf numBytesRead fuel st).1.log.map forgetFormatStatus := by
  induction fuel with
  | zero =>
    intro st1 st hl ho hlog
    exact ⟨rfl, hl, ho, hlog⟩
  | succ fuel ih =>
    intro st1 st hl ho hlog
    obtain ⟨hflag, hl2, ho2, hlog2⟩ := innerStep_rel Z g readBuf numBytesRead st1 st hl ho hlog
    rw [innerLoop_succ, innerLoop_succ, hflag]
    by_cases hc : (innerStep Z readBuf numBytesRead st).2 = true
    · rw [if_pos hc, if_pos hc]
      exact ih _ _ hl2 ho2 hlog2
    · rw [if_neg hc, if_neg hc]
      exact ⟨rfl, hl2, ho2, hlog2⟩

/-- One iteration of the outer loop under a changed formatter status. -/
theorem outerBody_rel {S I : Type} (B : Build) (Z : Zydis S I)
    (g : S → I → Nat → ZydisStatus) (fuel : Nat) (st1 st : Outer S I)
    (hl : st1.lib = st.lib) (hin : st1.stdin = st.stdin) (hb : st1.readBuf = st.readBuf)
    (hlog : st1.log.map forgetFormatStatus = st.log.map forgetFormatStatus) :
    (outerBody B (withFormatStatus Z g) fuel st1).completed =
      (outerBody B Z fuel st).completed ∧
    (outerBody B (withFormatStatus Z g) fuel st1).numBytesRead =
      (outerBody B Z fuel st).numBytesRead ∧
    (outerBody B (withFormatStatus Z g) fuel st1).next.lib =
      (outerBody B Z fuel st).next.lib ∧
    (outerBody B (withFormatStatus Z g) fuel st1).next.stdin =
      (outerBody B Z fuel st).next.stdin ∧
    (outerBody B (withFormatStatus Z g) fuel st1).next.readBuf =
      (outerBody B Z fuel st).next.readBuf ∧
    (outerBody B (withFormatStatus Z g) fuel st1).next.log.map forgetFormatStatus =
      (outerBody B Z fuel st).next.log.map forgetFormatStatus := by
  obtain ⟨lib1, stdin1, buf1, log1⟩ := st1
  simp only at hl hin hb hlog
  subst hl hin hb
  obtain ⟨hflag, hl2, ho2, hlog2⟩ := innerLoop_rel Z g
    (refill (sizeofReadBuf B) st).1.readBuf (refill (sizeofReadBuf B) st).2 fuel
    { lib := st.lib, readOffs := 0,
      log := log1 ++ [Event.freadBuf 0 (sizeofReadBuf B) (refill (sizeofReadBuf B) st).2] }
    { lib := (refill (sizeofReadBuf B) st).1.lib, readOffs := 0,
      log := (refill (sizeofReadBuf B) st).1.log }
    rfl rfl (by simp [refill, hlog])
  refine ⟨hflag, rfl, hl2, rfl, ?_, hlog2⟩
  exact congrArg (carry B (refill (sizeofReadBuf B) st).1.readBuf) ho2

/-- The outer loop under a changed formatter status: same exit code, same log
up to the statuses of the formatter calls. -/
theorem outerLoop_rel {S I : Type} (B : Build) (Z : Zydis S I)
    (g : S → I → Nat → ZydisStatus) (fuel : Nat) :
    ∀ (st1 st : Outer S I), st1.lib = st.lib → st1.stdin = st.stdin →
      st1.readBuf = st.readBuf →
      st1.log.map forgetFormatStatus = st.log.map forgetFormatStatus →
      (outerLoop B (withFormatStatus Z g) fuel st1).exitCode =
        (outerLoop B Z fuel st).exitCode ∧
      (outerLoop B (withFormatStatus Z g) fuel st1).log.map forgetFormatStatus =
        (outerLoop B Z fuel st).log.map forgetFormatStatus := by
  induction fuel with
  | zero =>
    intro st1 st _ _ _ hlog
    exact ⟨rfl, hlog⟩
  | succ fuel ih =>
    intro st1 st hl hin hb hlog
    obtain ⟨hc, hn, hl2, hin2, hb2, hlog2⟩ := outerBody_rel B Z g (fuel + 1) st1 st hl hin hb hlog
    rw [outerLoop_succ, outerLoop_succ, hc, hn]
    by_cases hd : (outerBody B Z (fuel + 1) st).completed = true
    · rw [if_pos hd, if_pos hd]
      by_cases hfull : (outerBody B Z (fuel + 1) st).numBytesRead = sizeofReadBuf B
      · rw [if_pos hfull, if_pos hfull]
        exact ih _ _ hl2 hin2 hb2 hlog2
      · rw [if_neg hfull, if_neg hfull]
        exact ⟨rfl, hlog2⟩
    · rw [if_neg hd, if_neg hd]
      exact ⟨rfl, hlog2⟩

/-- The whole run under a changed formatter status. -/
theorem main_withFormatStatus {S I : Type} (B : Build) (Z : Zydis S I)
    (g : S → I → Nat → ZydisStatus) (lib : S) (readBuf : List Byte) (fuel : Nat)
    (stdin : List Byte) :
    (main B (withFormatStatus Z g) lib readBuf fuel stdin).exitCode =
      (main B Z lib readBuf fuel stdin).exitCode ∧
    (main B (withFormatStatus Z g) lib readBuf fuel stdin).log.map forgetFormatStatus =
      (main B Z lib readBuf fuel stdin).log.map forgetFormatStatus := by
  by_cases hv : Z.ZydisGetVersion = B.ZYDIS_VERSION
  · by_cases hlong : B.sizeofControlBlock ≤ stdin.length
    · rw [main_configured B Z lib readBuf fuel stdin hv hlong,
        main_configured B (withFormatStatus Z g) lib readBuf fuel stdin hv hlong,
        configure_withFormatStatus]
      split
      · exact outerLoop_rel B Z g fuel _ _ rfl rfl rfl rfl
      · exact ⟨rfl, rfl⟩
    · rw [main_short_read B Z lib readBuf fuel stdin hv (by omega),
        main_short_read B (withFormatStatus Z g) lib readBuf fuel stdin hv (by omega)]
      exact ⟨rfl, rfl⟩
  · rw [main_version_mismatch B Z lib readBuf fuel stdin hv,
      main_version_mismatch B (withFormatStatus Z g) lib readBuf fuel stdin hv]
    exact ⟨rfl, rfl⟩
/-- The outer loop never produces a failure exit code and writes nothing to
standard error. -/
theorem outerLoop_lenient {S I : Type} (B : Build) (Z : Zydis S I) (fuel : Nat) :
    ∀ st : Outer S I,
      ((outerLoop B Z fuel st).exitCode = none ∨ (outerLoop B Z fuel st).exitCode = some 0) ∧
      ∃ rest, (outerLoop B Z fuel st).log = st.log ++ rest ∧ stderrLines rest = [] := by
  induction fuel with
  | zero =>
    intro st
    exact ⟨Or.inl rfl, [], by simp [outerLoop], rfl⟩
  | succ fuel ih =>
    intro st
    obtain ⟨inner, hlog, _, herr⟩ := outerBody_log B Z (fuel + 1) st
    have hbody : stderrLines ([Event.freadBuf 0 (sizeofReadBuf B)
        (outerBody B Z (fuel + 1) st).numBytesRead] ++ inner) = [] := by
      rw [stderrLines_append, herr]
      rfl
    rw [outerLoop_succ]
    by_cases hd : (outerBody B Z (fuel + 1) st).completed = true
    · rw [if_pos hd]
      by_cases hfull : (outerBody B Z (fuel + 1) st).numBytesRead = sizeofReadBuf B
      · rw [if_pos hfull]
        obtain ⟨hexit, rest, hrest, herr2⟩ := ih (outerBody B Z (fuel + 1) st).next
        refine ⟨hexit, [Event.freadBuf 0 (sizeofReadBuf B)
          (outerBody B Z (fuel + 1) st).numBytesRead] ++ inner ++ rest, ?_, ?_⟩
        · rw [hrest, hlog]
          simp
        · rw [stderrLines_append, hbody, herr2]
          rfl
      · rw [if_neg hfull]
        exact ⟨Or.inr rfl, _, by rw [hlog, List.append_assoc], hbody⟩
    · rw [if_neg hd]
      exact ⟨Or.inl rfl, _, by rw [hlog, List.append_assoc], hbody⟩

/-! ### Decoders that take one byte at a time -/

/-- For a decoder that reports "no more data" exactly on the empty slice and
whose successes all have length 1, the inner loop started within the occupancy
`n` walks the cursor byte by byte up to `n`: it issues one decode call at every
cursor from the start to `n` (the last one on the empty slice) and is left
with the cursor at `n`.  It formats nothing when the decoder never succeeds,
and formats once per byte when the decoder succeeds on every non-empty slice. -/
theorem innerLoop_bytewise {S I : Type} (Z : Zydis S I) (readBuf : List Byte)
    (numBytesRead : Nat) (hn : numBytesRead < SIZE_MOD)
    (hempty : ∀ s buffer ip, (Z.ZydisDecoderDecodeBuffer s buffer 0 ip).2.1 =
        ZydisStatus.noMoreData)
    (hstep : ∀ s buffer len ip, len ≠ 0 →
      (Z.ZydisDecoderDecodeBuffer s buffer len ip).2.1 ≠ ZydisStatus.noMoreData ∧
      ((Z.ZydisDecoderDecodeBuffer s buffer len ip).2.1 = ZydisStatus.success →
        Z.length (Z.ZydisDecoderDecodeBuffer s buffer len ip).2.2 = 1))
    (fuel : Nat) :
    ∀ st : Inner S I, st.readOffs ≤ numBytesRead → numBytesRead - st.readOffs < fuel →
      ∃ rest,
        (innerLoop Z readBuf numBytesRead fuel st).2 = true ∧
        (innerLoop Z readBuf numBytesRead fuel st).1.readOffs = numBytesRead ∧
        (innerLoop Z readBuf numBytesRead fuel st).1.log = st.log ++ rest ∧
        decodeArgs rest =
          (List.range' st.readOffs (numBytesRead - st.readOffs + 1)).map
            (fun i => (window readBuf i (numBytesRead - i), numBytesRead - i, i)) ∧
        refills rest = [] ∧
        ((∀ s buffer len ip, (Z.ZydisDecoderDecodeBuffer s buffer len ip).2.1 ≠
            ZydisStatus.success) → formatCount rest = 0) ∧
        ((∀ s buffer len ip, len ≠ 0 → (Z.ZydisDecoderDecodeBuffer s buffer len ip).2.1 =
            ZydisStatus.success) → formatCount rest = numBytesRead - st.readOffs) := by
  induction fuel with
  | zero => intro st _ h; omega
  | succ fuel ih =>
    intro st ho hfuel
    have hsub : sizeSub numBytesRead st.readOffs = numBytesRead - st.readOffs :=
      sizeSub_of_le ho hn
    have hcall : decodeCall (I := I) readBuf numBytesRead st.readOffs =
        Call.decodeBuffer (window readBuf st.readOffs (numBytesRead - st.readOffs))
          (numBytesRead - st.readOffs) st.readOffs := by
      unfold decodeCall
      rw [hsub]
    rw [innerLoop_succ]
    by_cases hend : st.readOffs = numBytesRead
    · have hd : (decodeAt Z readBuf numBytesRead st).2.1 = ZydisStatus.noMoreData := by
        unfold decodeAt
        rw [hsub, hend, Nat.sub_self]
        exact hempty _ _ _
      rw [innerStep_noMoreData Z readBuf numBytesRead st hd, hcall]
      refine ⟨_, rfl, hend, rfl, ?_, rfl, fun _ => rfl, fun _ => ?_⟩
      · rw [hend, Nat.sub_self]
        simp [decodeArgs]
      · rw [hend, Nat.sub_self]
        rfl
    · have hlen : numBytesRead - st.readOffs ≠ 0 := by omega
      have hs := hstep st.lib (window readBuf st.readOffs (numBytesRead - st.readOffs))
        (numBytesRead - st.readOffs) st.readOffs hlen
      have hdA : decodeAt Z readBuf numBytesRead st =
          Z.ZydisDecoderDecodeBuffer st.lib
            (window readBuf st.readOffs (numBytesRead - st.readOffs))
            (numBytesRead - st.readOffs) st.readOffs := by
        unfold decodeAt
        rw [hsub]
      have hrange : List.range' st.readOffs (numBytesRead - st.readOffs + 1) =
          st.readOffs :: List.range' (st.readOffs + 1) (numBytesRead - (st.readOffs + 1) + 1) := by
        have : numBytesRead - st.readOffs + 1 = (numBytesRead - (st.readOffs + 1) + 1) + 1 := by
          omega
        rw [this, List.range'_succ]
      by_cases hok : (decodeAt Z readBuf numBytesRead st).2.1 = ZydisStatus.success
      · have hL : Z.length (decodeAt Z readBuf numBytesRead st).2.2 = 1 := by
          rw [hdA]
          exact hs.2 (hdA ▸ hok)
        rw [innerStep_success Z readBuf numBytesRead st hok, if_pos rfl, hL,
          sizeAdd_of_lt (by omega), hcall]
        obtain ⟨r2, hflag, hfin, hlog, hargs, href, hf0, hf1⟩ := ih
          { lib := (Z.ZydisFormatterFormatInstruction (decodeAt Z readBuf numBytesRead st).1
              (decodeAt Z readBuf numBytesRead st).2.2 sizeofPrintBuffer).1,
            readOffs := st.readOffs + 1,
            log := st.log ++
              [Event.call (Call.decodeBuffer
                (window readBuf st.readOffs (numBytesRead - st.readOffs))
                (numBytesRead - st.readOffs) st.readOffs) ZydisStatus.success] ++
              [Event.call (Call.formatInstruction (decodeAt Z readBuf numBytesRead st).2.2
                sizeofPrintBuffer)
                (Z.ZydisFormatterFormatInstruction (decodeAt Z readBuf numBytesRead st).1
                  (decodeAt Z readBuf numBytesRead st).2.2 sizeofPrintBuffer).2] }
          (by show st.readOffs + 1 ≤ numBytesRead; omega)
          (by show numBytesRead - (st.readOffs + 1) < fuel; omega)
        refine ⟨[Event.call (Call.decodeBuffer
                (window readBuf st.readOffs (numBytesRead - st.readOffs))
                (numBytesRead - st.readOffs) st.readOffs) ZydisStatus.success,
              Event.call (Call.formatInstruction (decodeAt Z readBuf numBytesRead st).2.2
                sizeofPrintBuffer)
                (Z.ZydisFormatterFormatInstruction (decodeAt Z readBuf numBytesRead st).1
                  (decodeAt Z readBuf numBytesRead st).2.2 sizeofPrintBuffer).2] ++ r2,
          hflag, hfin, ?_, ?_, ?_, ?_, ?_⟩
        · rw [hlog]
          simp
        · rw [decodeArgs_append, hargs, hrange]
          rfl
        · rw [refills_append, href]
          rfl
        · intro hnever
          exact absurd (hdA ▸ hok) (hnever _ _ _ _)
        · intro halways
          rw [formatCount_append, hf1 halways]
          show 1 + (numBytesRead - (st.readOffs + 1)) = _
          omega
      · have hmore : (decodeAt Z readBuf numBytesRead st).2.1 ≠ ZydisStatus.noMoreData := by
          rw [hdA]
          exact hs.1
        rw [innerStep_failure Z readBuf numBytesRead st hok hmore, if_pos rfl,
          sizeAdd_of_lt (by omega), hcall]
        obtain ⟨r2, hflag, hfin, hlog, hargs, href, hf0, hf1⟩ := ih
          { lib := (decodeAt Z readBuf numBytesRead st).1,
            readOffs := st.readOffs + 1,
            log := st.log ++
              [Event.call (Call.decodeBuffer
                (window readBuf st.readOffs (numBytesRead - st.readOffs))
                (numBytesRead - st.readOffs) st.readOffs)
                (decodeAt Z readBuf numBytesRead st).2.1] }
          (by show st.readOffs + 1 ≤ numBytesRead; omega)
          (by show numBytesRead - (st.readOffs + 1) < fuel; omega)
        refine ⟨[Event.call (Call.decodeBuffer
                (window readBuf st.readOffs (numBytesRead - st.readOffs))
                (numBytesRead - st.readOffs) st.readOffs)
                (decodeAt Z readBuf numBytesRead st).2.1] ++ r2,
          hflag, hfin, ?_, ?_, ?_, ?_, ?_⟩
        · rw [hlog]
          simp
        · rw [decodeArgs_append, hargs, hrange]
          rfl
        · rw [refills_append, href]
          rfl
        · intro hnever
          rw [formatCount_append, hf0 hnever]
          rfl
        · intro halways
          exact absurd (hdA ▸ halways _ _ _ _ hlen) hok
/-- The bytes at the pointer `readBuf + i` of a freshly refilled buffer, for a
cursor `i` within the occupancy, are the bytes of the input from `i` on, up to
the end of what the refill delivered. -/
theorem window_refilled (input tail : List Byte) (size i : Nat)
    (hi : i ≤ (input.take size).length) :
    window (input.take size ++ tail) i ((input.take size).length - i) =
      (input.drop i).take (size - i) := by
  unfold window
  rw [List.drop_append_of_le_length hi,
    List.take_left' (by rw [List.length_drop]), List.drop_take]

/-- One iteration of the outer loop for a decoder that takes one byte at a
time: the inner loop is left with the cursor at the occupancy, after one
decode call at every cursor from 0 to the occupancy. -/
theorem outerBody_bytewise {S I : Type} (B : Build) (Z : Zydis S I)
    (hcap : sizeofReadBuf B < SIZE_MOD)
    (hempty : ∀ s buffer ip, (Z.ZydisDecoderDecodeBuffer s buffer 0 ip).2.1 =
        ZydisStatus.noMoreData)
    (hstep : ∀ s buffer len ip, len ≠ 0 →
      (Z.ZydisDecoderDecodeBuffer s buffer len ip).2.1 ≠ ZydisStatus.noMoreData ∧
      ((Z.ZydisDecoderDecodeBuffer s buffer len ip).2.1 = ZydisStatus.success →
        Z.length (Z.ZydisDecoderDecodeBuffer s buffer len ip).2.2 = 1))
    (fuel : Nat) (st : Outer S I)
    (hfuel : min (sizeofReadBuf B) st.stdin.length < fuel) :
    ∃ rest,
      (outerBody B Z fuel st).completed = true ∧
      (outerBody B Z fuel st).numBytesRead = min (sizeofReadBuf B) st.stdin.length ∧
      (outerBody B Z fuel st).next.stdin = st.stdin.drop (sizeofReadBuf B) ∧
      (outerBody B Z fuel st).next.log =
        st.log ++ [Event.freadBuf 0 (sizeofReadBuf B)
          (min (sizeofReadBuf B) st.stdin.length)] ++ rest ∧
      decodeArgs rest =
        (List.range (min (sizeofReadBuf B) st.stdin.length + 1)).map
          (fun i => ((st.stdin.drop i).take (sizeofReadBuf B - i),
                     min (sizeofReadBuf B) st.stdin.length - i, i)) ∧
      refills rest = [] ∧
      ((∀ s buffer len ip, (Z.ZydisDecoderDecodeBuffer s buffer len ip).2.1 ≠
          ZydisStatus.success) → formatCount rest = 0) ∧
      ((∀ s buffer len ip, len ≠ 0 → (Z.ZydisDecoderDecodeBuffer s buffer len ip).2.1 =
          ZydisStatus.success) →
        formatCount rest = min (sizeofReadBuf B) st.stdin.length) := by
  have hnlen : (st.stdin.take (sizeofReadBuf B)).length =
      min (sizeofReadBuf B) st.stdin.length := List.length_take _ _
  have hn : (refill (sizeofReadBuf B) st).2 = min (sizeofReadBuf B) st.stdin.length := hnlen
  have hlt : (refill (sizeofReadBuf B) st).2 < SIZE_MOD := by
    rw [hn]
    omega
  obtain ⟨rest, hflag, _, hlog, hargs, href, hf0, hf1⟩ := innerLoop_bytewise Z
    (refill (sizeofReadBuf B) st).1.readBuf (refill (sizeofReadBuf B) st).2 hlt hempty hstep fuel
    { lib := (refill (sizeofReadBuf B) st).1.lib, readOffs := 0,
      log := (refill (sizeofReadBuf B) st).1.log } (Nat.zero_le _)
    (by show (refill (sizeofReadBuf B) st).2 - 0 < fuel; rw [hn]; omega)
  refine ⟨rest, hflag, hn, rfl, ?_, ?_, href, hf0, ?_⟩
  · show (innerLoop Z _ _ _ _).1.log = _
    rw [hlog, ← hn]
    rfl
  · rw [hargs, List.range_eq_range']
    show List.map _ (List.range' 0 ((refill (sizeofReadBuf B) st).2 - 0 + 1)) = _
    rw [Nat.sub_zero, hn]
    apply List.map_congr_left
    intro i hi
    rw [List.mem_range'_1] at hi
    have hw := window_refilled st.stdin (st.readBuf.drop (st.stdin.take (sizeofReadBuf B)).length)
      (sizeofReadBuf B) i (by rw [hnlen]; omega)
    show (window (st.stdin.take (sizeofReadBuf B) ++ _) i _, _, _) = _
    rw [← hnlen, hw]
  · intro halways
    have := hf1 halways
    rw [this]
    show (refill (sizeofReadBuf B) st).2 - 0 = _
    rw [hn, Nat.sub_zero]

/-! ### The one-byte instruction stream -/

/-- With a decoder that never reports "no more data" the inner loop is not
left, whatever the budget. -/
theorem innerLoop_never_left {S I : Type} (Z : Zydis S I) (readBuf : List Byte)
    (numBytesRead : Nat)
    (hnever : ∀ s buffer len ip,
      (Z.ZydisDecoderDecodeBuffer s buffer len ip).2.1 ≠ ZydisStatus.noMoreData)
    (fuel : Nat) (st : Inner S I) :
    (innerLoop Z readBuf numBytesRead fuel st).2 = false := by
  induction fuel generalizing st with
  | zero => rfl
  | succ fuel ih =>
    have hmore : (decodeAt Z readBuf numBytesRead st).2.1 ≠ ZydisStatus.noMoreData :=
      hnever _ _ _ _
    rw [innerLoop_succ]
    by_cases hok : (decodeAt Z readBuf numBytesRead st).2.1 = ZydisStatus.success
    · rw [innerStep_success Z readBuf numBytesRead st hok, if_pos rfl]
      exact ih _
    · rw [innerStep_failure Z readBuf numBytesRead st hok hmore, if_pos rfl]
      exact ih _

/-- With a decoder that never reports "no more data" the outer loop does not
return, whatever the budget. -/
theorem outerLoop_never_left {S I : Type} (B : Build) (Z : Zydis S I)
    (hnever : ∀ s buffer len ip,
      (Z.ZydisDecoderDecodeBuffer s buffer len ip).2.1 ≠ ZydisStatus.noMoreData)
    (fuel : Nat) (st : Outer S I) :
    (outerLoop B Z fuel st).exitCode = none := by
  cases fuel with
  | zero => rfl
  | succ fuel =>
    have hc : (outerBody B Z (fuel + 1) st).completed = false :=
      innerLoop_never_left Z _ _ hnever _ _
    rw [outerLoop_succ, hc]
    rfl

theorem decodeCount_eq_length {I : Type} (log : List (Event I)) :
    decodeCount log = (decodeArgs log).length := by
  induction log with
  | nil => rfl
  | cons e log ih =>
    cases e with
    | call c s => cases c <;> simp [decodeCount, decodeArgs, ih]
    | _ => simp [decodeCount, decodeArgs, ih]

/-- C13, as worded: a decoder that reports a one-byte instruction on every
call, the empty slice included, never lets the harness return (first
conjunct: no exit code for any budget on the payload `AA BB CC`); and with the
decoder that reports "no more data" on the empty slice and a one-byte
instruction otherwise, the payload `AA BB CC` gets four decode calls, at
offsets 0, 1, 2 and 3, not three. -/
theorem one_byte_stream_as_worded :
    (∀ fuel, (main sampleBuild (fake 2 acceptAll alwaysOneByte) () (List.replicate 15360 0) fuel
        (sampleCB ++ [0xAA, 0xBB, 0xCC])).exitCode = none) ∧
    (main sampleBuild (fake 2 acceptAll oneByteDecode) () (List.replicate 15360 0) 4
        (sampleCB ++ [0xAA, 0xBB, 0xCC])).exitCode = some 0 ∧
    decodeArgs (main sampleBuild (fake 2 acceptAll oneByteDecode) () (List.replicate 15360 0) 4
        (sampleCB ++ [0xAA, 0xBB, 0xCC])).log =
      [([0xAA, 0xBB, 0xCC], 3, 0), ([0xBB, 0xCC], 2, 1), ([0xCC], 1, 2), ([], 0, 3)] ∧
    formatCount (main sampleBuild (fake 2 acceptAll oneByteDecode) () (List.replicate 15360 0) 4
        (sampleCB ++ [0xAA, 0xBB, 0xCC])).log = 3 := by
  refine ⟨?_, rfl, rfl, rfl⟩
  intro fuel
  rw [main_accepted sampleBuild (fake 2 acceptAll alwaysOneByte) () _ fuel _ rfl (by decide)
    (by decide)]
  exact outerLoop_never_left _ _ (fun _ _ _ _ h => by simp [fake, alwaysOneByte] at h) _ _

/-- C13, amended: when the version guard passes, the control block is accepted,
the payload has `k` bytes with `k` less than the capacity of the working
buffer, and the decoder reports "no more data" on an empty slice and a one-byte
instruction on every non-empty slice, then for every budget above `k` the
harness returns exit code 0 after one refill of `k` bytes, `k + 1` decode calls
at offsets `0, 1, ..., k` in that order (the call at offset `i` gets the payload
from byte `i` on, with length `k - i`; the last one is the empty slice), and
exactly `k` format calls. -/
theorem one_byte_instruction_stream {S I : Type} (B : Build) (Z : Zydis S I) (lib : S)
    (readBuf : List Byte) (fuel : Nat) (stdin : List Byte)
    (hv : Z.ZydisGetVersion = B.ZYDIS_VERSION)
    (hlong : B.sizeofControlBlock ≤ stdin.length)
    (hall : firstFailure Z lib
      (configCalls B (B.castControlBlock (stdin.take B.sizeofControlBlock))) = none)
    (hcap : sizeofReadBuf B < SIZE_MOD)
    (hk : stdin.length - B.sizeofControlBlock < sizeofReadBuf B)
    (hempty : ∀ s buffer ip, (Z.ZydisDecoderDecodeBuffer s buffer 0 ip).2.1 =
        ZydisStatus.noMoreData)
    (hone : ∀ s buffer len ip, len ≠ 0 →
      (Z.ZydisDecoderDecodeBuffer s buffer len ip).2.1 = ZydisStatus.success ∧
      Z.length (Z.ZydisDecoderDecodeBuffer s buffer len ip).2.2 = 1)
    (hfuel : stdin.length - B.sizeofControlBlock < fuel) :
    ∃ rest,
      main B Z lib readBuf fuel stdin =
        { exitCode := some 0,
          log := [Event.freadControlBlock B.sizeofControlBlock B.sizeofControlBlock] ++
            answers Z lib (configCalls B (B.castControlBlock (stdin.take B.sizeofControlBlock))) ++
            [Event.freadBuf 0 (sizeofReadBuf B) (stdin.length - B.sizeofControlBlock)] ++ rest } ∧
      decodeArgs rest =
        (List.range (stdin.length - B.sizeofControlBlock + 1)).map
          (fun i => (stdin.drop (B.sizeofControlBlock + i),
                     stdin.length - B.sizeofControlBlock - i, i)) ∧
      decodeCount rest = stdin.length - B.sizeofControlBlock + 1 ∧
      formatCount rest = stdin.length - B.sizeofControlBlock ∧
      refills rest = [] := by
  obtain ⟨fuel, rfl⟩ : ∃ f, fuel = f + 1 := ⟨fuel - 1, by omega⟩
  have hlen : (stdin.drop B.sizeofControlBlock).length = stdin.length - B.sizeofControlBlock :=
    List.length_drop _ _
  have hmin : min (sizeofReadBuf B) (stdin.drop B.sizeofControlBlock).length =
      stdin.length - B.sizeofControlBlock := by
    rw [hlen]
    omega
  obtain ⟨rest, hdone, hn, _, hlog, hargs, href, _, hfmt⟩ := outerBody_bytewise B Z hcap hempty
    (fun s buffer len ip h => ⟨by rw [(hone s buffer len ip h).1]; simp,
      fun _ => (hone s buffer len ip h).2⟩)
    (fuel + 1)
    { lib := stateAfter Z lib
        (configCalls B (B.castControlBlock (stdin.take B.sizeofControlBlock))),
      stdin := stdin.drop B.sizeofControlBlock,
      readBuf := readBuf,
      log := [Event.freadControlBlock B.sizeofControlBlock B.sizeofControlBlock] ++
        answers Z lib
          (configCalls B (B.castControlBlock (stdin.take B.sizeofControlBlock))) }
    (by show min (sizeofReadBuf B) (stdin.drop B.sizeofControlBlock).length < fuel + 1
        rw [hmin]; exact hfuel)
  dsimp only at hn hlog hargs hfmt
  rw [hmin] at hn hlog hargs hfmt
  have hargs2 : decodeArgs rest =
      (List.range (stdin.length - B.sizeofControlBlock + 1)).map
        (fun i => (stdin.drop (B.sizeofControlBlock + i),
                   stdin.length - B.sizeofControlBlock - i, i)) := by
    rw [hargs]
    apply List.map_congr_left
    intro i hi
    rw [List.mem_range] at hi
    dsimp only
    rw [List.drop_drop, List.take_of_length_le (by rw [List.length_drop]; omega)]
  refine ⟨rest, ?_, hargs2, ?_, ?_, href⟩
  · rw [main_accepted B Z lib readBuf (fuel + 1) stdin hv hlong hall, outerLoop_succ, hdone,
      if_pos rfl, hn, if_neg (by omega), hlog]
  · rw [decodeCount_eq_length, hargs2, List.length_map, List.length_range]
  · exact hfmt (fun s buffer len ip h => (hone s buffer len ip h).1)

/-- Witness for C13 (amended): scenario S3, the payload `AA BB CC` after the
all-zero control block of the sample build. -/
theorem one_byte_instruction_stream_witness :
    ∃ rest,
      main sampleBuild (fake 2 acceptAll oneByteDecode) () [] 4
          (sampleCB ++ [0xAA, 0xBB, 0xCC]) =
        { exitCode := some 0,
          log := [Event.freadControlBlock 7 7] ++
            answers (fake 2 acceptAll oneByteDecode) ()
              (configCalls sampleBuild (sampleCast ((sampleCB ++ [0xAA, 0xBB, 0xCC]).take 7))) ++
            [Event.freadBuf 0 15360 3] ++ rest } ∧
      decodeArgs rest =
        (List.range (3 + 1)).map
          (fun i => ((sampleCB ++ [0xAA, 0xBB, 0xCC]).drop (7 + i), 3 - i, i)) ∧
      decodeCount rest = 3 + 1 ∧
      formatCount rest = 3 ∧
      refills rest = [] :=
  one_byte_instruction_stream sampleBuild (fake 2 acceptAll oneByteDecode) () [] 4
    (sampleCB ++ [0xAA, 0xBB, 0xCC]) rfl (by decide) (by decide) (by decide) (by decide)
    oneByteDecode_empty
    (fun s buffer len ip h => by simp [fake, oneByteDecode, h]) (by decide)

/-! ### Every offset becomes a decode start -/

/-- Of the decode calls of a bytewise inner loop over an occupancy of `n`
bytes, those on a non-empty slice are the ones at the cursors `0 .. n - 1`. -/
theorem filter_bytewise_args (f : Nat → List Byte) (n : Nat) :
    ((List.range (n + 1)).map (fun i => (f i, n - i, i))).filter
        (fun a => decide (a.2.1 ≠ 0)) =
      (List.range n).map (fun i => (f i, n - i, i)) := by
  rw [List.range_succ, List.map_append, List.filter_append]
  have h1 : ((List.range n).map (fun i => (f i, n - i, i))).filter
      (fun a => decide (a.2.1 ≠ 0)) = (List.range n).map (fun i => (f i, n - i, i)) := by
    rw [List.filter_eq_self]
    intro a ha
    rw [List.mem_map] at ha
    obtain ⟨i, hi, rfl⟩ := ha
    rw [List.mem_range] at hi
    simp only [ne_eq, decide_not, Bool.not_eq_eq_eq_not, Bool.not_true, decide_eq_false_iff_not]
    omega
  rw [h1]
  simp

/-- The outer loop for a decoder that takes one byte at a time, over an input
of any length: it returns, and the decode calls on a non-empty slice are, in
order, one for every offset `j` of the input, on the input from `j` to the end
of the buffer-sized chunk that holds `j`. -/
theorem outerLoop_bytewise {S I : Type} (B : Build) (Z : Zydis S I)
    (hcap : sizeofReadBuf B < SIZE_MOD) (hpos : 0 < sizeofReadBuf B)
    (hempty : ∀ s buffer ip, (Z.ZydisDecoderDecodeBuffer s buffer 0 ip).2.1 =
        ZydisStatus.noMoreData)
    (hstep : ∀ s buffer len ip, len ≠ 0 →
      (Z.ZydisDecoderDecodeBuffer s buffer len ip).2.1 ≠ ZydisStatus.noMoreData ∧
      ((Z.ZydisDecoderDecodeBuffer s buffer len ip).2.1 = ZydisStatus.success →
        Z.length (Z.ZydisDecoderDecodeBuffer s buffer len ip).2.2 = 1))
    (fuel : Nat) :
    ∀ st : Outer S I, st.stdin.length / sizeofReadBuf B + sizeofReadBuf B + 1 ≤ fuel →
      ∃ rest,
        outerLoop B Z fuel st = { exitCode := some 0, log := st.log ++ rest } ∧
        (decodeArgs rest).filter (fun a => decide (a.2.1 ≠ 0)) =
          (List.range st.stdin.length).map (fun j =>
            ((st.stdin.drop j).take (sizeofReadBuf B - j % sizeofReadBuf B),
             ((st.stdin.drop j).take (sizeofReadBuf B - j % sizeofReadBuf B)).length,
             j % sizeofReadBuf B)) ∧
        ((∀ s buffer len ip, (Z.ZydisDecoderDecodeBuffer s buffer len ip).2.1 ≠
            ZydisStatus.success) → formatCount rest = 0) := by
  induction fuel with
  | zero =>
    intro st h
    exact absurd h (Nat.not_succ_le_zero _)
  | succ fuel ih =>
    intro st hfuel
    obtain ⟨R, hdone, hn, hstdin, hlog, hargs, _, hf0, _⟩ :=
      outerBody_bytewise B Z hcap hempty hstep (fuel + 1) st
        (by
          have := Nat.min_le_left (sizeofReadBuf B) st.stdin.length
          generalize st.stdin.length / sizeofReadBuf B = q at hfuel
          omega)
    have hfirst : (decodeArgs R).filter (fun a => decide (a.2.1 ≠ 0)) =
        (List.range (min (sizeofReadBuf B) st.stdin.length)).map (fun j =>
          ((st.stdin.drop j).take (sizeofReadBuf B - j % sizeofReadBuf B),
           ((st.stdin.drop j).take (sizeofReadBuf B - j % sizeofReadBuf B)).length,
           j % sizeofReadBuf B)) := by
      rw [hargs, filter_bytewise_args (fun i => (st.stdin.drop i).take (sizeofReadBuf B - i))]
      apply List.map_congr_left
      intro i hi
      rw [List.mem_range] at hi
      have hic : i < sizeofReadBuf B :=
        lt_of_lt_of_le hi (Nat.min_le_left _ _)
      have hil : i < st.stdin.length :=
        lt_of_lt_of_le hi (Nat.min_le_right _ _)
      rw [Nat.mod_eq_of_lt hic, List.length_take, List.length_drop]
      congr 2
      omega
    rw [outerLoop_succ, hdone, if_pos rfl, hn]
    by_cases hfull : sizeofReadBuf B ≤ st.stdin.length
    · have hmin : min (sizeofReadBuf B) st.stdin.length = sizeofReadBuf B :=
        Nat.min_eq_left hfull
      obtain ⟨rest, hrun, hrest, hfmt⟩ := ih (outerBody B Z (fuel + 1) st).next (by
        rw [hstdin, List.length_drop]
        have := Nat.div_eq_sub_div hpos hfull
        omega)
      rw [if_pos hmin, hrun, hlog]
      refine ⟨[Event.freadBuf 0 (sizeofReadBuf B) (min (sizeofReadBuf B) st.stdin.length)] ++
        R ++ rest, by simp, ?_, ?_⟩
      · rw [decodeArgs_append, decodeArgs_append, List.filter_append, List.filter_append,
          hfirst, hrest, hstdin, List.length_drop, hmin]
        have hsplit : st.stdin.length =
            sizeofReadBuf B + (st.stdin.length - sizeofReadBuf B) := by omega
        conv_rhs => rw [hsplit, List.range_add, List.map_append, List.map_map]
        have h0 : decodeArgs (I := I)
            [Event.freadBuf 0 (sizeofReadBuf B) (sizeofReadBuf B)] = [] := rfl
        rw [h0, List.filter_nil, List.nil_append]
        congr 1
        apply List.map_congr_left
        intro j _
        simp only [Function.comp, List.drop_drop, Nat.add_mod_left]
      · intro hno
        rw [formatCount_append, formatCount_append, hf0 hno, hfmt hno]
        rfl
    · have hmin : min (sizeofReadBuf B) st.stdin.length = st.stdin.length :=
        Nat.min_eq_right (by omega)
      rw [if_neg (by omega), hlog]
      refine ⟨[Event.freadBuf 0 (sizeofReadBuf B) (min (sizeofReadBuf B) st.stdin.length)] ++ R,
        by simp, ?_, ?_⟩
      · rw [decodeArgs_append, List.filter_append, hfirst, hmin]
        rfl
      · intro hno
        rw [formatCount_append, hf0 hno]
        rfl
/-- C16: when the version guard passes, the control block is accepted and the
decoder reports "no more data" on an empty slice and some other failure on
every non-empty slice, then for a payload of any length `P` (longer than the
working buffer or not) and every budget of at least `P / CAP + CAP + 1` the
harness returns exit code 0, makes no format call, and its decode calls on a
non-empty slice are, in order, exactly one for every payload offset
`j = 0, ..., P - 1`: the call for `j` gets the payload from byte `j` (its first
byte is payload byte `j`) to the end of the buffer-sized chunk that holds `j`,
at the runtime address `j mod CAP`. -/
theorem every_offset_is_a_decode_start {S I : Type} (B : Build) (Z : Zydis S I) (lib : S)
    (readBuf : List Byte) (fuel : Nat) (stdin : List Byte)
    (hv : Z.ZydisGetVersion = B.ZYDIS_VERSION)
    (hlong : B.sizeofControlBlock ≤ stdin.length)
    (hall : firstFailure Z lib
      (configCalls B (B.castControlBlock (stdin.take B.sizeofControlBlock))) = none)
    (hpos : 0 < B.ZYDIS_MAX_INSTRUCTION_LENGTH)
    (hcap : sizeofReadBuf B < SIZE_MOD)
    (hempty : ∀ s buffer ip, (Z.ZydisDecoderDecodeBuffer s buffer 0 ip).2.1 =
        ZydisStatus.noMoreData)
    (hreject : ∀ s buffer len ip, len ≠ 0 →
      (Z.ZydisDecoderDecodeBuffer s buffer len ip).2.1 ≠ ZydisStatus.noMoreData ∧
      (Z.ZydisDecoderDecodeBuffer s buffer len ip).2.1 ≠ ZydisStatus.success)
    (hfuel : (stdin.drop B.sizeofControlBlock).length / sizeofReadBuf B +
      sizeofReadBuf B + 1 ≤ fuel) :
    ∃ rest,
      main B Z lib readBuf fuel stdin =
        { exitCode := some 0,
          log := [Event.freadControlBlock B.sizeofControlBlock B.sizeofControlBlock] ++
            answers Z lib (configCalls B (B.castControlBlock (stdin.take B.sizeofControlBlock))) ++
            rest } ∧
      (decodeArgs rest).filter (fun a => decide (a.2.1 ≠ 0)) =
        (List.range (stdin.drop B.sizeofControlBlock).length).map (fun j =>
          (((stdin.drop B.sizeofControlBlock).drop j).take
              (sizeofReadBuf B - j % sizeofReadBuf B),
           (((stdin.drop B.sizeofControlBlock).drop j).take
              (sizeofReadBuf B - j % sizeofReadBuf B)).length,
           j % sizeofReadBuf B)) ∧
      (∀ j, j < (stdin.drop B.sizeofControlBlock).length →
        (((stdin.drop B.sizeofControlBlock).drop j).take
            (sizeofReadBuf B - j % sizeofReadBuf B)).head? =
          (stdin.drop B.sizeofControlBlock)[j]?) ∧
      formatCount rest = 0 := by
  have hpos2 : 0 < sizeofReadBuf B := by
    unfold sizeofReadBuf
    omega
  obtain ⟨rest, hrun, hargs, hfmt⟩ := outerLoop_bytewise B Z hcap hpos2 hempty
    (fun s buffer len ip h => ⟨(hreject s buffer len ip h).1,
      fun hs => absurd hs (hreject s buffer len ip h).2⟩)
    fuel
    { lib := stateAfter Z lib
        (configCalls B (B.castControlBlock (stdin.take B.sizeofControlBlock))),
      stdin := stdin.drop B.sizeofControlBlock,
      readBuf := readBuf,
      log := [Event.freadControlBlock B.sizeofControlBlock B.sizeofControlBlock] ++
        answers Z lib
          (configCalls B (B.castControlBlock (stdin.take B.sizeofControlBlock))) }
    hfuel
  refine ⟨rest, ?_, hargs, ?_, ?_⟩
  · rw [main_accepted B Z lib readBuf fuel stdin hv hlong hall, hrun]
  · intro j hj
    have hm : j % sizeofReadBuf B < sizeofReadBuf B := Nat.mod_lt _ hpos2
    rw [List.head?_take, if_neg (by omega), List.head?_drop]
  · apply hfmt
    intro s buffer len ip
    by_cases h0 : len = 0
    · rw [h0, hempty]
      simp
    · exact (hreject s buffer len ip h0).2

/-- Witness for C16: the payload `AA BB` after the all-zero control block of
the sample build, with the decoder double that rejects every non-empty
slice. -/
theorem every_offset_is_a_decode_start_witness :
    ∃ rest,
      main sampleBuild (fake 2 acceptAll rejectDecode) () [] 15361 (sampleCB ++ [0xAA, 0xBB]) =
        { exitCode := some 0,
          log := [Event.freadControlBlock 7 7] ++
            answers (fake 2 acceptAll rejectDecode) ()
              (configCalls sampleBuild (sampleCast ((sampleCB ++ [0xAA, 0xBB]).take 7))) ++
            rest } ∧
      (decodeArgs rest).filter (fun a => decide (a.2.1 ≠ 0)) =
        (List.range ((sampleCB ++ [0xAA, 0xBB]).drop 7).length).map (fun j =>
          ((((sampleCB ++ [0xAA, 0xBB]).drop 7).drop j).take (15360 - j % 15360),
           ((((sampleCB ++ [0xAA, 0xBB]).drop 7).drop j).take (15360 - j % 15360)).length,
           j % 15360)) ∧
      (∀ j, j < ((sampleCB ++ [0xAA, 0xBB]).drop 7).length →
        ((((sampleCB ++ [0xAA, 0xBB]).drop 7).drop j).take (15360 - j % 15360)).head? =
          ((sampleCB ++ [0xAA, 0xBB]).drop 7)[j]?) ∧
      formatCount rest = 0 :=
  every_offset_is_a_decode_start sampleBuild (fake 2 acceptAll rejectDecode) () [] 15361
    (sampleCB ++ [0xAA, 0xBB]) rfl (by decide) (by decide) (by decide) (by decide)
    (fun _ _ _ => rfl)
    (fun s buffer len ip h => by simp [fake, rejectDecode, h]) (by decide)

/-! ### Chunk-wise decoding -/

theorem iterations_succ {S I : Type} (B : Build) (Z : Zydis S I) (fuel : Nat)
    (st : Outer S I) :
    iterations B Z (fuel + 1) st =
      if (outerBody B Z (fuel + 1) st).completed then
        if (outerBody B Z (fuel + 1) st).numBytesRead = sizeofReadBuf B then
          outerBody B Z (fuel + 1) st :: iterations B Z fuel (outerBody B Z (fuel + 1) st).next
        else
          [outerBody B Z (fuel + 1) st]
      else
        [outerBody B Z (fuel + 1) st] := rfl

theorem outerBody_numBytesRead {S I : Type} (B : Build) (Z : Zydis S I) (fuel : Nat)
    (st : Outer S I) :
    (outerBody B Z fuel st).numBytesRead = min (sizeofReadBuf B) st.stdin.length :=
  List.length_take _ _

/-- What the inner loop of an iteration sees of the input: the first
`numBytesRead` bytes of the buffer are the next bytes of the input, and the
bytes from a cursor within the occupancy up to the occupancy are the input from
that offset on. -/
theorem outerBody_chunk {S I : Type} (B : Build) (Z : Zydis S I) (fuel : Nat)
    (st : Outer S I) :
    (outerBody B Z fuel st).filled.take (outerBody B Z fuel st).numBytesRead =
      st.stdin.take (outerBody B Z fuel st).numBytesRead ∧
    ∀ o, o ≤ (outerBody B Z fuel st).numBytesRead →
      window (outerBody B Z fuel st).filled o ((outerBody B Z fuel st).numBytesRead - o) =
        (st.stdin.drop o).take ((outerBody B Z fuel st).numBytesRead - o) := by
  have hfilled : (outerBody B Z fuel st).filled =
      st.stdin.take (sizeofReadBuf B) ++
        st.readBuf.drop (st.stdin.take (sizeofReadBuf B)).length := rfl
  have hn : (outerBody B Z fuel st).numBytesRead = (st.stdin.take (sizeofReadBuf B)).length := rfl
  have hlen : (st.stdin.take (sizeofReadBuf B)).length =
      min (sizeofReadBuf B) st.stdin.length := List.length_take _ _
  constructor
  · rw [hfilled, hn, List.take_left' rfl, hlen, List.take_eq_take]
    simp
  · intro o ho
    rw [hfilled, hn, window_refilled st.stdin _ (sizeofReadBuf B) o (by rw [← hn]; exact ho),
      hlen, List.take_eq_take, List.length_drop]
    rw [hn, hlen] at ho
    rcases Nat.le_total (sizeofReadBuf B) st.stdin.length with h | h
    · rw [Nat.min_eq_left h]
    · rw [Nat.min_eq_right h]
      have h1 : st.stdin.length - o ≤ sizeofReadBuf B - o := by omega
      rw [Nat.min_eq_right h1, Nat.min_self]

/-- The occupancy and the buffer contents of the `k`-th iteration that is
run. -/
theorem iterations_chunk {S I : Type} (B : Build) (Z : Zydis S I) (fuel : Nat) :
    ∀ (st : Outer S I) (k : Nat) (it : Iteration S I),
      (iterations B Z fuel st)[k]? = some it →
      it.numBytesRead = min (sizeofReadBuf B) (st.stdin.length - k * sizeofReadBuf B) ∧
      it.filled.take it.numBytesRead =
        (st.stdin.drop (k * sizeofReadBuf B)).take it.numBytesRead ∧
      ∀ o, o ≤ it.numBytesRead →
        window it.filled o (it.numBytesRead - o) =
          (st.stdin.drop (k * sizeofReadBuf B + o)).take (it.numBytesRead - o) := by
  induction fuel with
  | zero =>
    intro st k it h
    simp [iterations] at h
  | succ fuel ih =>
    intro st k it h
    have hhead : (iterations B Z (fuel + 1) st)[0]? = some (outerBody B Z (fuel + 1) st) := by
      rw [iterations_succ]
      split_ifs <;> simp
    cases k with
    | zero =>
      rw [hhead] at h
      cases h
      obtain ⟨h1, h2⟩ := outerBody_chunk B Z (fuel + 1) st
      refine ⟨?_, ?_, ?_⟩
      · rw [outerBody_numBytesRead, Nat.zero_mul, Nat.sub_zero]
      · rw [h1, Nat.zero_mul, List.drop_zero]
      · intro o ho
        rw [h2 o ho, Nat.zero_mul, Nat.zero_add]
    | succ k =>
      rw [iterations_succ] at h
      by_cases hc : (outerBody B Z (fuel + 1) st).completed = true
      · rw [if_pos hc] at h
        by_cases hfull : (outerBody B Z (fuel + 1) st).numBytesRead = sizeofReadBuf B
        · rw [if_pos hfull, List.getElem?_cons_succ] at h
          obtain ⟨h1, h2, h3⟩ := ih _ k it h
          have hstdin : (outerBody B Z (fuel + 1) st).next.stdin =
              st.stdin.drop (sizeofReadBuf B) := rfl
          have hmul : (k + 1) * sizeofReadBuf B = sizeofReadBuf B + k * sizeofReadBuf B := by
            rw [Nat.add_mul, Nat.one_mul, Nat.add_comm]
          rw [hstdin] at h1 h2 h3
          rw [List.length_drop, Nat.sub_sub] at h1
          rw [List.drop_drop] at h2
          refine ⟨?_, ?_, ?_⟩
          · rw [h1, hmul]
          · rw [h2, hmul]
          · intro o ho
            rw [h3 o ho, List.drop_drop, hmul, Nat.add_assoc]
        · rw [if_neg hfull] at h
          simp at h
      · rw [if_neg hc] at h
        simp at h

/-- The refills of a run are those of its iterations: each asks for the
whole buffer, at index 0. -/
theorem outerLoop_refills {S I : Type} (B : Build) (Z : Zydis S I) (fuel : Nat) :
    ∀ st : Outer S I,
      refills (outerLoop B Z fuel st).log =
        refills st.log ++ (iterations B Z fuel st).map
          (fun it => (0, sizeofReadBuf B, it.numBytesRead)) := by
  induction fuel with
  | zero =>
    intro st
    simp [outerLoop, iterations]
  | succ fuel ih =>
    intro st
    obtain ⟨inner, hlog, href, _⟩ := outerBody_log B Z (fuel + 1) st
    have hnext : refills (outerBody B Z (fuel + 1) st).next.log =
        refills st.log ++
          [(0, sizeofReadBuf B, (outerBody B Z (fuel + 1) st).numBytesRead)] := by
      rw [hlog, refills_append, refills_append, href, List.append_nil]
      rfl
    rw [outerLoop_succ, iterations_succ]
    by_cases hc : (outerBody B Z (fuel + 1) st).completed = true
    · rw [if_pos hc, if_pos hc]
      by_cases hfull : (outerBody B Z (fuel + 1) st).numBytesRead = sizeofReadBuf B
      · rw [if_pos hfull, if_pos hfull, ih, hnext]
        simp
      · rw [if_neg hfull, if_neg hfull]
        exact hnext
    · rw [if_neg hc, if_neg hc]
      exact hnext

/-- When every inner loop is left within `bound` rounds, a budget of
`P / CAP + 1 + bound` lets the outer loop return, after `P / CAP + 1`
iterations. -/
theorem outerLoop_iterations_count {S I : Type} (B : Build) (Z : Zydis S I)
    (hpos : 0 < sizeofReadBuf B) (bound : Nat)
    (hterm : ∀ (f : Nat) (st : Outer S I), bound ≤ f → (outerBody B Z f st).completed = true)
    (fuel : Nat) :
    ∀ st : Outer S I, st.stdin.length / sizeofReadBuf B + 1 + bound ≤ fuel →
      (outerLoop B Z fuel st).exitCode = some 0 ∧
      (iterations B Z fuel st).length = st.stdin.length / sizeofReadBuf B + 1 := by
  induction fuel with
  | zero =>
    intro st h
    generalize st.stdin.length / sizeofReadBuf B = q at h
    omega
  | succ fuel ih =>
    intro st hfuel
    have hc : (outerBody B Z (fuel + 1) st).completed = true := hterm _ _ (by
      generalize st.stdin.length / sizeofReadBuf B = q at hfuel
      omega)
    rw [outerLoop_succ, iterations_succ, if_pos hc, if_pos hc, outerBody_numBytesRead]
    by_cases hfull : sizeofReadBuf B ≤ st.stdin.length
    · have hdiv := Nat.div_eq_sub_div hpos hfull
      rw [Nat.min_eq_left hfull, if_pos rfl, if_pos rfl]
      have hstdin : (outerBody B Z (fuel + 1) st).next.stdin =
          st.stdin.drop (sizeofReadBuf B) := rfl
      obtain ⟨h1, h2⟩ := ih (outerBody B Z (fuel + 1) st).next (by
        rw [hstdin, List.length_drop]
        omega)
      rw [hstdin, List.length_drop] at h2
      refine ⟨h1, ?_⟩
      rw [List.length_cons, h2, hdiv]
    · have hlt : st.stdin.length < sizeofReadBuf B := by omega
      rw [Nat.min_eq_right (by omega), if_neg (by omega), if_neg (by omega),
        Nat.div_eq_of_lt hlt]
      exact ⟨rfl, rfl⟩
/-- C18, as worded: the slice passed to the decoder need not lie within the
payload.  The double `overshootOnce` reports a two-byte instruction on the
one-byte payload `66`; the cursor moves to 2, past the occupancy 1, and the
next decode call gets the pointer `readBuf + 2` with the length
`1 - 2 = 2^64 - 1`: its first byte is the byte `EE` that was in the buffer
before the refill, not a byte of the payload.  The run returns exit code 0. -/
theorem chunk_slices_can_leave_the_payload :
    (main sampleBuild (fake 2 acceptAll overshootOnce) () (List.replicate 15360 0xEE) 2
        (sampleCB ++ [0x66])).exitCode = some 0 ∧
    (decodeArgs (main sampleBuild (fake 2 acceptAll overshootOnce) ()
        (List.replicate 15360 0xEE) 2 (sampleCB ++ [0x66])).log).map
          (fun a => (a.1.head?, a.2.1, a.2.2)) =
      [(some 0x66, 1, 0), (some 0xEE, 18446744073709551615, 2)] := by
  constructor
  · rfl
  · rfl

/-! ### The decode calls of a run, iteration by iteration -/

theorem decodeArgsUntilRefill_append {I : Type} (a b : List (Event I))
    (h : refills a = []) :
    decodeArgsUntilRefill (a ++ b) = decodeArgs a ++ decodeArgsUntilRefill b := by
  induction a with
  | nil => rfl
  | cons e a ih =>
    cases e with
    | freadBuf o s r => simp [refills] at h
    | call c s =>
      have h2 : refills a = [] := h
      cases c <;> simp [decodeArgsUntilRefill, decodeArgs, ih h2]
    | freadControlBlock s r =>
      have h2 : refills a = [] := h
      simp [decodeArgsUntilRefill, decodeArgs, ih h2]
    | fputs l =>
      have h2 : refills a = [] := h
      simp [decodeArgsUntilRefill, decodeArgs, ih h2]

theorem callsByRefill_append {I : Type} (a b : List (Event I)) (h : refills a = []) :
    callsByRefill (a ++ b) = callsByRefill b := by
  induction a with
  | nil => rfl
  | cons e a ih =>
    cases e with
    | freadBuf o s r => simp [refills] at h
    | call c s =>
      have h2 : refills a = [] := h
      simp [callsByRefill, ih h2]
    | freadControlBlock s r =>
      have h2 : refills a = [] := h
      simp [callsByRefill, ih h2]
    | fputs l =>
      have h2 : refills a = [] := h
      simp [callsByRefill, ih h2]

/-- The group of one iteration: a refill, the calls of its inner loop, and a
tail that is empty or starts with the next refill. -/
theorem callsByRefill_iteration {I : Type} (size n : Nat) (inner tail : List (Event I))
    (h : refills inner = []) (ht : decodeArgsUntilRefill tail = []) :
    callsByRefill ([Event.freadBuf 0 size n] ++ inner ++ tail) =
      (n, decodeArgs inner) :: callsByRefill tail := by
  show (n, decodeArgsUntilRefill (inner ++ tail)) :: callsByRefill (inner ++ tail) = _
  rw [decodeArgsUntilRefill_append inner tail h, ht, List.append_nil,
    callsByRefill_append inner tail h]

/-- The decode calls that one iteration of the outer loop logs: a call whose
cursor is within the occupancy is passed the input from that offset up to the
occupancy; and the cursor is within the occupancy at every call when the
decoder reports "no more data" on an empty slice and no instruction longer than
the slice it was given. -/
theorem outerBody_calls {S I : Type} (B : Build) (Z : Zydis S I) (fuel : Nat)
    (st : Outer S I) (hcap : sizeofReadBuf B < SIZE_MOD) :
    ∃ inner,
      (outerBody B Z fuel st).next.log =
        st.log ++ [Event.freadBuf 0 (sizeofReadBuf B)
          (min (sizeofReadBuf B) st.stdin.length)] ++ inner ∧
      refills inner = [] ∧
      ∀ a ∈ decodeArgs inner,
        (a.2.2 ≤ min (sizeofReadBuf B) st.stdin.length →
          a.1 = (st.stdin.drop a.2.2).take (min (sizeofReadBuf B) st.stdin.length - a.2.2) ∧
          a.2.1 = min (sizeofReadBuf B) st.stdin.length - a.2.2) ∧
        ((∀ s buffer len ip, (Z.ZydisDecoderDecodeBuffer s buffer len ip).2.1 =
            ZydisStatus.success →
          1 ≤ Z.length (Z.ZydisDecoderDecodeBuffer s buffer len ip).2.2 ∧
          Z.length (Z.ZydisDecoderDecodeBuffer s buffer len ip).2.2 ≤ len) →
         (∀ s buffer ip, (Z.ZydisDecoderDecodeBuffer s buffer 0 ip).2.1 =
            ZydisStatus.noMoreData) →
         a.2.2 ≤ min (sizeofReadBuf B) st.stdin.length) := by
  have hnum := outerBody_numBytesRead B Z fuel st
  have hn : (outerBody B Z fuel st).numBytesRead = (refill (sizeofReadBuf B) st).2 := rfl
  have hfilled : (outerBody B Z fuel st).filled = (refill (sizeofReadBuf B) st).1.readBuf := rfl
  have hlt : (refill (sizeofReadBuf B) st).2 < SIZE_MOD := by
    rw [← hn, hnum]
    exact lt_of_le_of_lt (Nat.min_le_left _ _) hcap
  obtain ⟨inner, hlog, href, _⟩ := outerBody_log B Z fuel st
  obtain ⟨r2, h2, hargs⟩ := innerLoop_decodeArgs Z (refill (sizeofReadBuf B) st).1.readBuf
    (refill (sizeofReadBuf B) st).2 fuel
    { lib := (refill (sizeofReadBuf B) st).1.lib, readOffs := 0,
      log := (refill (sizeofReadBuf B) st).1.log }
  have hr2 : r2 = inner := by
    have h3 : (outerBody B Z fuel st).next.log =
        st.log ++ [Event.freadBuf 0 (sizeofReadBuf B) (outerBody B Z fuel st).numBytesRead] ++
          r2 := h2
    rw [hlog] at h3
    exact (List.append_cancel_left h3).symm
  subst hr2
  obtain ⟨_, hwin⟩ := outerBody_chunk B Z fuel st
  rw [hnum] at hlog
  refine ⟨r2, hlog, href, ?_⟩
  intro a ha
  have h := hargs a ha
  have h1 : a.1 = window (refill (sizeofReadBuf B) st).1.readBuf a.2.2
      (sizeSub (refill (sizeofReadBuf B) st).2 a.2.2) := congrArg (fun x => x.1) h
  have h3 : a.2.1 = sizeSub (refill (sizeofReadBuf B) st).2 a.2.2 :=
    congrArg (fun x => x.2.1) h
  constructor
  · intro ho
    rw [← hnum] at ho ⊢
    have hs := sizeSub_of_le (a := (refill (sizeofReadBuf B) st).2) (b := a.2.2)
      (by rw [← hn]; exact ho) hlt
    constructor
    · rw [h1, hs, ← hn, ← hfilled]
      exact hwin a.2.2 ho
    · rw [h3, hs, ← hn]
  · intro hlen hempty
    obtain ⟨r3, h4, _, _, hbound⟩ := innerLoop_bounded Z
      (refill (sizeofReadBuf B) st).1.readBuf (refill (sizeofReadBuf B) st).2 hlen hempty hlt fuel
      { lib := (refill (sizeofReadBuf B) st).1.lib, readOffs := 0,
        log := (refill (sizeofReadBuf B) st).1.log } (Nat.zero_le _)
    have hr3 : r3 = r2 := by
      rw [h2] at h4
      exact (List.append_cancel_left h4).symm
    subst hr3
    rw [← hnum, hn]
    exact (hbound a ha).2

/-- The decode calls of a run of the outer loop, grouped by iteration: the
`k`-th refill returns `min CAP (P - k * CAP)` bytes, and a decode call of the
`k`-th iteration whose cursor `o` is within that occupancy `n` is passed the
bytes `[k * CAP + o, k * CAP + n)` of the input the loop was entered with. -/
theorem outerLoop_calls {S I : Type} (B : Build) (Z : Zydis S I)
    (hcap : sizeofReadBuf B < SIZE_MOD) (fuel : Nat) :
    ∀ st : Outer S I, ∃ rest,
      (outerLoop B Z fuel st).log = st.log ++ rest ∧
      decodeArgsUntilRefill rest = [] ∧
      (callsByRefill rest).map (fun g => g.1) =
        (iterations B Z fuel st).map (fun it => it.numBytesRead) ∧
      ∀ k n calls, (callsByRefill rest)[k]? = some (n, calls) →
        n = min (sizeofReadBuf B) (st.stdin.length - k * sizeofReadBuf B) ∧
        ∀ a ∈ calls,
          (a.2.2 ≤ n →
            a.1 = (st.stdin.drop (k * sizeofReadBuf B + a.2.2)).take (n - a.2.2) ∧
            a.2.1 = n - a.2.2) ∧
          ((∀ s buffer len ip, (Z.ZydisDecoderDecodeBuffer s buffer len ip).2.1 =
              ZydisStatus.success →
            1 ≤ Z.length (Z.ZydisDecoderDecodeBuffer s buffer len ip).2.2 ∧
            Z.length (Z.ZydisDecoderDecodeBuffer s buffer len ip).2.2 ≤ len) →
           (∀ s buffer ip, (Z.ZydisDecoderDecodeBuffer s buffer 0 ip).2.1 =
              ZydisStatus.noMoreData) →
           a.2.2 ≤ n) := by
  induction fuel with
  | zero =>
    intro st
    refine ⟨[], by simp [outerLoop], rfl, rfl, ?_⟩
    intro k n calls h
    simp [callsByRefill] at h
  | succ fuel ih =>
    intro st
    obtain ⟨inner, hlog, href, hinner⟩ := outerBody_calls B Z (fuel + 1) st hcap
    have hnum := outerBody_numBytesRead B Z (fuel + 1) st
    -- the iteration on its own, for the runs that end with it
    have hlast : ∀ out : Outcome I, out.log = (outerBody B Z (fuel + 1) st).next.log →
        ∃ rest,
          out.log = st.log ++ rest ∧
          decodeArgsUntilRefill rest = [] ∧
          (callsByRefill rest).map (fun g => g.1) =
            [outerBody B Z (fuel + 1) st].map (fun it => it.numBytesRead) ∧
          ∀ k n calls, (callsByRefill rest)[k]? = some (n, calls) →
            n = min (sizeofReadBuf B) (st.stdin.length - k * sizeofReadBuf B) ∧
            ∀ a ∈ calls,
              (a.2.2 ≤ n →
                a.1 = (st.stdin.drop (k * sizeofReadBuf B + a.2.2)).take (n - a.2.2) ∧
                a.2.1 = n - a.2.2) ∧
              ((∀ s buffer len ip, (Z.ZydisDecoderDecodeBuffer s buffer len ip).2.1 =
                  ZydisStatus.success →
                1 ≤ Z.length (Z.ZydisDecoderDecodeBuffer s buffer len ip).2.2 ∧
                Z.length (Z.ZydisDecoderDecodeBuffer s buffer len ip).2.2 ≤ len) →
               (∀ s buffer ip, (Z.ZydisDecoderDecodeBuffer s buffer 0 ip).2.1 =
                  ZydisStatus.noMoreData) →
               a.2.2 ≤ n) := by
      intro out hout
      have hgroup := callsByRefill_iteration (sizeofReadBuf B)
        (min (sizeofReadBuf B) st.stdin.length) inner [] href rfl
      rw [List.append_nil] at hgroup
      refine ⟨[Event.freadBuf 0 (sizeofReadBuf B) (min (sizeofReadBuf B) st.stdin.length)] ++
        inner, ?_, by rfl, ?_, ?_⟩
      · rw [hout, hlog, List.append_assoc]
      · rw [hgroup]
        simp only [List.map_cons, List.map_nil, callsByRefill, hnum]
      · intro k n calls h
        rw [hgroup] at h
        cases k with
        | zero =>
          rw [List.getElem?_cons_zero] at h
          cases h
          rw [Nat.zero_mul, Nat.sub_zero]
          refine ⟨rfl, ?_⟩
          intro a ha
          rw [Nat.zero_add]
          exact hinner a ha
        | succ k =>
          rw [List.getElem?_cons_succ] at h
          simp [callsByRefill] at h
    rw [outerLoop_succ, iterations_succ]
    by_cases hc : (outerBody B Z (fuel + 1) st).completed = true
    · rw [if_pos hc, if_pos hc]
      by_cases hfull : (outerBody B Z (fuel + 1) st).numBytesRead = sizeofReadBuf B
      · rw [if_pos hfull, if_pos hfull]
        obtain ⟨rest, hrun, htail, hmap, hrest⟩ := ih (outerBody B Z (fuel + 1) st).next
        have hstdin : (outerBody B Z (fuel + 1) st).next.stdin =
            st.stdin.drop (sizeofReadBuf B) := rfl
        have hmul : ∀ k, (k + 1) * sizeofReadBuf B = sizeofReadBuf B + k * sizeofReadBuf B := by
          intro k
          rw [Nat.add_mul, Nat.one_mul, Nat.add_comm]
        have hgroup := callsByRefill_iteration (sizeofReadBuf B)
          (min (sizeofReadBuf B) st.stdin.length) inner rest href htail
        refine ⟨[Event.freadBuf 0 (sizeofReadBuf B) (min (sizeofReadBuf B) st.stdin.length)] ++
          inner ++ rest, ?_, by rfl, ?_, ?_⟩
        · rw [hrun, hlog]
          simp
        · rw [hgroup, List.map_cons, List.map_cons, hmap, hnum]
        · intro k n calls h
          rw [hgroup] at h
          cases k with
          | zero =>
            rw [List.getElem?_cons_zero] at h
            cases h
            rw [Nat.zero_mul, Nat.sub_zero]
            refine ⟨rfl, ?_⟩
            intro a ha
            rw [Nat.zero_add]
            exact hinner a ha
          | succ k =>
            rw [List.getElem?_cons_succ] at h
            obtain ⟨h1, h2⟩ := hrest k n calls h
            rw [hstdin, List.length_drop, Nat.sub_sub] at h1
            refine ⟨by rw [h1, hmul], ?_⟩
            intro a ha
            obtain ⟨h3, h4⟩ := h2 a ha
            refine ⟨?_, h4⟩
            intro ho
            have h5 := h3 ho
            rw [hstdin, List.drop_drop] at h5
            rw [hmul, Nat.add_assoc]
            exact h5
      · rw [if_neg hfull, if_neg hfull]
        exact hlast _ rfl
    · rw [if_neg hc, if_neg hc]
      exact hlast _ rfl

/-- The refills of a run that returns: when every inner loop is left within
`bound` rounds, a budget of `P / CAP + 1 + bound` lets the outer loop return
exit code 0 after `P / CAP + 1` refills, the `k`-th of which asks for `CAP`
bytes at index 0 and returns `min CAP (P - k * CAP)`. -/
theorem outerLoop_refills_of_termination {S I : Type} (B : Build) (Z : Zydis S I)
    (hpos : 0 < sizeofReadBuf B) (bound : Nat)
    (hterm : ∀ (f : Nat) (st : Outer S I), bound ≤ f → (outerBody B Z f st).completed = true)
    (fuel : Nat) (st : Outer S I)
    (hfuel : st.stdin.length / sizeofReadBuf B + 1 + bound ≤ fuel) :
    (outerLoop B Z fuel st).exitCode = some 0 ∧
    refills (outerLoop B Z fuel st).log =
      refills st.log ++ (List.range (st.stdin.length / sizeofReadBuf B + 1)).map
        (fun k => (0, sizeofReadBuf B,
          min (sizeofReadBuf B) (st.stdin.length - k * sizeofReadBuf B))) := by
  obtain ⟨hexit, hcount⟩ := outerLoop_iterations_count B Z hpos bound hterm fuel st hfuel
  refine ⟨hexit, ?_⟩
  rw [outerLoop_refills]
  congr 1
  apply List.ext_getElem?
  intro k
  rw [List.getElem?_map, List.getElem?_map]
  by_cases hk : k < st.stdin.length / sizeofReadBuf B + 1
  · have hk2 : k < (iterations B Z fuel st).length := by rw [hcount]; exact hk
    rw [List.getElem?_eq_getElem hk2, List.getElem?_eq_getElem (by rw [List.length_range]; exact hk),
      List.getElem_range]
    have h := (iterations_chunk B Z fuel st k _ (List.getElem?_eq_getElem hk2)).1
    simp only [Option.map_some']
    rw [h]
  · rw [List.getElem?_eq_none (by rw [hcount]; omega),
      List.getElem?_eq_none (by rw [List.length_range]; omega)]
    rfl

/-- C18, amended.  `st` is the state in which the outer loop is entered, before
any refill, so `st.stdin` is the payload, of length `P`; `CAP` is
`sizeofReadBuf B`.  For the `k`-th iteration that is run (from 0): the refill
returns the occupancy `n = min CAP (P - k * CAP)` and the first `n` bytes of the
working buffer during its inner loop are the payload bytes from `k * CAP` on.
The refills of the run are those of its iterations, each a request for `CAP`
bytes at index 0.  Every decode call logged in the `k`-th iteration whose
cursor `o` is within the occupancy is passed the payload bytes
`[k * CAP + o, k * CAP + n)`, which lie in the `k`-th chunk, with length
`n - o`; and every decode call has its cursor within the occupancy when the
decoder reports "no more data" on an empty slice and no instruction longer than
the slice it was given (or of length 0).  When every inner loop is left within
`bound` rounds and the budget is at least `P / CAP + 1 + bound`, the run returns
exit code 0 after exactly `P / CAP + 1` iterations, with the refills
`(0, CAP, min CAP (P - k * CAP))` for `k = 0, ..., P / CAP`. -/
theorem chunkwise_decoding {S I : Type} (B : Build) (Z : Zydis S I) (fuel bound : Nat)
    (st : Outer S I)
    (hcap : sizeofReadBuf B < SIZE_MOD) (hpos : 0 < B.ZYDIS_MAX_INSTRUCTION_LENGTH)
    (hst : refills st.log = []) :
    (∀ k it, (iterations B Z fuel st)[k]? = some it →
      it.numBytesRead = min (sizeofReadBuf B) (st.stdin.length - k * sizeofReadBuf B) ∧
      it.filled.take it.numBytesRead =
        (st.stdin.drop (k * sizeofReadBuf B)).take it.numBytesRead) ∧
    refills (outerLoop B Z fuel st).log =
      (iterations B Z fuel st).map (fun it => (0, sizeofReadBuf B, it.numBytesRead)) ∧
    (callsByRefill (outerLoop B Z fuel st).log).map (fun g => g.1) =
      (iterations B Z fuel st).map (fun it => it.numBytesRead) ∧
    (∀ k n calls, (callsByRefill (outerLoop B Z fuel st).log)[k]? = some (n, calls) →
      n = min (sizeofReadBuf B) (st.stdin.length - k * sizeofReadBuf B) ∧
      ∀ a ∈ calls, a.2.2 ≤ n →
        a.1 = (st.stdin.drop (k * sizeofReadBuf B + a.2.2)).take (n - a.2.2) ∧
        a.2.1 = n - a.2.2 ∧
        k * sizeofReadBuf B + a.2.2 + (n - a.2.2) ≤ (k + 1) * sizeofReadBuf B) ∧
    ((∀ s buffer len ip, (Z.ZydisDecoderDecodeBuffer s buffer len ip).2.1 =
        ZydisStatus.success →
      1 ≤ Z.length (Z.ZydisDecoderDecodeBuffer s buffer len ip).2.2 ∧
      Z.length (Z.ZydisDecoderDecodeBuffer s buffer len ip).2.2 ≤ len) →
     (∀ s buffer ip, (Z.ZydisDecoderDecodeBuffer s buffer 0 ip).2.1 =
        ZydisStatus.noMoreData) →
     ∀ (k n : Nat) (calls : List (List Byte × Nat × Nat)),
       (callsByRefill (outerLoop B Z fuel st).log)[k]? = some (n, calls) →
       ∀ a ∈ calls, a.2.2 ≤ n) ∧
    ((∀ (f : Nat) (st1 : Outer S I), bound ≤ f → (outerBody B Z f st1).completed = true) →
      st.stdin.length / sizeofReadBuf B + 1 + bound ≤ fuel →
      (outerLoop B Z fuel st).exitCode = some 0 ∧
      (iterations B Z fuel st).length = st.stdin.length / sizeofReadBuf B + 1 ∧
      refills (outerLoop B Z fuel st).log =
        (List.range (st.stdin.length / sizeofReadBuf B + 1)).map
          (fun k => (0, sizeofReadBuf B,
            min (sizeofReadBuf B) (st.stdin.length - k * sizeofReadBuf B)))) := by
  have hpos2 : 0 < sizeofReadBuf B := by
    unfold sizeofReadBuf
    omega
  obtain ⟨rest, hlog, _, hmap, hcalls⟩ := outerLoop_calls B Z hcap fuel st
  have hgroups : callsByRefill (outerLoop B Z fuel st).log = callsByRefill rest := by
    rw [hlog, callsByRefill_append st.log rest hst]
  rw [hgroups]
  refine ⟨?_, ?_, hmap, ?_, ?_, ?_⟩
  · intro k it h
    obtain ⟨h1, h2, _⟩ := iterations_chunk B Z fuel st k it h
    exact ⟨h1, h2⟩
  · rw [outerLoop_refills, hst, List.nil_append]
  · intro k n calls h
    obtain ⟨h1, h2⟩ := hcalls k n calls h
    refine ⟨h1, ?_⟩
    intro a ha ho
    obtain ⟨h3, h4⟩ := (h2 a ha).1 ho
    refine ⟨h3, h4, ?_⟩
    have hle : n ≤ sizeofReadBuf B := by
      rw [h1]
      exact Nat.min_le_left _ _
    rw [Nat.add_mul, Nat.one_mul]
    omega
  · intro hlen hempty k n calls h a ha
    exact ((hcalls k n calls h).2 a ha).2 hlen hempty
  · intro hterm hfuel
    obtain ⟨h1, h2⟩ := outerLoop_iterations_count B Z hpos2 bound hterm fuel st hfuel
    obtain ⟨_, h3⟩ := outerLoop_refills_of_termination B Z hpos2 bound hterm fuel st hfuel
    rw [hst, List.nil_append] at h3
    exact ⟨h1, h2, h3⟩

/-- Witness for C18 (amended): the payload `AA BB CC` in the sample build with
the one-byte-instruction double, whose inner loops are left within 15361
rounds. -/
theorem chunkwise_decoding_witness :
    (∀ k it, (iterations sampleBuild (fake 2 acceptAll oneByteDecode) 15362
        { lib := (), stdin := [0xAA, 0xBB, 0xCC], readBuf := [], log := [] })[k]? = some it →
      it.numBytesRead = min 15360 (3 - k * 15360) ∧
      it.filled.take it.numBytesRead =
        (([0xAA, 0xBB, 0xCC] : List Byte).drop (k * 15360)).take it.numBytesRead) ∧
    refills (outerLoop sampleBuild (fake 2 acceptAll oneByteDecode) 15362
        { lib := (), stdin := [0xAA, 0xBB, 0xCC], readBuf := [], log := [] }).log =
      (iterations sampleBuild (fake 2 acceptAll oneByteDecode) 15362
        { lib := (), stdin := [0xAA, 0xBB, 0xCC], readBuf := [], log := [] }).map
        (fun it => (0, 15360, it.numBytesRead)) ∧
    (callsByRefill (outerLoop sampleBuild (fake 2 acceptAll oneByteDecode) 15362
        { lib := (), stdin := [0xAA, 0xBB, 0xCC], readBuf := [], log := [] }).log).map
        (fun g => g.1) =
      (iterations sampleBuild (fake 2 acceptAll oneByteDecode) 15362
        { lib := (), stdin := [0xAA, 0xBB, 0xCC], readBuf := [], log := [] }).map
        (fun it => it.numBytesRead) ∧
    (∀ k n calls, (callsByRefill (outerLoop sampleBuild (fake 2 acceptAll oneByteDecode) 15362
        { lib := (), stdin := [0xAA, 0xBB, 0xCC], readBuf := [], log := [] }).log)[k]? =
        some (n, calls) →
      n = min 15360 (3 - k * 15360) ∧
      ∀ a ∈ calls, a.2.2 ≤ n →
        a.1 = (([0xAA, 0xBB, 0xCC] : List Byte).drop (k * 15360 + a.2.2)).take (n - a.2.2) ∧
        a.2.1 = n - a.2.2 ∧
        k * 15360 + a.2.2 + (n - a.2.2) ≤ (k + 1) * 15360) ∧
    (∀ (k n : Nat) (calls : List (List Byte × Nat × Nat)),
      (callsByRefill (outerLoop sampleBuild (fake 2 acceptAll oneByteDecode) 15362
        { lib := (), stdin := [0xAA, 0xBB, 0xCC], readBuf := [], log := [] }).log)[k]? =
        some (n, calls) →
      ∀ a ∈ calls, a.2.2 ≤ n) ∧
    (outerLoop sampleBuild (fake 2 acceptAll oneByteDecode) 15362
        { lib := (), stdin := [0xAA, 0xBB, 0xCC], readBuf := [], log := [] }).exitCode = some 0 ∧
    (iterations sampleBuild (fake 2 acceptAll oneByteDecode) 15362
        { lib := (), stdin := [0xAA, 0xBB, 0xCC], readBuf := [], log := [] }).length =
      3 / 15360 + 1 ∧
    refills (outerLoop sampleBuild (fake 2 acceptAll oneByteDecode) 15362
        { lib := (), stdin := [0xAA, 0xBB, 0xCC], readBuf := [], log := [] }).log =
      (List.range (3 / 15360 + 1)).map (fun k => (0, 15360, min 15360 (3 - k * 15360))) :=
  have h := chunkwise_decoding sampleBuild (fake 2 acceptAll oneByteDecode) 15362 15361
    { lib := (), stdin := [0xAA, 0xBB, 0xCC], readBuf := [], log := [] }
    (by decide) (by decide) rfl
  ⟨h.1, h.2.1, h.2.2.1, h.2.2.2.1,
   h.2.2.2.2.1
     (fun s b l ip hs =>
       ⟨(oneByteDecode_lengths sampleBuild (by decide) s b l ip hs).1,
        (oneByteDecode_lengths sampleBuild (by decide) s b l ip hs).2.2⟩)
     oneByteDecode_empty,
   h.2.2.2.2.2
    (fun f st1 hf =>
      (outerBody_bytewise sampleBuild (fake 2 acceptAll oneByteDecode) (by decide)
        oneByteDecode_empty
        (fun s buffer len ip hl => by simp [fake, oneByteDecode, hl]) f st1
        (lt_of_le_of_lt (Nat.min_le_left _ _) hf)).elim (fun _ hr => hr.1))
    (by decide)⟩

/-! ### The exit code of the decode phase -/

/-- C11: once the version guard has passed, the control block has been read
and the configuration has been accepted, `main` never returns a failure exit
code whatever the decoder and the formatter answer: a run that returns,
returns 0, and nothing is written to standard error (also while the run is
still going).  Replacing the status that the formatter returns by any other
changes neither the exit code nor the log apart from the formatter statuses
recorded in it: the same calls are issued, at the same cursors, in the same
order.  And the run does return: when every inner loop is left within `bound`
rounds and the budget is at least `P / CAP + 1 + bound` for a payload of `P`
bytes, the exit code is 0. -/
theorem lenient_decode_phase {S I : Type} (B : Build) (Z : Zydis S I) (lib : S)
    (readBuf : List Byte) (fuel : Nat) (stdin : List Byte)
    (hv : Z.ZydisGetVersion = B.ZYDIS_VERSION)
    (hlong : B.sizeofControlBlock ≤ stdin.length)
    (hall : firstFailure Z lib
      (configCalls B (B.castControlBlock (stdin.take B.sizeofControlBlock))) = none) :
    ((main B Z lib readBuf fuel stdin).exitCode = none ∨
      (main B Z lib readBuf fuel stdin).exitCode = some 0) ∧
    stderrLines (main B Z lib readBuf fuel stdin).log = [] ∧
    (∀ g : S → I → Nat → ZydisStatus,
      (main B (withFormatStatus Z g) lib readBuf fuel stdin).exitCode =
        (main B Z lib readBuf fuel stdin).exitCode ∧
      (main B (withFormatStatus Z g) lib readBuf fuel stdin).log.map forgetFormatStatus =
        (main B Z lib readBuf fuel stdin).log.map forgetFormatStatus) ∧
    (0 < B.ZYDIS_MAX_INSTRUCTION_LENGTH →
      ∀ bound : Nat,
        (∀ (f : Nat) (st : Outer S I), bound ≤ f → (outerBody B Z f st).completed = true) →
        (stdin.length - B.sizeofControlBlock) / sizeofReadBuf B + 1 + bound ≤ fuel →
        (main B Z lib readBuf fuel stdin).exitCode = some 0) := by
  refine ⟨?_, ?_, fun g => main_withFormatStatus B Z g lib readBuf fuel stdin, ?_⟩
  rotate_right
  · intro hpos bound hterm hfuel
    have hpos2 : 0 < sizeofReadBuf B := by
      unfold sizeofReadBuf
      omega
    rw [main_accepted B Z lib readBuf fuel stdin hv hlong hall]
    exact (outerLoop_iterations_count B Z hpos2 bound hterm fuel
      { lib := stateAfter Z lib
          (configCalls B (B.castControlBlock (stdin.take B.sizeofControlBlock))),
        stdin := stdin.drop B.sizeofControlBlock,
        readBuf := readBuf,
        log := [Event.freadControlBlock B.sizeofControlBlock B.sizeofControlBlock] ++
          answers Z lib
            (configCalls B (B.castControlBlock (stdin.take B.sizeofControlBlock))) }
      (by rw [List.length_drop]; exact hfuel)).1
  · rw [main_accepted B Z lib readBuf fuel stdin hv hlong hall]
    exact (outerLoop_lenient B Z fuel _).1
  · rw [main_accepted B Z lib readBuf fuel stdin hv hlong hall]
    obtain ⟨rest, hrest, herr⟩ := (outerLoop_lenient B Z fuel
      { lib := stateAfter Z lib
          (configCalls B (B.castControlBlock (stdin.take B.sizeofControlBlock))),
        stdin := stdin.drop B.sizeofControlBlock,
        readBuf := readBuf,
        log := [Event.freadControlBlock B.sizeofControlBlock B.sizeofControlBlock] ++
          answers Z lib
            (configCalls B (B.castControlBlock (stdin.take B.sizeofControlBlock))) }).2
    rw [hrest, stderrLines_append, stderrLines_append, stderrLines_answers, herr]
    rfl

/-- Witness for C11: scenario S4 (a failing decode, then a two-byte
instruction) on the sample build; the run returns 0. -/
theorem lenient_decode_phase_witness :
    sampleBuild.sizeofControlBlock ≤ (sampleCB ++ [0xFF, 0x66, 0x90]).length ∧
    (main sampleBuild (fake 2 acceptAll slipDecode) () [] 5
      (sampleCB ++ [0xFF, 0x66, 0x90])).exitCode = some 0 ∧
    ((main sampleBuild (fake 2 acceptAll slipDecode) () [] 5
        (sampleCB ++ [0xFF, 0x66, 0x90])).exitCode = none ∨
      (main sampleBuild (fake 2 acceptAll slipDecode) () [] 5
        (sampleCB ++ [0xFF, 0x66, 0x90])).exitCode = some 0) ∧
    stderrLines (main sampleBuild (fake 2 acceptAll slipDecode) () [] 5
      (sampleCB ++ [0xFF, 0x66, 0x90])).log = [] ∧
    (∀ g : Unit → Nat → Nat → ZydisStatus,
      (main sampleBuild (withFormatStatus (fake 2 acceptAll slipDecode) g) () [] 5
          (sampleCB ++ [0xFF, 0x66, 0x90])).exitCode =
        (main sampleBuild (fake 2 acceptAll slipDecode) () [] 5
          (sampleCB ++ [0xFF, 0x66, 0x90])).exitCode ∧
      (main sampleBuild (withFormatStatus (fake 2 acceptAll slipDecode) g) () [] 5
          (sampleCB ++ [0xFF, 0x66, 0x90])).log.map forgetFormatStatus =
        (main sampleBuild (fake 2 acceptAll slipDecode) () [] 5
          (sampleCB ++ [0xFF, 0x66, 0x90])).log.map forgetFormatStatus) ∧
    (0 < sampleBuild.ZYDIS_MAX_INSTRUCTION_LENGTH →
      ∀ bound : Nat,
        (∀ (f : Nat) (st : Outer Unit Nat), bound ≤ f →
          (outerBody sampleBuild (fake 2 acceptAll slipDecode) f st).completed = true) →
        ((sampleCB ++ [0xFF, 0x66, 0x90]).length - sampleBuild.sizeofControlBlock) /
            sizeofReadBuf sampleBuild + 1 + bound ≤ 5 →
        (main sampleBuild (fake 2 acceptAll slipDecode) () [] 5
          (sampleCB ++ [0xFF, 0x66, 0x90])).exitCode = some 0) :=
  ⟨by decide, by decide,
   lenient_decode_phase sampleBuild (fake 2 acceptAll slipDecode) () [] 5
     (sampleCB ++ [0xFF, 0x66, 0x90]) rfl (by decide) (by decide)⟩

/-! ### The exit test after a carry -/

/-- One iteration of the outer loop with the S5 double, when the refill
returns at least two bytes: the inner loop is left at cursor `n - 2` with "no
more data" on the last two bytes of the occupancy. -/
theorem outerBody_needThree (B : Build) (fuel : Nat) (st : Outer Unit Nat)
    (hcap : sizeofReadBuf B < SIZE_MOD)
    (h2 : 2 ≤ min (sizeofReadBuf B) st.stdin.length)
    (hfuel : min (sizeofReadBuf B) st.stdin.length - 2 < fuel) :
    ∃ inner, refills inner = [] ∧
      (outerBody B (fake 2 acceptAll needThree) fuel st).completed = true ∧
      (outerBody B (fake 2 acceptAll needThree) fuel st).numBytesRead =
        min (sizeofReadBuf B) st.stdin.length ∧
      (outerBody B (fake 2 acceptAll needThree) fuel st).readOffs =
        min (sizeofReadBuf B) st.stdin.length - 2 ∧
      (outerBody B (fake 2 acceptAll needThree) fuel st).next.stdin =
        st.stdin.drop (sizeofReadBuf B) ∧
      (outerBody B (fake 2 acceptAll needThree) fuel st).next.log =
        st.log ++ [Event.freadBuf 0 (sizeofReadBuf B) (min (sizeofReadBuf B) st.stdin.length)] ++
          inner ++
          [Event.call (Call.decodeBuffer
            ((st.stdin.drop (min (sizeofReadBuf B) st.stdin.length - 2)).take 2) 2
            (min (sizeofReadBuf B) st.stdin.length - 2)) ZydisStatus.noMoreData] := by
  have hnum := outerBody_numBytesRead B (fake 2 acceptAll needThree) fuel st
  have hn : (refill (I := Nat) (sizeofReadBuf B) st).2 =
      min (sizeofReadBuf B) st.stdin.length := hnum
  have hlt : (refill (I := Nat) (sizeofReadBuf B) st).2 < SIZE_MOD := by
    rw [hn]
    exact lt_of_le_of_lt (Nat.min_le_left _ _) hcap
  obtain ⟨inner, hinner, hrefills⟩ := innerLoop_needThree
    (refill (I := Nat) (sizeofReadBuf B) st).1.readBuf (refill (I := Nat) (sizeofReadBuf B) st).2
    hlt fuel
    { lib := (refill (I := Nat) (sizeofReadBuf B) st).1.lib, readOffs := 0,
      log := (refill (I := Nat) (sizeofReadBuf B) st).1.log }
    (by show 0 + 2 ≤ (refill (I := Nat) (sizeofReadBuf B) st).2; rw [hn]; omega)
    (by show (refill (I := Nat) (sizeofReadBuf B) st).2 - 2 - 0 < fuel; rw [hn]; omega)
  have hbody := outerBody_of_innerLoop B (fake 2 acceptAll needThree) fuel st _ true hinner
  obtain ⟨_, hwin⟩ := outerBody_chunk B (fake 2 acceptAll needThree) fuel st
  have hw := hwin (min (sizeofReadBuf B) st.stdin.length - 2) (by rw [hnum]; omega)
  have hfilled : (outerBody B (fake 2 acceptAll needThree) fuel st).filled =
      (refill (I := Nat) (sizeofReadBuf B) st).1.readBuf := rfl
  have htwo : min (sizeofReadBuf B) st.stdin.length -
      (min (sizeofReadBuf B) st.stdin.length - 2) = 2 := by omega
  rw [hnum, htwo, hfilled] at hw
  have hcall : decodeCall (I := Nat) (refill (I := Nat) (sizeofReadBuf B) st).1.readBuf
      (refill (I := Nat) (sizeofReadBuf B) st).2 ((refill (I := Nat) (sizeofReadBuf B) st).2 - 2) =
      Call.decodeBuffer
        ((st.stdin.drop (min (sizeofReadBuf B) st.stdin.length - 2)).take 2) 2
        (min (sizeofReadBuf B) st.stdin.length - 2) := by
    unfold decodeCall
    rw [sizeSub_of_le (Nat.sub_le _ _) hlt, hn, htwo, hw]
  refine ⟨inner, hrefills, ?_, hnum, ?_, rfl, ?_⟩
  · rw [hbody]
  · rw [hbody]
    exact congrArg (fun x => x - 2) hn
  · rw [hbody]
    show (refill (I := Nat) (sizeofReadBuf B) st).1.log ++ inner ++ _ = _
    rw [hcall]
    have hlog0 : (refill (I := Nat) (sizeofReadBuf B) st).1.log =
        st.log ++ [Event.freadBuf 0 (sizeofReadBuf B) (refill (I := Nat) (sizeofReadBuf B) st).2] :=
      rfl
    rw [hlog0, hn]
/-- Two iterations with the S5 double: an input that fills the working buffer
and leaves at least two bytes, but fewer than the buffer holds, for the second
refill.  The first iteration ends with "no more data" on the last two bytes of
the buffer; the second refill is again a request for the whole buffer, and the
run returns after the second iteration. -/
theorem outerLoop_needThree_short_second (B : Build) (fuel : Nat) (st : Outer Unit Nat)
    (hcap : sizeofReadBuf B < SIZE_MOD) (hbig : 2 ≤ sizeofReadBuf B)
    (hfull : sizeofReadBuf B ≤ st.stdin.length)
    (hrest : 2 ≤ st.stdin.length - sizeofReadBuf B)
    (hshort : st.stdin.length - sizeofReadBuf B < sizeofReadBuf B)
    (hfuel : sizeofReadBuf B ≤ fuel + 2) :
    ∃ inner1 inner2, refills inner1 = [] ∧ refills inner2 = [] ∧
      outerLoop B (fake 2 acceptAll needThree) (fuel + 2) st =
        { exitCode := some 0,
          log := st.log ++ [Event.freadBuf 0 (sizeofReadBuf B) (sizeofReadBuf B)] ++ inner1 ++
            [Event.call (Call.decodeBuffer
               ((st.stdin.drop (sizeofReadBuf B - 2)).take 2) 2 (sizeofReadBuf B - 2))
               ZydisStatus.noMoreData,
             Event.freadBuf 0 (sizeofReadBuf B) (st.stdin.length - sizeofReadBuf B)] ++ inner2 ++
            [Event.call (Call.decodeBuffer
               ((st.stdin.drop (sizeofReadBuf B + (st.stdin.length - sizeofReadBuf B - 2))).take 2)
               2 (st.stdin.length - sizeofReadBuf B - 2)) ZydisStatus.noMoreData] } := by
  have hmin1 : min (sizeofReadBuf B) st.stdin.length = sizeofReadBuf B := Nat.min_eq_left hfull
  obtain ⟨inner1, hr1, hc1, hn1, _, hs1, hl1⟩ := outerBody_needThree B (fuel + 2) st hcap
    (by rw [hmin1]; exact hbig) (by rw [hmin1]; omega)
  rw [hmin1] at hn1 hl1
  have hlen2 : (outerBody B (fake 2 acceptAll needThree) (fuel + 2) st).next.stdin.length =
      st.stdin.length - sizeofReadBuf B := by
    rw [hs1, List.length_drop]
  have hmin2 : min (sizeofReadBuf B)
      (outerBody B (fake 2 acceptAll needThree) (fuel + 2) st).next.stdin.length =
      st.stdin.length - sizeofReadBuf B := by
    rw [hlen2]
    exact Nat.min_eq_right (Nat.le_of_lt hshort)
  obtain ⟨inner2, hr2, hc2, hn2, _, _, hl2⟩ := outerBody_needThree B (fuel + 1)
    (outerBody B (fake 2 acceptAll needThree) (fuel + 2) st).next hcap
    (by rw [hmin2]; exact hrest) (by rw [hmin2]; omega)
  rw [hmin2] at hn2 hl2
  rw [hs1, List.drop_drop, hl1] at hl2
  refine ⟨inner1, inner2, hr1, hr2, ?_⟩
  have hstep1 : outerLoop B (fake 2 acceptAll needThree) (fuel + 2) st =
      outerLoop B (fake 2 acceptAll needThree) (fuel + 1)
        (outerBody B (fake 2 acceptAll needThree) (fuel + 2) st).next := by
    have h := outerLoop_succ B (fake 2 acceptAll needThree) (fuel + 1) st
    rw [show fuel + 1 + 1 = fuel + 2 from rfl] at h
    rw [h, hc1, if_pos rfl, hn1, if_pos rfl]
  rw [hstep1, outerLoop_succ, hc2, if_pos rfl, hn2, if_neg (by omega), hl2]
  simp only [List.append_assoc, List.cons_append, List.nil_append, List.singleton_append]

/-- C10, the code at the failing input `shortRefillInput`, with the S5 double.
The first iteration ends with "no more data" at cursor 15358 of the full
buffer, on the two bytes `66 0F`: a carry of two bytes.  The second refill is
again a request for 15360 bytes at index 0, not for the 15358 that a carry of
two bytes leaves room for.  It returns the 15358 bytes that are left, as many
as the smaller request would have asked for, and the harness stops after this
iteration with exit code 0: the returned count is compared with
`sizeof(readBuf)`, and there is no third refill. -/
theorem exit_test_ignores_the_carry :
    ∃ inner1 inner2 last, refills inner1 = [] ∧ refills inner2 = [] ∧
      main sampleBuild (fake 2 acceptAll needThree) () (List.replicate 15360 0) 15361
          shortRefillInput =
        { exitCode := some 0,
          log := [Event.freadControlBlock 7 7] ++
            answers (fake 2 acceptAll needThree) () (configCalls sampleBuild
              (sampleCast sampleCB)) ++
            [Event.freadBuf 0 15360 15360] ++ inner1 ++
            [Event.call (Call.decodeBuffer [0x66, 0x0F] 2 15358) ZydisStatus.noMoreData,
             Event.freadBuf 0 15360 15358] ++ inner2 ++
            [Event.call (Call.decodeBuffer last 2 15356) ZydisStatus.noMoreData] } ∧
      refills (main sampleBuild (fake 2 acceptAll needThree) () (List.replicate 15360 0) 15361
          shortRefillInput).log = [(0, 15360, 15360), (0, 15360, 15358)] := by
  have htake : shortRefillInput.take sampleBuild.sizeofControlBlock = sampleCB :=
    List.take_left' rfl
  have hdrop : shortRefillInput.drop sampleBuild.sizeofControlBlock =
      List.replicate 15358 0x90 ++ [0x66, 0x0F] ++ ([0x1F, 0x00] ++ List.replicate 15356 0x90) :=
    List.drop_left' rfl
  have hlong : sampleBuild.sizeofControlBlock ≤ shortRefillInput.length := by
    have h7 : sampleBuild.sizeofControlBlock = sampleCB.length := rfl
    unfold shortRefillInput
    rw [List.length_append, h7]
    exact Nat.le_add_right _ _
  have hall : firstFailure (fake 2 acceptAll needThree) ()
      (configCalls sampleBuild (sampleBuild.castControlBlock
        (shortRefillInput.take sampleBuild.sizeofControlBlock))) = none := by
    rw [htake]
    decide
  have hlen : (List.replicate 15358 (0x90 : Byte) ++ [0x66, 0x0F] ++
      ([0x1F, 0x00] ++ List.replicate 15356 0x90)).length = 30718 := by
    rw [List.length_append, List.length_append, List.length_append, List.length_replicate,
      List.length_replicate]
    rfl
  have hcapv : sizeofReadBuf sampleBuild = 15360 := rfl
  have htail : ((List.replicate 15358 (0x90 : Byte) ++ [0x66, 0x0F] ++
      ([0x1F, 0x00] ++ List.replicate 15356 0x90)).drop 15358).take 2 = [0x66, 0x0F] := by
    rw [List.append_assoc, List.drop_left' (List.length_replicate _ _)]
    rfl
  obtain ⟨inner1, inner2, hr1, hr2, hrun⟩ := outerLoop_needThree_short_second sampleBuild 15359
    { lib := stateAfter (fake 2 acceptAll needThree) ()
        (configCalls sampleBuild (sampleCast sampleCB)),
      stdin := List.replicate 15358 0x90 ++ [0x66, 0x0F] ++
        ([0x1F, 0x00] ++ List.replicate 15356 0x90),
      readBuf := List.replicate 15360 0,
      log := [Event.freadControlBlock 7 7] ++
        answers (fake 2 acceptAll needThree) () (configCalls sampleBuild (sampleCast sampleCB)) }
    (by decide) (by decide)
    (by show sizeofReadBuf sampleBuild ≤ (_ : List Byte).length; rw [hlen, hcapv]; decide)
    (by show 2 ≤ (_ : List Byte).length - sizeofReadBuf sampleBuild; rw [hlen, hcapv]; decide)
    (by show (_ : List Byte).length - sizeofReadBuf sampleBuild < _; rw [hlen, hcapv]; decide)
    (by decide)
  have hmain : main sampleBuild (fake 2 acceptAll needThree) () (List.replicate 15360 0) 15361
      shortRefillInput =
      { exitCode := some 0,
        log := [Event.freadControlBlock 7 7] ++
          answers (fake 2 acceptAll needThree) () (configCalls sampleBuild
            (sampleCast sampleCB)) ++
          [Event.freadBuf 0 15360 15360] ++ inner1 ++
          [Event.call (Call.decodeBuffer [0x66, 0x0F] 2 15358) ZydisStatus.noMoreData,
           Event.freadBuf 0 15360 15358] ++ inner2 ++
          [Event.call (Call.decodeBuffer
            (((List.replicate 15358 (0x90 : Byte) ++ [0x66, 0x0F] ++
              ([0x1F, 0x00] ++ List.replicate 15356 0x90)).drop (15360 + 15356)).take 2)
            2 15356) ZydisStatus.noMoreData] } := by
    rw [main_accepted sampleBuild (fake 2 acceptAll needThree) () (List.replicate 15360 0) 15361
      shortRefillInput rfl hlong hall, hdrop, htake]
    have hrun2 := hrun
    dsimp only at hrun2
    rw [hlen, hcapv] at hrun2
    rw [htail] at hrun2
    exact hrun2
  refine ⟨inner1, inner2, _, hr1, hr2, hmain, ?_⟩
  rw [hmain]
  show refills (_ ++ _ ++ _ ++ _ ++ _ ++ _ ++ _) = _
  rw [refills_append, refills_append, refills_append, refills_append, refills_append,
    refills_append, refills_answers, hr1, hr2]
  rfl

end ZydisFuzzIn
